import Mathlib

/-!
# Agent execution engine of opencode-poc

A shallow embedding of `internal/llm/agent/agent.go` (tool dispatch, event folding, usage
tracking, title generation, the turn loop and the choice of providers), of
`internal/llm/agent/task.go`, of the session service of `internal/session/session.go`, and of
the stream producer and the temperature choice of `internal/llm/provider/anthropic.go`,
together with the record types of `internal/llm/provider/provider.go`.

Conventions of the embedding:

* a Go `error` is its description (`Err`); a possibly-nil error is an `Option Err`;
* a Go `int64` is an `Int` kept in range by `wrapInt64` after every addition;
* a Go `float64` is idealised as an exact rational (`ℚ`) in the turn loop, where only the
  calls matter; `TrackUsage64` computes the cost in `float64` (`Float64`), each operation
  rounded, for the claims about the value of the cost;
* a channel of provider events is the finite list of events sent before the channel is closed;
* every call that leaves the agent (store, provider, tool dispatch, detached task) is appended
  to a log, so that ordering and counting properties can be stated.
-/

namespace Opencode

/-- Description of a non-nil Go `error`. -/
abbrev Err := String

/-! ## Records of the `message` and `tools` packages, as the agent uses them -/

/-- Role of a message (`message.User`, `message.Assistant`, `message.Tool`). -/
inductive MessageRole
  | User
  | Assistant
  | Tool
  deriving DecidableEq, Repr, Inhabited

/-- A tool call requested by the model (`message.ToolCall`); `Type_` is its Go field `Type`. -/
structure ToolCall where
  ID : String
  Name : String
  Input : String
  Type_ : String
  deriving DecidableEq, Repr, Inhabited

/-- The outcome of one tool call (`message.ToolResult`); its default is Go's zero value. -/
structure ToolResult where
  ToolCallID : String := ""
  Content : String := ""
  IsError : Bool := false
  deriving DecidableEq, Repr, Inhabited

/-- The invocation handed to a tool (`tools.ToolCall`). -/
structure tools.ToolCall where
  ID : String
  Name : String
  Input : String
  deriving DecidableEq, Repr, Inhabited

/-- What a tool hands back when it does not fail (`tools.ToolResponse`). -/
structure tools.ToolResponse where
  Content : String
  IsError : Bool
  deriving DecidableEq, Repr, Inhabited

/-- A tool (`tools.BaseTool`): the name reported by `Info()` and the `Run` method, a function
of the invocation which either returns a response or fails with an error. -/
structure tools.BaseTool where
  Name : String
  Run : tools.ToolCall → Except Err tools.ToolResponse

/-- A conversation message (`message.Message`). -/
structure Message where
  ID : String
  SessionID : String
  Role : MessageRole
  Content : String
  Thinking : String
  ToolCalls : List ToolCall
  ToolResults : List ToolResult
  Finished : Bool
  deriving DecidableEq, Repr, Inhabited

/-- Arguments of `Messages.Create` (`message.CreateMessageParams`); unset fields are Go zero
values. -/
structure CreateMessageParams where
  Role : MessageRole
  Content : String := ""
  ToolCalls : List ToolCall := []
  ToolResults : List ToolResult := []
  deriving DecidableEq, Repr, Inhabited

/-! ## Tool dispatch (`ExecuteTools`) -/

/-- The lookup loop of one dispatch goroutine (agent.go lines 113-134): scan the tool set in
order, run the first tool whose name equals the requested name and stop; the result is
`(response, isError, found)`. -/
def lookupAndRun (toolCall : ToolCall) : List tools.BaseTool → String × Bool × Bool
  | [] => ("", false, false)
  | tool :: rest =>
    if tool.Name = toolCall.Name then
      match tool.Run { ID := toolCall.ID, Name := toolCall.Name, Input := toolCall.Input } with
      | .error toolErr => ("error running tool: " ++ toolErr, true, true)
      | .ok toolResult => (toolResult.Content, toolResult.IsError, true)
    else lookupAndRun toolCall rest

/-- The value one dispatch goroutine writes into its slot (agent.go lines 113-148). -/
def runToolCall (tls : List tools.BaseTool) (toolCall : ToolCall) : ToolResult :=
  let r := lookupAndRun toolCall tls
  let response := if r.2.2 then r.1 else "tool not found: " ++ toolCall.Name
  let isError := if r.2.2 then r.2.1 else true
  { ToolCallID := toolCall.ID, Content := response, IsError := isError }

/-- One goroutine reaching its write `toolResults[index] = ...` under the mutex. -/
def writeSlot (toolCalls : List ToolCall) (tls : List tools.BaseTool)
    (toolResults : List ToolResult) (index : Nat) : List ToolResult :=
  match toolCalls[index]? with
  | some toolCall => toolResults.set index (runToolCall tls toolCall)
  | none => toolResults

/-- The dispatch under a completion order: `order` lists the goroutine indices in the order in
which they take the mutex and write their slot of the pre-sized result slice. The error
returned is always nil. -/
def ExecuteToolsIn (order : List Nat) (toolCalls : List ToolCall) (tls : List tools.BaseTool) :
    List ToolResult × Option Err :=
  (order.foldl (writeSlot toolCalls tls) (List.replicate toolCalls.length {}), none)

/-- The dispatch `ExecuteTools` with the goroutines completing in launch order. -/
def ExecuteTools (toolCalls : List ToolCall) (tls : List tools.BaseTool) :
    List ToolResult × Option Err :=
  ExecuteToolsIn (List.range toolCalls.length) toolCalls tls

/-! ## Records of `provider.go`, `session.go` and the model table -/

/-- Kind of a streaming event (`provider.EventType`, a Go string type). -/
abbrev EventType := String

def EventContentStart : EventType := "content_start"
def EventContentDelta : EventType := "content_delta"
def EventThinkingDelta : EventType := "thinking_delta"
def EventContentStop : EventType := "content_stop"
def EventComplete : EventType := "complete"
def EventError : EventType := "error"

/-- Token accounting of one response (`provider.TokenUsage`); the fields are `int64`. -/
structure TokenUsage where
  InputTokens : Int := 0
  OutputTokens : Int := 0
  CacheCreationTokens : Int := 0
  CacheReadTokens : Int := 0
  deriving DecidableEq, Repr, Inhabited

/-- The finalized response (`provider.ProviderResponse`). -/
structure ProviderResponse where
  Content : String := ""
  ToolCalls : List ToolCall := []
  Usage : TokenUsage := {}
  deriving DecidableEq, Repr, Inhabited

/-- One streaming event (`provider.ProviderEvent`); a nil pointer or nil error is `none`. -/
structure ProviderEvent where
  Type_ : EventType
  Content : String := ""
  Thinking : String := ""
  ToolCall : Option ToolCall := none
  Error : Option Err := none
  Response : Option ProviderResponse := none
  deriving DecidableEq, Repr, Inhabited

/-- Kind of a provider (`models.ModelProvider`, a Go string type). -/
abbrev ModelProvider := String

/-- A model of the table of supported models (`models.Model`), as far as the agent reads it:
four per-million-token rates, the provider that serves it and its vendor name. -/
structure Model where
  CostPer1MIn : ℚ
  CostPer1MOut : ℚ
  CostPer1MInCached : ℚ
  CostPer1MOutCached : ℚ
  Provider : ModelProvider := ""
  APIModel : String := ""
  deriving DecidableEq, Repr, Inhabited

/-- A conversation thread (`session.Session`). -/
structure Session where
  ID : String
  ParentSessionID : String := ""
  Title : String := ""
  MessageCount : Int := 0
  PromptTokens : Int := 0
  CompletionTokens : Int := 0
  Cost : ℚ := 0
  CreatedAt : Int := 0
  UpdatedAt : Int := 0
  deriving DecidableEq, Repr, Inhabited

/-- Two's-complement wrap-around of Go's `int64` arithmetic. -/
def wrapInt64 (x : Int) : Int := (x + 2 ^ 63) % 2 ^ 64 - 2 ^ 63

/-- Kind of a broker event (`pubsub.CreatedEvent`, `UpdatedEvent`, `DeletedEvent`). -/
inductive EventKind
  | CreatedEvent
  | UpdatedEvent
  | DeletedEvent
  deriving DecidableEq, Repr, Inhabited

/-! ## The world the agent runs in -/

/-- A call that leaves the agent, in the order the calls are made. -/
inductive Action
  | MessagesList (sessionID : String)
  | MessagesCreate (sessionID : String) (params : CreateMessageParams)
  | MessagesUpdate (msg : Message)
  | SessionsGet (id : String)
  | SessionsSave (session : Session)
  | Publish (kind : EventKind) (session : Session)
  | StreamResponse (messages : List Message)
  | ExecuteTools (toolCalls : List ToolCall)
  | TitleGeneration (sessionID : String) (content : String)
  deriving DecidableEq, Repr

/-- The mutable state around the agent: the two tables of the store, the counter for fresh
message ids, the number of store operations and of streaming calls made so far, and the log of
calls (oldest first). -/
structure World where
  messages : List Message := []
  sessions : List Session := []
  nextID : Nat := 0
  tick : Nat := 0
  calls : Nat := 0
  log : List Action := []
  deriving DecidableEq, Repr

/-- What the agent is constructed with, and how its collaborators behave: `faults n` is the
error, if any, with which the `n`-th store operation fails; `stream n history` is what the
`n`-th call of the provider's `StreamResponse` returns, the events being those sent on the
channel before it is closed; `titleGenerator` is the one-shot `SendMessages` of the title
provider; `tools` and `model` are the agent's fields. -/
structure Env where
  faults : Nat → Option Err
  stream : Nat → List Message → Except Err (List ProviderEvent)
  titleGenerator : List Message → Except Err (Option ProviderResponse)
  tools : List tools.BaseTool
  model : Model

/-- How a Go function ends: with a nil error, with a non-nil error, or in a run-time panic. -/
inductive Result (α : Type)
  | ok (a : α)
  | err (e : Err)
  | panic
  deriving DecidableEq, Repr

/-- A possibly-nil error as the end of a function that returns only an error. -/
def Result.ofErr : Option Err → Result Unit
  | none => .ok ()
  | some e => .err e

/-- Append one call to the log. -/
def World.record (w : World) (a : Action) : World := { w with log := w.log ++ [a] }

/-- Count one more store operation. -/
def World.step (w : World) : World := { w with tick := w.tick + 1 }

/-! ## The message service -/

/-- Modelled from the spec: `Messages.Create` of the `message` package, which is not among the
sources. A record with a fresh identifier, the given session, role, content, tool calls and
tool results, an empty thinking trace and `Finished = false` is appended to the message
table; when the store fails nothing is stored. -/
def Messages.Create (env : Env) (w : World) (sessionID : String) (params : CreateMessageParams) :
    Except Err Message × World :=
  let w1 := w.record (.MessagesCreate sessionID params)
  match env.faults w1.tick with
  | some e => (.error e, w1.step)
  | none =>
    let msg : Message :=
      { ID := "msg-" ++ toString w1.nextID, SessionID := sessionID, Role := params.Role,
        Content := params.Content, Thinking := "", ToolCalls := params.ToolCalls,
        ToolResults := params.ToolResults, Finished := false }
    (.ok msg, { w1.step with nextID := w1.nextID + 1, messages := w1.messages ++ [msg] })

/-- Modelled from the spec: `Messages.Update` of the `message` package, which is not among the
sources. The stored record with the identifier of `msg` is replaced by `msg`; when the store
fails nothing changes. -/
def Messages.Update (env : Env) (w : World) (msg : Message) : Option Err × World :=
  let w1 := w.record (.MessagesUpdate msg)
  match env.faults w1.tick with
  | some e => (some e, w1.step)
  | none =>
    (none, { w1.step with messages := w1.messages.map fun m => if m.ID = msg.ID then msg else m })

/-- Modelled from the spec: `Messages.List` of the `message` package, which is not among the
sources. The stored messages of the session, in creation order. -/
def Messages.List (env : Env) (w : World) (sessionID : String) :
    Except Err (List Message) × World :=
  let w1 := w.record (.MessagesList sessionID)
  match env.faults w1.tick with
  | some e => (.error e, w1.step)
  | none => (.ok (w1.messages.filter fun m => m.SessionID = sessionID), w1.step)

/-! ## The session service (`session.go`) -/

/-- Arguments of the update query (`db.UpdateSessionParams`). -/
structure UpdateSessionParams where
  ID : String
  Title : String
  PromptTokens : Int
  CompletionTokens : Int
  Cost : ℚ
  deriving DecidableEq, Repr

/-- Modelled from the spec: the query `GetSessionByID` of the `db` package, whose generated
code is not among the sources. The row with the given identifier, or an error when the store
fails or holds no such row. -/
def db.GetSessionByID (env : Env) (w : World) (id : String) : Except Err Session × World :=
  match env.faults w.tick with
  | some e => (.error e, w.step)
  | none =>
    match w.sessions.find? fun s => s.ID = id with
    | some s => (.ok s, w.step)
    | none => (.error "sql: no rows in result set", w.step)

/-- Modelled from the spec: the query `UpdateSession` of the `db` package, whose generated code
is not among the sources. Title, token counters and cost of the row with the given identifier
are overwritten and the updated row is returned; an error when the store fails or holds no
such row. -/
def db.UpdateSession (env : Env) (w : World) (arg : UpdateSessionParams) :
    Except Err Session × World :=
  match env.faults w.tick with
  | some e => (.error e, w.step)
  | none =>
    match w.sessions.find? fun s => s.ID = arg.ID with
    | none => (.error "sql: no rows in result set", w.step)
    | some s =>
      let row : Session :=
        { s with Title := arg.Title, PromptTokens := arg.PromptTokens,
                 CompletionTokens := arg.CompletionTokens, Cost := arg.Cost }
      (.ok row,
        { w.step with sessions := w.sessions.map fun t => if t.ID = arg.ID then row else t })

/-- The method `Get` of the session service (session.go lines 80-86). -/
def service.Get (env : Env) (w : World) (id : String) : Except Err Session × World :=
  match db.GetSessionByID env (w.record (.SessionsGet id)) id with
  | (.error err, w1) => (.error err, w1)
  | (.ok dbSession, w1) => (.ok dbSession, w1)

/-- The method `Save` of the session service (session.go lines 88-102): update the row, then
publish one updated-event carrying the stored session. -/
def service.Save (env : Env) (w : World) (session : Session) : Except Err Session × World :=
  match db.UpdateSession env (w.record (.SessionsSave session))
      { ID := session.ID, Title := session.Title, PromptTokens := session.PromptTokens,
        CompletionTokens := session.CompletionTokens, Cost := session.Cost } with
  | (.error err, w1) => (.error err, w1)
  | (.ok dbSession, w1) => (.ok dbSession, w1.record (.Publish .UpdatedEvent dbSession))

/-! ## The agent (`agent.go`) -/

/-- The monetary delta of one usage record (agent.go lines 62-65), the rates being per million
tokens, in exact arithmetic; `usageCost64` is the same expression in `float64`, as the source
evaluates it. -/
def usageCost (model : Model) (usage : TokenUsage) : ℚ :=
  model.CostPer1MInCached / 1000000 * (usage.CacheCreationTokens : ℚ) +
    model.CostPer1MOutCached / 1000000 * (usage.CacheReadTokens : ℚ) +
    model.CostPer1MIn / 1000000 * (usage.InputTokens : ℚ) +
    model.CostPer1MOut / 1000000 * (usage.OutputTokens : ℚ)

/-- The method `TrackUsage` (agent.go lines 56-73), with the cost in exact arithmetic: the
calls it makes, its result and the token counters are those of the source; `TrackUsage64` has
the cost in `float64`. -/
def TrackUsage (env : Env) (w : World) (sessionID : String) (model : Model)
    (usage : TokenUsage) : Option Err × World :=
  match service.Get env w sessionID with
  | (.error err, w1) => (some err, w1)
  | (.ok session, w1) =>
    let cost := usageCost model usage
    let session : Session :=
      { session with
        Cost := session.Cost + cost
        CompletionTokens := wrapInt64 (session.CompletionTokens + usage.OutputTokens)
        PromptTokens := wrapInt64 (session.PromptTokens + usage.InputTokens) }
    match service.Save env w1 session with
    | (.error err, w2) => (some err, w2)
    | (.ok _, w2) => (none, w2)

/-- The method `processEvent` (agent.go lines 75-101); the message behind the pointer is
returned next to the result. Reading `event.Response` when it is nil is a panic. -/
def processEvent (env : Env) (w : World) (sessionID : String) (assistantMsg : Message)
    (event : ProviderEvent) : Result Unit × Message × World :=
  if event.Type_ = EventThinkingDelta then
    let assistantMsg := { assistantMsg with Thinking := assistantMsg.Thinking ++ event.Thinking }
    match Messages.Update env w assistantMsg with
    | (err, w1) => (Result.ofErr err, assistantMsg, w1)
  else if event.Type_ = EventContentDelta then
    let assistantMsg := { assistantMsg with Content := assistantMsg.Content ++ event.Content }
    match Messages.Update env w assistantMsg with
    | (err, w1) => (Result.ofErr err, assistantMsg, w1)
  else if event.Type_ = EventError then
    (Result.ofErr event.Error, assistantMsg, w)
  else if event.Type_ = EventComplete then
    match event.Response with
    | none => (.panic, assistantMsg, w)
    | some response =>
      let assistantMsg := { assistantMsg with ToolCalls := response.ToolCalls }
      match Messages.Update env w assistantMsg with
      | (some err, w1) => (.err err, assistantMsg, w1)
      | (none, w1) =>
        match TrackUsage env w1 sessionID env.model response.Usage with
        | (err, w2) => (Result.ofErr err, assistantMsg, w2)
  else (.ok (), assistantMsg, w)

/-- The method `handleToolExecution` (agent.go lines 156-175). When `Messages.Create` fails Go
returns a pointer to a zero message next to the error; the caller never reads it and the
embedding returns no message there. -/
def handleToolExecution (env : Env) (w : World) (assistantMsg : Message) :
    (Option Message × Option Err) × World :=
  if assistantMsg.ToolCalls.length = 0 then ((none, none), w)
  else
    match ExecuteTools assistantMsg.ToolCalls env.tools with
    | (_, some err) => ((none, some err), w.record (.ExecuteTools assistantMsg.ToolCalls))
    | (toolResults, none) =>
      match Messages.Create env (w.record (.ExecuteTools assistantMsg.ToolCalls))
          assistantMsg.SessionID { Role := .Tool, ToolResults := toolResults } with
      | (.error err, w1) => ((none, some err), w1)
      | (.ok msg, w1) => ((some msg, none), w1)

/-- The call `c.agent.StreamResponse` of the loop (agent.go line 198). -/
def StreamResponse (env : Env) (w : World) (messages : List Message) :
    Except Err (List ProviderEvent) × World :=
  (env.stream w.calls messages,
    { w.record (.StreamResponse messages) with calls := w.calls + 1 })

/-- The inner loop over the event channel (agent.go lines 210-217): fold the events into the
Assistant message until the channel is closed or an event fails; on failure the message is
marked finished and updated once more, the result of that update being dropped. -/
def consumeEvents (env : Env) (sessionID : String) :
    World → Message → List ProviderEvent → Result Unit × Message × World
  | w, assistantMsg, [] => (.ok (), assistantMsg, w)
  | w, assistantMsg, event :: rest =>
    match processEvent env w sessionID assistantMsg event with
    | (.ok _, assistantMsg, w1) => consumeEvents env sessionID w1 assistantMsg rest
    | (.err err, assistantMsg, w1) =>
      let assistantMsg := { assistantMsg with Finished := true }
      (.err err, assistantMsg, (Messages.Update env w1 assistantMsg).2)
    | (.panic, assistantMsg, w1) => (.panic, assistantMsg, w1)

/-- How one pass through the body of the outer loop ends: `generate` returns, or the loop goes
round again with the extended history. -/
inductive Step
  | exit (r : Result Unit)
  | next (messages : List Message)
  deriving DecidableEq, Repr

/-- One pass through the body of the outer loop (agent.go lines 198-233). Next to the way the
pass ends, the Assistant message of the pass is returned in its last state, once it has been
created. -/
def loopBody (env : Env) (w : World) (sessionID : String) (messages : List Message) :
    Step × Option Message × World :=
  match StreamResponse env w messages with
  | (.error err, w1) => (.exit (.err err), none, w1)
  | (.ok eventChan, w1) =>
    match Messages.Create env w1 sessionID { Role := .Assistant, Content := "" } with
    | (.error err, w2) => (.exit (.err err), none, w2)
    | (.ok assistantMsg, w2) =>
      match consumeEvents env sessionID w2 assistantMsg eventChan with
      | (.err err, assistantMsg, w3) => (.exit (.err err), some assistantMsg, w3)
      | (.panic, assistantMsg, w3) => (.exit .panic, some assistantMsg, w3)
      | (.ok _, assistantMsg, w3) =>
        match handleToolExecution env w3 assistantMsg with
        | ((msg, err), w4) =>
          let assistantMsg := { assistantMsg with Finished := true }
          let w5 := (Messages.Update env w4 assistantMsg).2
          match err with
          | some err => (.exit (.err err), some assistantMsg, w5)
          | none =>
            if assistantMsg.ToolCalls.length = 0 then (.exit (.ok ()), some assistantMsg, w5)
            else
              match msg with
              | some msg => (.next (messages ++ [assistantMsg] ++ [msg]), some assistantMsg, w5)
              | none => (.next (messages ++ [assistantMsg]), some assistantMsg, w5)

/-- The outer loop of `generate` (agent.go lines 196-235), run for at most `fuel` passes;
`none` when the passes are used up before the loop is left. -/
def generateLoop (env : Env) (sessionID : String) :
    Nat → World → List Message → Option (Result Unit × World)
  | 0, _, _ => none
  | fuel + 1, w, messages =>
    match loopBody env w sessionID messages with
    | (.exit r, _, w1) => some (r, w1)
    | (.next messages, _, w1) => generateLoop env sessionID fuel w1 messages

/-- The method `generate` (agent.go lines 177-236). Starting the detached title task is a log
entry; the task itself is `handleTitleGeneration`. -/
def generate (env : Env) (fuel : Nat) (w : World) (sessionID : String) (content : String) :
    Option (Result Unit × World) :=
  match Messages.List env w sessionID with
  | (.error err, w1) => some (.err err, w1)
  | (.ok messages, w1) =>
    let w2 := if messages.length = 0 then w1.record (.TitleGeneration sessionID content) else w1
    match Messages.Create env w2 sessionID { Role := .User, Content := content } with
    | (.error err, w3) => some (.err err, w3)
    | (.ok userMsg, w3) => generateLoop env sessionID fuel w3 (messages ++ [userMsg])

/-! ## Observations on a run -/

/-- Is the logged call a call of the provider's `StreamResponse`? -/
def Action.isStreamResponse : Action → Bool
  | .StreamResponse _ => true
  | _ => false

/-- Is the logged call a tool dispatch? -/
def Action.isExecuteTools : Action → Bool
  | .ExecuteTools _ => true
  | _ => false

/-- Number of provider calls made so far. -/
def World.providerCalls (w : World) : Nat := w.log.countP Action.isStreamResponse

/-- Number of tool dispatches made so far. -/
def World.dispatches (w : World) : Nat := w.log.countP Action.isExecuteTools

/-- The answer text carried by a sequence of events: the fragments of its content-delta events,
concatenated in arrival order. -/
def contentOf (events : List ProviderEvent) : String :=
  String.join ((events.filter fun e => e.Type_ = EventContentDelta).map fun e => e.Content)

/-- The thinking trace carried by a sequence of events: the fragments of its thinking-delta
events, concatenated in arrival order. -/
def thinkingOf (events : List ProviderEvent) : String :=
  String.join ((events.filter fun e => e.Type_ = EventThinkingDelta).map fun e => e.Thinking)

/-- The calls counted by `providerCalls` and `dispatches` are the same in both worlds. -/
def SameCalls (w w1 : World) : Prop :=
  w1.providerCalls = w.providerCalls ∧ w1.dispatches = w.dispatches

/-- The stored session with the given identifier. -/
def World.session (w : World) (id : String) : Option Session :=
  w.sessions.find? fun s => s.ID = id

/-- The range of Go's `int64`. -/
def inInt64 (x : Int) : Prop := -2 ^ 63 ≤ x ∧ x < 2 ^ 63

instance (x : Int) : Decidable (inInt64 x) := inferInstanceAs (Decidable (_ ∧ _))

/-- The session as `TrackUsage` saves it: cost and token counters grown by one usage record. -/
def Session.track (s : Session) (model : Model) (usage : TokenUsage) : Session :=
  { s with
    Cost := s.Cost + usageCost model usage
    CompletionTokens := wrapInt64 (s.CompletionTokens + usage.OutputTokens)
    PromptTokens := wrapInt64 (s.PromptTokens + usage.InputTokens) }

/-- No store operation ever fails. -/
def Env.faultFree (env : Env) : Prop := ∀ n, env.faults n = none

/-- The event signals no failure: it is not an Error event carrying an error, and if it is a
Complete event it carries its response. -/
def ProviderEvent.benign (ev : ProviderEvent) : Prop :=
  (ev.Type_ = EventError → ev.Error = none) ∧ (ev.Type_ = EventComplete → ev.Response ≠ none)

instance (ev : ProviderEvent) : Decidable ev.benign := inferInstanceAs (Decidable (_ ∧ _))

/-! ## A concrete run: the end-to-end scenario of the specification -/

/-- A directory-listing tool that answers every call with one file name. -/
def lsTool : tools.BaseTool :=
  { Name := "ls", Run := fun _ => .ok { Content := "a.txt", IsError := false } }

/-- The one tool call of the scenario. -/
def scenarioCall : ToolCall := { ID := "tc1", Name := "ls", Input := "\x7b\x7d", Type_ := "tool_use" }

/-- The scripted provider of the scenario: the first stream yields two content deltas and then
Complete with one tool call; every later stream yields Complete with no tool call and the
response content `"Done."`. -/
def scenarioStream : Nat → List Message → Except Err (List ProviderEvent)
  | 0, _ =>
    .ok [ { Type_ := EventContentDelta, Content := "Sure, " },
          { Type_ := EventContentDelta, Content := "checking..." },
          { Type_ := EventComplete,
            Response := some { Content := "Sure, checking...", ToolCalls := [scenarioCall],
                               Usage := { InputTokens := 1000000, OutputTokens := 500000 } } } ]
  | _, _ => .ok [ { Type_ := EventComplete, Response := some { Content := "Done." } } ]

/-- The agent of the scenario: a store that never fails, the scripted provider, the tool `ls`
and the rates 3 and 15 per million input and output tokens. -/
def scenarioEnv : Env :=
  { faults := fun _ => none
    stream := scenarioStream
    titleGenerator := fun _ => .error "title provider unavailable"
    tools := [lsTool]
    model := { CostPer1MIn := 3, CostPer1MOut := 15, CostPer1MInCached := 0,
               CostPer1MOutCached := 0 } }

/-- The store of the scenario: one session, no message. -/
def scenarioWorld : World := { sessions := [{ ID := "s1" }] }

/-- A stream prefix with both kinds of delta and both markers. -/
def sampleEvents : List ProviderEvent :=
  [ { Type_ := EventContentStart },
    { Type_ := EventContentDelta, Content := "Sure, " },
    { Type_ := EventThinkingDelta, Thinking := "hm" },
    { Type_ := EventContentDelta, Content := "checking..." },
    { Type_ := EventContentStop } ]

/-- The empty Assistant message with which the first pass of the scenario starts when it is
created in `scenarioWorld`. -/
def sampleAssistant : Message :=
  { ID := "msg-0", SessionID := "s1", Role := .Assistant, Content := "", Thinking := "",
    ToolCalls := [], ToolResults := [], Finished := false }

/-- A store whose only session has used up the whole positive range of its prompt-token
counter. -/
def fullWorld : World := { sessions := [{ ID := "s1", PromptTokens := 9223372036854775807 }] }

/-- The agent of the scenario with a provider whose stream breaks after one content delta and
one thinking delta. -/
def brokenEnv : Env :=
  { scenarioEnv with
    stream := fun _ _ =>
      .ok [ { Type_ := EventContentDelta, Content := "Sure, " },
            { Type_ := EventThinkingDelta, Thinking := "hm" },
            { Type_ := EventError, Error := some "connection reset" },
            { Type_ := EventContentDelta, Content := "never seen" } ] }

/-- The agent of the scenario over a store whose tenth operation fails. In the scenario that
operation is the `Messages.Update` which marks the first Assistant message finished. -/
def lockedEnv : Env :=
  { scenarioEnv with faults := fun n => if n = 9 then some "database is locked" else none }

/-- The state in which the pass over the broken stream reaches the Error event: the result of
consuming the two deltas that precede it. -/
def brokenPass : Result Unit × Message × World :=
  consumeEvents brokenEnv "s1"
    (Messages.Create brokenEnv (StreamResponse brokenEnv scenarioWorld []).2 "s1"
      { Role := .Assistant, Content := "" }).2
    sampleAssistant
    [ { Type_ := EventContentDelta, Content := "Sure, " },
      { Type_ := EventThinkingDelta, Thinking := "hm" } ]

/-- The four messages the store holds at the end of the scenario. -/
def scenarioMessages : List Message :=
  [ { ID := "msg-0", SessionID := "s1", Role := .User, Content := "list files", Thinking := "",
      ToolCalls := [], ToolResults := [], Finished := false },
    { ID := "msg-1", SessionID := "s1", Role := .Assistant, Content := "Sure, checking...",
      Thinking := "", ToolCalls := [scenarioCall], ToolResults := [], Finished := true },
    { ID := "msg-2", SessionID := "s1", Role := .Tool, Content := "", Thinking := "",
      ToolCalls := [],
      ToolResults := [{ ToolCallID := "tc1", Content := "a.txt", IsError := false }],
      Finished := false },
    { ID := "msg-3", SessionID := "s1", Role := .Assistant, Content := "", Thinking := "",
      ToolCalls := [], ToolResults := [], Finished := true } ]

/-! ## Title generation (`agent.go`) and the other mutations of the session service -/

/-- The history which `handleTitleGeneration` hands to the title provider: one User message
holding the text. -/
def titleRequest (content : String) : List Message :=
  [{ ID := "", SessionID := "", Role := .User, Content := content, Thinking := "",
     ToolCalls := [], ToolResults := [], Finished := false }]

/-- The method `handleTitleGeneration` (agent.go lines 31-54), the task which `generate` starts
detached. The title provider is asked with one User message holding the text; the result of
`Sessions.Save` is dropped. Reading `response.Content` when the provider returned neither a
response nor an error is a panic. -/
def handleTitleGeneration (env : Env) (w : World) (sessionID : String) (content : String) :
    Result Unit × World :=
  match env.titleGenerator (titleRequest content) with
  | .error _ => (.ok (), w)
  | .ok response =>
    match service.Get env w sessionID with
    | (.error _, w1) => (.ok (), w1)
    | (.ok session, w1) =>
      match response with
      | none => (.panic, w1)
      | some response =>
        if response.Content ≠ "" then
          (.ok (), (service.Save env w1 { session with Title := response.Content }).2)
        else (.ok (), w1)

/-- Arguments of the insert query (`db.CreateSessionParams`); a parent that is not set is the
empty string. -/
structure CreateSessionParams where
  ID : String
  ParentSessionID : String := ""
  Title : String
  deriving DecidableEq, Repr

/-- Modelled from the spec: the query `CreateSession` of the `db` package, whose generated code
is not among the sources. A row with the given identifier, parent and title and with zero
counters is added and returned; an error when the store fails or already holds a row with that
identifier. -/
def db.CreateSession (env : Env) (w : World) (arg : CreateSessionParams) :
    Except Err Session × World :=
  match env.faults w.tick with
  | some e => (.error e, w.step)
  | none =>
    match w.sessions.find? fun s => s.ID = arg.ID with
    | some _ => (.error "UNIQUE constraint failed: sessions.id", w.step)
    | none =>
      let row : Session :=
        { ID := arg.ID, ParentSessionID := arg.ParentSessionID, Title := arg.Title }
      (.ok row, { w.step with sessions := w.sessions ++ [row] })

/-- Modelled from the spec: the query `DeleteSession` of the `db` package, whose generated code
is not among the sources. The row with the given identifier is removed; an error when the store
fails. -/
def db.DeleteSession (env : Env) (w : World) (id : String) : Option Err × World :=
  match env.faults w.tick with
  | some e => (some e, w.step)
  | none => (none, { w.step with sessions := w.sessions.filter fun s => s.ID ≠ id })

/-- The method `Create` of the session service (session.go lines 40-51); `id` is the string
of the fresh `uuid.New()`. -/
def service.Create (env : Env) (w : World) (id : String) (title : String) :
    Except Err Session × World :=
  match db.CreateSession env w { ID := id, Title := title } with
  | (.error err, w1) => (.error err, w1)
  | (.ok dbSession, w1) => (.ok dbSession, w1.record (.Publish .CreatedEvent dbSession))

/-- The method `CreateTaskSession` of the session service (session.go lines 53-65). -/
def service.CreateTaskSession (env : Env) (w : World) (toolCallID parentSessionID : String)
    (title : String) : Except Err Session × World :=
  match db.CreateSession env w
      { ID := toolCallID, ParentSessionID := parentSessionID, Title := title } with
  | (.error err, w1) => (.error err, w1)
  | (.ok dbSession, w1) => (.ok dbSession, w1.record (.Publish .CreatedEvent dbSession))

/-- The method `Delete` of the session service (session.go lines 67-78). -/
def service.Delete (env : Env) (w : World) (id : String) : Option Err × World :=
  match service.Get env w id with
  | (.error err, w1) => (some err, w1)
  | (.ok session, w1) =>
    match db.DeleteSession env w1 session.ID with
    | (some err, w2) => (some err, w2)
    | (none, w2) => (none, w2.record (.Publish .DeletedEvent session))

/-- The broker events published so far, oldest first. -/
def World.published (w : World) : List (EventKind × Session) :=
  w.log.filterMap fun a =>
    match a with
    | .Publish kind session => some (kind, session)
    | _ => none

/-- Is the logged call the start of the detached title task? -/
def Action.isTitleGeneration : Action → Bool
  | .TitleGeneration _ _ => true
  | _ => false

/-- Number of title tasks started so far. -/
def World.titleTasks (w : World) : Nat := w.log.countP Action.isTitleGeneration

/-- Is the logged call a `Messages.Update` of a message marked finished? -/
def Action.isFinishedUpdate : Action → Bool
  | .MessagesUpdate msg => msg.Finished
  | _ => false

/-- The second world continues the log of the first, and every call added satisfies `P`. -/
def Extends (P : Action → Prop) (w w1 : World) : Prop :=
  ∃ ext, w1.log = w.log ++ ext ∧ ∀ a ∈ ext, P a

/-- The calls a pass makes while it folds events into the Assistant message with identifier
`id`: updates of that message, not marked finished, and the calls of usage tracking on the
session service. -/
def Action.folds (id : String) : Action → Prop
  | .MessagesUpdate msg => msg.ID = id ∧ msg.Finished = false
  | .SessionsGet _ => True
  | .SessionsSave _ => True
  | .Publish _ _ => True
  | _ => False

/-- The calls a pass makes between the creation of its Assistant message with identifier `id`
and the last update of that message: the calls made while events are folded, the tool dispatch
and the creation of the Tool message. -/
def Action.inPass (id : String) : Action → Prop
  | .MessagesUpdate msg => msg.ID = id ∧ msg.Finished = false
  | .SessionsGet _ => True
  | .SessionsSave _ => True
  | .Publish _ _ => True
  | .ExecuteTools _ => True
  | .MessagesCreate _ params => params.Role = .Tool
  | _ => False

/-- The state in which the first pass of the scenario has consumed its stream. -/
def firstPass : Result Unit × Message × World :=
  consumeEvents scenarioEnv "s1"
    (Messages.Create scenarioEnv (StreamResponse scenarioEnv scenarioWorld []).2 "s1"
      { Role := .Assistant, Content := "" }).2
    sampleAssistant
    [ { Type_ := EventContentDelta, Content := "Sure, " },
      { Type_ := EventContentDelta, Content := "checking..." },
      { Type_ := EventComplete,
        Response := some { Content := "Sure, checking...", ToolCalls := [scenarioCall],
                           Usage := { InputTokens := 1000000, OutputTokens := 500000 } } } ]

/-- The agent of the scenario with a title provider that answers with the given text. -/
def titleEnv (title : String) : Env :=
  { scenarioEnv with titleGenerator := fun _ => .ok (some { Content := title }) }

/-- A store whose only session already has a title. -/
def titledWorld : World := { sessions := [{ ID := "s1", Title := "old title" }] }

/-! ## The Anthropic adapter (`anthropic.go`) -/

/-- A content block of a vendor message (`anthropic.ContentBlock`), as the adapter reads it. -/
structure anthropic.ContentBlock where
  Type_ : String
  Text : String := ""
  ID : String := ""
  Name : String := ""
  Input : String := ""
  deriving DecidableEq, Repr, Inhabited

/-- Token accounting of a vendor message (`anthropic.Usage`). -/
structure anthropic.Usage where
  InputTokens : Int := 0
  OutputTokens : Int := 0
  CacheCreationInputTokens : Int := 0
  CacheReadInputTokens : Int := 0
  deriving DecidableEq, Repr, Inhabited

/-- The vendor message which the stream frames are accumulated into (`anthropic.Message`). -/
structure anthropic.Message where
  Content : List anthropic.ContentBlock := []
  Usage : anthropic.Usage := {}
  deriving DecidableEq, Repr, Inhabited

/-- One frame of the vendor stream (`anthropic.MessageStreamEvent`): its type and its
payload, which only the accumulation of the vendor library reads. -/
structure anthropic.MessageStreamEvent where
  Type_ : String
  Data : String := ""
  deriving DecidableEq, Repr, Inhabited

def anthropic.ContentBlockTypeText : String := "text"
def anthropic.ContentBlockTypeToolUse : String := "tool_use"

/-- The method `extractToolCalls` (anthropic.go lines 188-204). -/
def extractToolCalls (content : List anthropic.ContentBlock) : List ToolCall :=
  (content.filter fun block => block.Type_ = anthropic.ContentBlockTypeToolUse).map fun block =>
    { ID := block.ID, Name := block.Name, Input := block.Input, Type_ := "tool_use" }

/-- The method `extractTokenUsage` (anthropic.go lines 206-213). -/
def extractTokenUsage (usage : anthropic.Usage) : TokenUsage :=
  { InputTokens := usage.InputTokens
    OutputTokens := usage.OutputTokens
    CacheCreationTokens := usage.CacheCreationInputTokens
    CacheReadTokens := usage.CacheReadInputTokens }

/-- The Complete event sent for a `message_stop` frame (anthropic.go lines 159-176): the text of
the text blocks accumulated so far, the tool calls and the usage. -/
def completeEvent (accumulatedMessage : anthropic.Message) : ProviderEvent :=
  { Type_ := EventComplete
    Response := some
      { Content := accumulatedMessage.Content.foldl
          (fun content block =>
            if block.Type_ = anthropic.ContentBlockTypeText then content ++ block.Text
            else content) ""
        ToolCalls := extractToolCalls accumulatedMessage.Content
        Usage := extractTokenUsage accumulatedMessage.Usage } }

/-- The Error event sent for a failure. -/
def errorEvent (err : Err) : ProviderEvent := { Type_ := EventError, Error := some err }

/-- The events sent for a frame that has been accumulated (the `switch` of anthropic.go lines
148-177). -/
def frameEvents (event : anthropic.MessageStreamEvent) (accumulatedMessage : anthropic.Message) :
    List ProviderEvent :=
  if event.Type_ = "content_block_start" then [{ Type_ := EventContentStart }]
  else if event.Type_ = "content_block_delta" then []
  else if event.Type_ = "content_block_stop" then [{ Type_ := EventContentStop }]
  else if event.Type_ = "message_stop" then [completeEvent accumulatedMessage]
  else []

/-- The producer goroutine of the Anthropic `StreamResponse` (anthropic.go lines 135-183): the
events it sends before it closes the channel, for the frames which the vendor stream delivers
and the error, if any, with which that stream ends. `Accumulate` is the accumulation of the
vendor library; a frame it rejects ends the production with an Error event. -/
def anthropicProvider.produce
    (Accumulate : anthropic.Message → anthropic.MessageStreamEvent → Except Err anthropic.Message) :
    anthropic.Message → List anthropic.MessageStreamEvent → Option Err → List ProviderEvent
  | _, [], some err => [errorEvent err]
  | _, [], none => []
  | accumulatedMessage, event :: rest, streamErr =>
    match Accumulate accumulatedMessage event with
    | .error err => [errorEvent err]
    | .ok accumulatedMessage =>
      frameEvents event accumulatedMessage
        ++ anthropicProvider.produce Accumulate accumulatedMessage rest streamErr

/-- Accumulation of a run of frames: the vendor message after the last frame, or the error of
the first frame that is rejected. -/
def accumulateAll
    (Accumulate : anthropic.Message → anthropic.MessageStreamEvent → Except Err anthropic.Message) :
    anthropic.Message → List anthropic.MessageStreamEvent → Except Err anthropic.Message
  | accumulatedMessage, [] => .ok accumulatedMessage
  | accumulatedMessage, event :: rest =>
    match Accumulate accumulatedMessage event with
    | .error err => .error err
    | .ok accumulatedMessage => accumulateAll Accumulate accumulatedMessage rest

/-- Is the event a terminal event of the streaming protocol? -/
def ProviderEvent.isTerminal (ev : ProviderEvent) : Bool :=
  ev.Type_ = EventComplete || ev.Type_ = EventError

/-- Go's `strings.Contains`. -/
def strings.Contains (s substr : String) : Bool := decide (substr.data <:+: s.data)

/-- The sampling temperature which the Anthropic `StreamResponse` chooses (anthropic.go lines
111-115). `ToLower` is Go's `strings.ToLower`. Reading the last message of an empty history is
a panic. -/
def anthropicProvider.temperature (ToLower : String → String) (messages : List Message) :
    Result ℚ :=
  match messages.getLast? with
  | none => .panic
  | some lastMessage =>
    if lastMessage.Role = .User ∧ strings.Contains (ToLower lastMessage.Content) "think" = true
    then .ok 1
    else .ok 0

/-- A vendor library that accepts every frame and accumulates nothing. -/
def acceptAll : anthropic.Message → anthropic.MessageStreamEvent → Except Err anthropic.Message :=
  fun accumulatedMessage _ => .ok accumulatedMessage

/-- The frames of a vendor stream that conforms to the protocol: one text block, then
`message_stop`. -/
def sampleFrames : List anthropic.MessageStreamEvent :=
  [ { Type_ := "message_start" }, { Type_ := "content_block_start" },
    { Type_ := "content_block_delta", Data := "Done." }, { Type_ := "content_block_stop" },
    { Type_ := "message_delta" }, { Type_ := "message_stop" } ]

/-! ## Construction of the agent (`task.go`, `getAgentProviders`) -/

/-! The kinds of provider of the `models` package, under the keys with which `config.go`
enables them. -/

def ProviderOpenAI : ModelProvider := "openai"
def ProviderAnthropic : ModelProvider := "anthropic"
def ProviderGemini : ModelProvider := "gemini"
def ProviderGROQ : ModelProvider := "groq"

/-- Configuration of one provider (`config.Provider`). -/
structure config.Provider where
  APIKey : String := ""
  Enabled : Bool := false
  deriving DecidableEq, Repr, Inhabited

/-- The configuration as the construction of the agent reads it (`config.Config`): the map of
providers, the identifier of the coder model and its token budget. -/
structure config.Config where
  Providers : List (ModelProvider × config.Provider) := []
  Coder : String := ""
  CoderMaxTokens : Int := 0
  deriving Repr, Inhabited

/-- The options handed to a provider constructor. -/
structure ProviderOptions where
  systemMessage : String := ""
  maxTokens : Int := 0
  model : Model
  apiKey : String := ""
  baseURL : String := ""
  deriving DecidableEq, Repr

/-- A constructed provider: which constructor built it, and with which options. -/
structure BuiltProvider where
  kind : ModelProvider
  options : ProviderOptions
  deriving DecidableEq, Repr

/-- What the construction uses from packages that are not among the sources: the constructors
of the OpenAI and Gemini providers and the three prompts. -/
structure Builders where
  NewOpenAIProvider : ProviderOptions → Except Err BuiltProvider
  NewGeminiProvider : ProviderOptions → Except Err BuiltProvider
  CoderOpenAISystemPrompt : String
  CoderAnthropicSystemPrompt : String
  TitlePrompt : String

/-- The constructor `NewAnthropicProvider` (anthropic.go lines 50-65), the options applied. -/
def NewAnthropicProvider (opts : ProviderOptions) : Except Err BuiltProvider :=
  if opts.systemMessage = "" then .error "system message is required"
  else .ok { kind := ProviderAnthropic, options := opts }

/-- Two's-complement wrap-around of Go's conversion `int32(x)`. -/
def wrapInt32 (x : Int) : Int := (x + 2 ^ 31) % 2 ^ 32 - 2 ^ 31

/-- Build the agent provider, then the title provider, with the same constructor. -/
def buildPair (build : ProviderOptions → Except Err BuiltProvider)
    (agentOptions titleOptions : ProviderOptions) :
    Option BuiltProvider × Option BuiltProvider × Option Err :=
  match build agentOptions with
  | .error err => (none, none, some err)
  | .ok agentProvider =>
    match build titleOptions with
    | .error err => (none, none, some err)
    | .ok titleGenerator => (some agentProvider, some titleGenerator, none)

/-- The function `getAgentProviders` (agent.go lines 238-354). The `switch` over the kind of
the provider has no default case: for any other kind both providers stay nil and the error is
nil. -/
def getAgentProviders (cfg : config.Config) (b : Builders) (model : Model) :
    Option BuiltProvider × Option BuiltProvider × Option Err :=
  let maxTokens := cfg.CoderMaxTokens
  match cfg.Providers.lookup model.Provider with
  | none => (none, none, some "provider is not enabled")
  | some providerConfig =>
    if providerConfig.Enabled = false then (none, none, some "provider is not enabled")
    else if model.Provider = ProviderOpenAI then
      buildPair b.NewOpenAIProvider
        { systemMessage := b.CoderOpenAISystemPrompt, maxTokens := maxTokens, model := model,
          apiKey := providerConfig.APIKey }
        { systemMessage := b.TitlePrompt, maxTokens := 80, model := model,
          apiKey := providerConfig.APIKey }
    else if model.Provider = ProviderAnthropic then
      buildPair NewAnthropicProvider
        { systemMessage := b.CoderAnthropicSystemPrompt, maxTokens := maxTokens, model := model,
          apiKey := providerConfig.APIKey }
        { systemMessage := b.TitlePrompt, maxTokens := 80, model := model,
          apiKey := providerConfig.APIKey }
    else if model.Provider = ProviderGemini then
      buildPair b.NewGeminiProvider
        { systemMessage := b.CoderOpenAISystemPrompt, maxTokens := wrapInt32 maxTokens,
          model := model, apiKey := providerConfig.APIKey }
        { systemMessage := b.TitlePrompt, maxTokens := 80, model := model,
          apiKey := providerConfig.APIKey }
    else if model.Provider = ProviderGROQ then
      buildPair b.NewOpenAIProvider
        { systemMessage := b.CoderAnthropicSystemPrompt, maxTokens := maxTokens, model := model,
          apiKey := providerConfig.APIKey, baseURL := "https://api.groq.com/openai/v1" }
        { systemMessage := b.TitlePrompt, maxTokens := 80, model := model,
          apiKey := providerConfig.APIKey, baseURL := "https://api.groq.com/openai/v1" }
    else (none, none, none)

/-- The agent which `NewTaskAgent` returns (`taskAgent`): its model, its two providers, either
of which may be nil, and the names of its tools. -/
structure taskAgent where
  model : Model
  agent : Option BuiltProvider
  titleGenerator : Option BuiltProvider
  tools : List String
  deriving DecidableEq, Repr

/-- The function `NewTaskAgent` (task.go lines 20-44); `supported` is the table
`models.SupportedModels`, which is not among the sources. -/
def NewTaskAgent (cfg : config.Config) (supported : List (String × Model)) (b : Builders) :
    Option taskAgent × Option Err :=
  match supported.lookup cfg.Coder with
  | none => (none, some "model not supported")
  | some model =>
    match getAgentProviders cfg b model with
    | (_, _, some err) => (none, some err)
    | (agentProvider, titleGenerator, none) =>
      (some { model := model, agent := agentProvider, titleGenerator := titleGenerator,
              tools := ["glob", "grep", "ls", "view"] }, none)

/-- Constructors that build what they are asked for, and non-empty prompts. -/
def plainBuilders : Builders :=
  { NewOpenAIProvider := fun opts => .ok { kind := ProviderOpenAI, options := opts }
    NewGeminiProvider := fun opts => .ok { kind := ProviderGemini, options := opts }
    CoderOpenAISystemPrompt := "You are a coding assistant."
    CoderAnthropicSystemPrompt := "You are a coding assistant."
    TitlePrompt := "Summarise the request in a short title." }

/-- Every model of the table is served by one of the four kinds of provider which the sources
name (`models.ProviderOpenAI`, `ProviderAnthropic`, `ProviderGemini`, `ProviderGROQ`). -/
def kindsNamed (supported : List (String × Model)) : Prop :=
  ∀ entry ∈ supported,
    entry.2.Provider = ProviderOpenAI ∨ entry.2.Provider = ProviderAnthropic ∨
    entry.2.Provider = ProviderGemini ∨ entry.2.Provider = ProviderGROQ

instance (supported : List (String × Model)) : Decidable (kindsNamed supported) :=
  inferInstanceAs (Decidable (∀ entry ∈ supported, _))

/-- A table with one model, served by the Anthropic provider. -/
def claudeTable : List (String × Model) :=
  [("claude-3.7-sonnet",
    { CostPer1MIn := 3, CostPer1MOut := 15, CostPer1MInCached := 0, CostPer1MOutCached := 0,
      Provider := ProviderAnthropic, APIModel := "claude-3-7-sonnet-latest" })]

/-- A configuration that selects the model of `claudeTable`, with the Anthropic provider in the
provider map, enabled or not. -/
def claudeConfig (enabled : Bool) : config.Config :=
  { Providers := [(ProviderAnthropic, { APIKey := "key", Enabled := enabled })],
    Coder := "claude-3.7-sonnet", CoderMaxTokens := 5000 }

/-! ## The calls of `Run` in the lookup loop -/

/-- The calls of `Run` which the lookup loop of one dispatch goroutine makes (agent.go lines
117-134), in the order in which it makes them: the position in the tool set of the tool that is
run, counted from `k`, and the invocation handed to it. The loop runs the first tool whose name
equals the requested name and stops. -/
def lookupRuns (toolCall : ToolCall) : Nat → List tools.BaseTool → List (Nat × tools.ToolCall)
  | _, [] => []
  | k, tool :: rest =>
    if tool.Name = toolCall.Name then
      [(k, { ID := toolCall.ID, Name := toolCall.Name, Input := toolCall.Input })]
    else lookupRuns toolCall (k + 1) rest

/-- The calls of a pass that neither ask the provider, nor dispatch tools, nor create a message
other than the Assistant message of the pass. -/
def Action.idle : Action → Prop
  | .MessagesCreate _ params => params.Role = .Assistant
  | .MessagesUpdate _ => True
  | .SessionsGet _ => True
  | .SessionsSave _ => True
  | .Publish _ _ => True
  | _ => False

/-- The calls of usage tracking on the session service. -/
def Action.tracks : Action → Prop
  | .SessionsGet _ => True
  | .SessionsSave _ => True
  | .Publish _ _ => True
  | _ => False

/-- The calls of a log pair every creation of a Tool message with the Assistant message
completed right before it: the creation, in session `sessionID`, follows at once the dispatch of
the tool calls of a message `m`; the last update of any message before the dispatch is the
update of `m`, an unfinished Assistant message of the session, and only calls of usage tracking
lie between; the results created are those of the dispatch, one for each tool call of `m`, in
the same order, each with the identifier of its call. -/
def ToolPaired (availableTools : List tools.BaseTool) (sessionID : String) (l : List Action) :
    Prop :=
  ∀ pre post sid params, l = pre ++ Action.MessagesCreate sid params :: post →
    params.Role = .Tool →
    sid = sessionID ∧
    ∃ before m tail, pre = before ++ Action.MessagesUpdate m :: tail
        ++ [Action.ExecuteTools m.ToolCalls] ∧
      (∀ a ∈ tail, Action.tracks a) ∧
      m.Role = .Assistant ∧ m.SessionID = sessionID ∧ m.Finished = false ∧
      params.ToolResults = (ExecuteTools m.ToolCalls availableTools).1 ∧
      params.ToolResults.length = m.ToolCalls.length ∧
      params.ToolResults.map ToolResult.ToolCallID = m.ToolCalls.map ToolCall.ID

/-- The calls `generate` makes before its loop: listing the stored messages, starting the
title task, creating the User message. -/
def Action.opens : Action → Prop
  | .MessagesList _ => True
  | .TitleGeneration _ _ => True
  | .MessagesCreate _ params => params.Role = .User
  | _ => False

/-- The User message of the scenario. -/
def scenarioUser : Message :=
  { ID := "msg-0", SessionID := "s1", Role := .User, Content := "list files", Thinking := "",
    ToolCalls := [], ToolResults := [], Finished := false }

/-- The history after the first pass of the scenario, started with the User message alone in
the store of the scenario. -/
def scenarioPassed : List Message :=
  [ scenarioUser,
    { ID := "msg-0", SessionID := "s1", Role := .Assistant, Content := "Sure, checking...",
      Thinking := "", ToolCalls := [scenarioCall], ToolResults := [], Finished := true },
    { ID := "msg-1", SessionID := "s1", Role := .Tool, Content := "", Thinking := "",
      ToolCalls := [],
      ToolResults := [{ ToolCallID := "tc1", Content := "a.txt", IsError := false }],
      Finished := false } ]

/-! ## The request of the Anthropic adapter (`anthropic.go`) -/

/-- A block of a vendor request message (`anthropic.ContentBlockParamUnion`): a text block with
its text and whether it carries the ephemeral cache control, a tool-use block, or a tool-result
block, whose content is a list of texts. `J` is the type of decoded JSON objects. -/
inductive anthropic.ContentBlockParamUnion (J : Type) where
  | TextBlockParam (Text : String) (CacheControl : Bool)
  | ToolUseBlockParam (ID : String) (Name : String) (Input : J)
  | ToolResultBlockParam (ToolUseID : String) (Content : List String) (IsError : Bool)
  deriving DecidableEq, Repr

/-- Is the block a tool-use block? -/
def anthropic.ContentBlockParamUnion.isToolUse {J : Type} :
    anthropic.ContentBlockParamUnion J → Bool
  | .ToolUseBlockParam _ _ _ => true
  | _ => false

def anthropic.MessageParamRoleUser : String := "user"
def anthropic.MessageParamRoleAssistant : String := "assistant"

/-- A message of a vendor request (`anthropic.MessageParam`); its default is Go's zero value. -/
structure anthropic.MessageParam (J : Type) where
  Role : String := ""
  Content : List (anthropic.ContentBlockParamUnion J) := []
  deriving DecidableEq, Repr

/-- A tool of a vendor request (`anthropic.ToolParam`), with whether it carries the ephemeral
cache control. -/
structure anthropic.ToolParam (J : Type) where
  Name : String
  Description : String
  InputSchema : J
  CacheControl : Bool := false
  deriving DecidableEq, Repr

/-- The request of a streamed completion (`anthropic.MessageNewParams`). -/
structure anthropic.MessageNewParams (J : Type) where
  Model : String
  MaxTokens : Int
  Temperature : ℚ
  Messages : List (anthropic.MessageParam J)
  Tools : List (anthropic.ToolParam J)
  System : List (anthropic.ContentBlockParamUnion J)

/-- What the Anthropic adapter uses from outside the sources: `json.Unmarshal` into a
`map[string]any`, whose error alone the adapter looks at besides the decoded value;
`strings.ToLower`; the accumulation of the vendor library; the vendor call
`client.Messages.NewStreaming`, as the frames it delivers and the error its stream ends with;
and the description and the parameters which `Info()` reports for a tool. -/
structure anthropic.Vendor (J : Type) where
  Unmarshal : String → Except Err J
  ToLower : String → String
  Accumulate : anthropic.Message → anthropic.MessageStreamEvent → Except Err anthropic.Message
  NewStreaming : anthropic.MessageNewParams J → List anthropic.MessageStreamEvent × Option Err
  Description : tools.BaseTool → String
  Parameters : tools.BaseTool → J

/-- The method `convertToAnthropicTools` (anthropic.go lines 215-236): one vendor tool for each
tool, in order, the last one with cache control. -/
def anthropicProvider.convertToAnthropicTools {J : Type} (v : anthropic.Vendor J)
    (tls : List tools.BaseTool) : List (anthropic.ToolParam J) :=
  tls.mapIdx fun i tool =>
    { Name := tool.Name, Description := v.Description tool, InputSchema := v.Parameters tool,
      CacheControl := decide ((i : Int) = (tls.length : Int) - 1) }

/-- A text block of `convertToAnthropicMessages` (anthropic.go lines 245-254 and 263-273): the
first two text blocks of a request carry cache control, and count. -/
def cachedTextBlock {J : Type} (Text : String) (cachedBlocks : Nat) :
    anthropic.ContentBlockParamUnion J × Nat :=
  if cachedBlocks < 2 then (.TextBlockParam Text true, cachedBlocks + 1)
  else (.TextBlockParam Text false, cachedBlocks)

/-- The loop over the tool calls of an Assistant message (anthropic.go lines 276-289): a call
whose input `json.Unmarshal` rejects is skipped, every other call gives one tool-use block. -/
def toolUseBlocks {J : Type} (Unmarshal : String → Except Err J) :
    List ToolCall → List (anthropic.ContentBlockParamUnion J)
  | [] => []
  | toolCall :: rest =>
    match Unmarshal toolCall.Input with
    | .error _ => toolUseBlocks Unmarshal rest
    | .ok inputMap =>
      .ToolUseBlockParam toolCall.ID toolCall.Name inputMap :: toolUseBlocks Unmarshal rest

/-- The block of one tool result (anthropic.go lines 299-304). -/
def toolResultBlock {J : Type} (toolResult : ToolResult) : anthropic.ContentBlockParamUnion J :=
  .ToolResultBlockParam toolResult.ToolCallID [toolResult.Content] toolResult.IsError

/-- One turn of the loop of `convertToAnthropicMessages` (anthropic.go lines 243-310): the
vendor message written into the slot of `msg`, and the count of cached blocks after it. -/
def convertMessage {J : Type} (Unmarshal : String → Except Err J) (cachedBlocks : Nat)
    (msg : Message) : anthropic.MessageParam J × Nat :=
  match msg.Role with
  | .User =>
    match cachedTextBlock msg.Content cachedBlocks with
    | (content, cachedBlocks) =>
      ({ Role := anthropic.MessageParamRoleUser, Content := [content] }, cachedBlocks)
  | .Assistant =>
    if msg.Content ≠ "" then
      match cachedTextBlock msg.Content cachedBlocks with
      | (content, cachedBlocks) =>
        ({ Role := anthropic.MessageParamRoleAssistant,
           Content := [content] ++ toolUseBlocks Unmarshal msg.ToolCalls }, cachedBlocks)
    else
      ({ Role := anthropic.MessageParamRoleAssistant,
         Content := toolUseBlocks Unmarshal msg.ToolCalls }, cachedBlocks)
  | .Tool =>
    ({ Role := anthropic.MessageParamRoleUser,
       Content := msg.ToolResults.map toolResultBlock }, cachedBlocks)

/-- The loop of `convertToAnthropicMessages` from a given count of cached blocks. -/
def convertFrom {J : Type} (Unmarshal : String → Except Err J) :
    Nat → List Message → List (anthropic.MessageParam J)
  | _, [] => []
  | cachedBlocks, msg :: rest =>
    (convertMessage Unmarshal cachedBlocks msg).1
      :: convertFrom Unmarshal (convertMessage Unmarshal cachedBlocks msg).2 rest

/-- The method `convertToAnthropicMessages` (anthropic.go lines 238-314). -/
def anthropicProvider.convertToAnthropicMessages {J : Type} (Unmarshal : String → Except Err J)
    (messages : List Message) : List (anthropic.MessageParam J) :=
  convertFrom Unmarshal 0 messages

/-- Does `json.Unmarshal` accept the input of the tool call? -/
def parses {J : Type} (Unmarshal : String → Except Err J) (toolCall : ToolCall) : Bool :=
  match Unmarshal toolCall.Input with
  | .ok _ => true
  | .error _ => false

/-- The method `StreamResponse` of the Anthropic provider (anthropic.go lines 107-186), for a
provider with the fields `a`: the events the producer goroutine sends on the channel that is
returned. The history and the tools are converted, then the last message of the history is
read, which is a panic when the history is empty. The error returned is always nil. -/
def anthropicProvider.StreamResponse {J : Type} (v : anthropic.Vendor J) (a : ProviderOptions)
    (messages : List Message) (tls : List tools.BaseTool) : Result (List ProviderEvent) :=
  let anthropicMessages := anthropicProvider.convertToAnthropicMessages v.Unmarshal messages
  let anthropicTools := anthropicProvider.convertToAnthropicTools v tls
  match anthropicProvider.temperature v.ToLower messages with
  | .panic => .panic
  | .err err => .err err
  | .ok temperature =>
    match v.NewStreaming
        { Model := a.model.APIModel, MaxTokens := a.maxTokens, Temperature := temperature,
          Messages := anthropicMessages, Tools := anthropicTools,
          System := [.TextBlockParam a.systemMessage true] } with
    | (frames, streamErr) => .ok (anthropicProvider.produce v.Accumulate {} frames streamErr)

/-- A JSON decoder that accepts the empty object only. -/
def strictUnmarshal : String → Except Err String :=
  fun s => if s = "\x7b\x7d" then .ok s else .error "unexpected end of JSON input"

/-- A vendor that accepts every frame and delivers the frames of a conforming stream. -/
def sampleVendor : anthropic.Vendor String :=
  { Unmarshal := strictUnmarshal
    ToLower := fun s => s
    Accumulate := acceptAll
    NewStreaming := fun _ => (sampleFrames, none)
    Description := fun _ => ""
    Parameters := fun _ => "\x7b\x7d" }

/-- An Assistant message with one tool call whose input is well formed and one whose input
is truncated. -/
def malformedAssistant : Message :=
  { ID := "msg-1", SessionID := "s1", Role := .Assistant, Content := "Sure, checking...",
    Thinking := "",
    ToolCalls := [scenarioCall, { ID := "tc2", Name := "ls", Input := "\x7b", Type_ := "tool_use" }],
    ToolResults := [], Finished := true }

/-- A history of three messages: the User message, the Assistant message with the truncated
input, and the Tool message that answers both calls. -/
def malformedHistory : List Message :=
  [ scenarioUser,
    malformedAssistant,
    { ID := "msg-2", SessionID := "s1", Role := .Tool, Content := "", Thinking := "",
      ToolCalls := [],
      ToolResults := [{ ToolCallID := "tc1", Content := "a.txt", IsError := false },
                      { ToolCallID := "tc2", Content := "a.txt", IsError := false }],
      Finished := false } ]

/-! ## Observations on a run of the Anthropic producer -/

/-- The frames which the producer accumulates before it stops, each with the message
accumulated after it: the frames that come before the first frame which the accumulation
rejects. -/
def accumulatedFrames
    (Accumulate : anthropic.Message → anthropic.MessageStreamEvent → Except Err anthropic.Message) :
    anthropic.Message → List anthropic.MessageStreamEvent →
      List (anthropic.MessageStreamEvent × anthropic.Message)
  | _, [] => []
  | accumulatedMessage, event :: rest =>
    match Accumulate accumulatedMessage event with
    | .error _ => []
    | .ok accumulatedMessage =>
      (event, accumulatedMessage) :: accumulatedFrames Accumulate accumulatedMessage rest

/-- The failure with which the production ends, if any: the error with which the accumulation
rejects a frame, or else the transport error with which the vendor stream ends. -/
def productionFailure
    (Accumulate : anthropic.Message → anthropic.MessageStreamEvent → Except Err anthropic.Message) :
    anthropic.Message → List anthropic.MessageStreamEvent → Option Err → Option Err
  | _, [], streamErr => streamErr
  | accumulatedMessage, event :: rest, streamErr =>
    match Accumulate accumulatedMessage event with
    | .error err => some err
    | .ok accumulatedMessage => productionFailure Accumulate accumulatedMessage rest streamErr

/-- The events hold exactly one terminal event, and it is the last of them. -/
def OneTerminalLast (evs : List ProviderEvent) : Prop :=
  evs.countP ProviderEvent.isTerminal = 1 ∧ ∃ e, evs.getLast? = some e ∧ e.isTerminal = true

/-- Does the producer send no event for a frame of this type? -/
def silentFrame (event : anthropic.MessageStreamEvent) : Prop :=
  event.Type_ ≠ "content_block_start" ∧ event.Type_ ≠ "content_block_stop" ∧
    event.Type_ ≠ "message_stop"

instance (event : anthropic.MessageStreamEvent) : Decidable (silentFrame event) :=
  inferInstanceAs (Decidable (_ ∧ _ ∧ _))

/-- The frames of a conforming vendor stream with a `ping` frame after `message_stop`. -/
def pingedFrames : List anthropic.MessageStreamEvent := sampleFrames ++ [{ Type_ := "ping" }]

/-! ## Go's `float64`, and the cost as the source computes it -/

/-- A Go `float64`: a finite number, given by its value, an infinity with its sign, or a NaN.
The two zeros are not told apart: the program only adds and multiplies `float64` values and
divides them by the constant `1e6`, and the sign of a zero changes nothing in such a result but
the sign of a zero. -/
inductive Float64
  | finite (value : ℚ)
  | inf (negative : Bool)
  | nan
  deriving DecidableEq, Repr

/-- Number of binary digits of `n`, for a fuel that is at least that number. -/
def Float64.bitLength : Nat → Nat → Nat
  | 0, _ => 0
  | fuel + 1, n => if n = 0 then 0 else Float64.bitLength fuel (n / 2) + 1

/-- The binary exponent of the positive rational `n / d`: the greatest `e` with
`2 ^ e ≤ n / d`. The difference of the numbers of digits of `n` and `d` is that exponent or one
more. -/
def Float64.floorLog2 (n d : Nat) : Int :=
  let e : Int := (Float64.bitLength n n : Int) - (Float64.bitLength d d : Int)
  if 0 ≤ e then (if d * 2 ^ e.toNat ≤ n then e else e - 1)
  else (if d ≤ n * 2 ^ (-e).toNat then e else e - 1)

/-- The integer nearest to `N / D`, and of the two nearest ones the even one when `N / D` lies
half-way between them. -/
def Float64.roundHalfEven (N D : Nat) : Nat :=
  if 2 * (N % D) < D then N / D
  else if D < 2 * (N % D) then N / D + 1
  else if N / D % 2 = 0 then N / D else N / D + 1

/-- Rounding to `float64` in the default mode of IEEE 754, to nearest with ties to even: the
result is the nearest multiple of the unit in the last place, which is `2 ^ (e - 52)` for a
number of binary exponent `e` (53 significant bits) and at least `2 ^ (-1074)` (subnormal
numbers), and it is an infinity when its magnitude reaches `2 ^ 1024`. -/
def Float64.round (q : ℚ) : Float64 :=
  if q = 0 then .finite 0
  else
    let n := q.num.natAbs
    let d := q.den
    let ulp : Int := max (Float64.floorLog2 n d - 52) (-1074)
    if 0 ≤ ulp then
      let m := Float64.roundHalfEven n (d * 2 ^ ulp.toNat) * 2 ^ ulp.toNat
      if 2 ^ 1024 ≤ m then .inf (decide (q < 0))
      else .finite (if q < 0 then -(m : ℚ) else (m : ℚ))
    else
      let k := Float64.roundHalfEven (n * 2 ^ (-ulp).toNat) d
      .finite (if q < 0 then -((k : ℚ) / ((2 ^ (-ulp).toNat : Nat) : ℚ))
        else (k : ℚ) / ((2 ^ (-ulp).toNat : Nat) : ℚ))

/-- Go's conversion `float64(n)` of an `int64`. -/
def Float64.ofInt64 (n : Int) : Float64 := Float64.round (n : ℚ)

/-- Go's `x + y` on `float64`. -/
def Float64.add : Float64 → Float64 → Float64
  | .finite a, .finite b => Float64.round (a + b)
  | .finite _, .inf s => .inf s
  | .inf s, .finite _ => .inf s
  | .inf s, .inf t => if s = t then .inf s else .nan
  | _, _ => .nan

/-- Go's `x * y` on `float64`. -/
def Float64.mul : Float64 → Float64 → Float64
  | .finite a, .finite b => Float64.round (a * b)
  | .finite a, .inf s => if a = 0 then .nan else .inf (s != decide (a < 0))
  | .inf s, .finite b => if b = 0 then .nan else .inf (s != decide (b < 0))
  | .inf s, .inf t => .inf (s != t)
  | _, _ => .nan

/-- Go's `x / 1e6` on `float64`; the constant `1e6` is a `float64` value. -/
def Float64.divMillion : Float64 → Float64
  | .finite a => Float64.round (a / 1000000)
  | .inf s => .inf s
  | .nan => .nan

/-- The monetary delta of one usage record as the source computes it (agent.go lines 62-65): in
`float64`, every quotient, conversion, product and sum rounded on its own, in the order in which
Go evaluates the expression. The rationals of the model record are the values of its `float64`
rates. -/
def usageCost64 (model : Model) (usage : TokenUsage) : Float64 :=
  Float64.add
    (Float64.add
      (Float64.add
        (Float64.mul (Float64.divMillion (.finite model.CostPer1MInCached))
          (Float64.ofInt64 usage.CacheCreationTokens))
        (Float64.mul (Float64.divMillion (.finite model.CostPer1MOutCached))
          (Float64.ofInt64 usage.CacheReadTokens)))
      (Float64.mul (Float64.divMillion (.finite model.CostPer1MIn))
        (Float64.ofInt64 usage.InputTokens)))
    (Float64.mul (Float64.divMillion (.finite model.CostPer1MOut))
      (Float64.ofInt64 usage.OutputTokens))

/-- The exact values of the fifteen operations of the cost expression, in the order in which
they are made, when none of the earlier ones has rounded. -/
def exactSteps (model : Model) (usage : TokenUsage) : List ℚ :=
  [ model.CostPer1MInCached / 1000000, (usage.CacheCreationTokens : ℚ),
    model.CostPer1MInCached / 1000000 * (usage.CacheCreationTokens : ℚ),
    model.CostPer1MOutCached / 1000000, (usage.CacheReadTokens : ℚ),
    model.CostPer1MOutCached / 1000000 * (usage.CacheReadTokens : ℚ),
    model.CostPer1MInCached / 1000000 * (usage.CacheCreationTokens : ℚ) +
      model.CostPer1MOutCached / 1000000 * (usage.CacheReadTokens : ℚ),
    model.CostPer1MIn / 1000000, (usage.InputTokens : ℚ),
    model.CostPer1MIn / 1000000 * (usage.InputTokens : ℚ),
    model.CostPer1MInCached / 1000000 * (usage.CacheCreationTokens : ℚ) +
      model.CostPer1MOutCached / 1000000 * (usage.CacheReadTokens : ℚ) +
      model.CostPer1MIn / 1000000 * (usage.InputTokens : ℚ),
    model.CostPer1MOut / 1000000, (usage.OutputTokens : ℚ),
    model.CostPer1MOut / 1000000 * (usage.OutputTokens : ℚ),
    usageCost model usage ]

/-- The method `TrackUsage` (agent.go lines 56-73) with the cost in `float64`, as the source
computes and stores it; the cost of a session row is the value of its `float64`. The result is
`none` when the new cost is an infinity or a NaN, which a session row of the embedding cannot
hold. -/
def TrackUsage64 (env : Env) (w : World) (sessionID : String) (model : Model)
    (usage : TokenUsage) : Option (Option Err × World) :=
  match service.Get env w sessionID with
  | (.error err, w1) => some (some err, w1)
  | (.ok session, w1) =>
    let cost := usageCost64 model usage
    match Float64.add (.finite session.Cost) cost with
    | .finite newCost =>
      let session : Session :=
        { session with
          Cost := newCost
          CompletionTokens := wrapInt64 (session.CompletionTokens + usage.OutputTokens)
          PromptTokens := wrapInt64 (session.PromptTokens + usage.InputTokens) }
      match service.Save env w1 session with
      | (.error err, w2) => some (some err, w2)
      | (.ok _, w2) => some (none, w2)
    | _ => none

/-- The world after a successful `TrackUsage64` in the scenario, and the world itself
otherwise. -/
def tracked (w : World) (usage : TokenUsage) : World :=
  match TrackUsage64 scenarioEnv w "s1" scenarioEnv.model usage with
  | some (none, w2) => w2
  | _ => w

/-- Rates of one and two units for each token, for which the quotients by `1e6` are exact. -/
def unitModel : Model :=
  { CostPer1MIn := 1000000, CostPer1MOut := 2000000, CostPer1MInCached := 0,
    CostPer1MOutCached := 0 }

/-- The world after a successful `TrackUsage64` at the rates of `unitModel` in the scenario
store, and that store itself otherwise. -/
def unitTracked (usage : TokenUsage) : World :=
  match TrackUsage64 scenarioEnv scenarioWorld "s1" unitModel usage with
  | some (none, w2) => w2
  | _ => scenarioWorld

/-- A store whose only session has the cost `2 ^ 53`. -/
def costlyWorld : World := { sessions := [{ ID := "s1", Cost := 9007199254740992 }] }

/-! ## Lemmas and theorems -/

/-! ### Lemmas on the dispatch -/

theorem writeSlot_length (toolCalls : List ToolCall) (tls : List tools.BaseTool)
    (res : List ToolResult) (i : Nat) : (writeSlot toolCalls tls res i).length = res.length := by
  unfold writeSlot
  split <;> simp

theorem foldl_writeSlot_length (toolCalls : List ToolCall) (tls : List tools.BaseTool)
    (order : List Nat) (res : List ToolResult) :
    (order.foldl (writeSlot toolCalls tls) res).length = res.length := by
  induction order generalizing res with
  | nil => rfl
  | cons j s ih => simp [List.foldl_cons, ih, writeSlot_length]

theorem foldl_writeSlot_not_mem (toolCalls : List ToolCall) (tls : List tools.BaseTool)
    (order : List Nat) (res : List ToolResult) (i : Nat) (hi : i ∉ order) :
    (order.foldl (writeSlot toolCalls tls) res)[i]? = res[i]? := by
  induction order generalizing res with
  | nil => rfl
  | cons j s ih =>
    simp only [List.mem_cons, not_or] at hi
    rw [List.foldl_cons, ih _ hi.2]
    unfold writeSlot
    split
    · rw [List.getElem?_set_ne (Ne.symm hi.1)]
    · rfl

theorem foldl_writeSlot_mem (toolCalls : List ToolCall) (tls : List tools.BaseTool)
    (order : List Nat) (res : List ToolResult) (i : Nat) (hlen : res.length = toolCalls.length)
    (hi : i ∈ order) (hlt : i < toolCalls.length) :
    (order.foldl (writeSlot toolCalls tls) res)[i]? = some (runToolCall tls toolCalls[i]) := by
  induction order generalizing res with
  | nil => simp at hi
  | cons j s ih =>
    rw [List.foldl_cons]
    by_cases hs : i ∈ s
    · exact ih _ (by rw [writeSlot_length, hlen]) hs
    · have hij : i = j := by
        rcases List.mem_cons.1 hi with h | h
        · exact h
        · exact absurd h hs
      subst hij
      rw [foldl_writeSlot_not_mem _ _ _ _ _ hs]
      unfold writeSlot
      rw [List.getElem?_eq_getElem hlt]
      simp [hlen, hlt]

theorem ExecuteToolsIn_eq_map (order : List Nat) (toolCalls : List ToolCall)
    (tls : List tools.BaseTool) (hall : ∀ i, i < toolCalls.length → i ∈ order) :
    ExecuteToolsIn order toolCalls tls = (toolCalls.map (runToolCall tls), none) := by
  unfold ExecuteToolsIn
  congr 1
  apply List.ext_getElem?
  intro i
  by_cases hlt : i < toolCalls.length
  · rw [foldl_writeSlot_mem _ _ _ _ _ (by simp) (hall i hlt) hlt]
    simp [hlt]
  · have h1 : ¬ i < (order.foldl (writeSlot toolCalls tls)
        (List.replicate toolCalls.length {})).length := by
      rw [foldl_writeSlot_length]; simpa using hlt
    rw [List.getElem?_eq_none (Nat.le_of_not_lt h1)]
    rw [List.getElem?_eq_none (by simpa using hlt)]

theorem mem_of_perm_range {order : List Nat} {n : Nat} (h : order.Perm (List.range n)) :
    ∀ i, i < n → i ∈ order := by
  intro i hi
  exact (h.mem_iff).2 (List.mem_range.2 hi)

theorem lookupAndRun_absent (toolCall : ToolCall) (tls : List tools.BaseTool)
    (h : ∀ tool ∈ tls, tool.Name ≠ toolCall.Name) :
    lookupAndRun toolCall tls = ("", false, false) := by
  induction tls with
  | nil => rfl
  | cons t rest ih =>
    have ht : t.Name ≠ toolCall.Name := h t (List.mem_cons_self _ _)
    simp only [lookupAndRun, ht, if_false]
    exact ih fun tool hmem => h tool (List.mem_cons_of_mem _ hmem)

theorem lookupAndRun_found (toolCall : ToolCall) (tls : List tools.BaseTool)
    (tool : tools.BaseTool)
    (h : tls.find? (fun t => decide (t.Name = toolCall.Name)) = some tool) :
    lookupAndRun toolCall tls =
      match tool.Run { ID := toolCall.ID, Name := toolCall.Name, Input := toolCall.Input } with
      | .error toolErr => ("error running tool: " ++ toolErr, true, true)
      | .ok toolResult => (toolResult.Content, toolResult.IsError, true) := by
  induction tls with
  | nil => simp at h
  | cons t rest ih =>
    by_cases ht : t.Name = toolCall.Name
    · simp only [List.find?_cons, ht, decide_True, Option.some.injEq] at h
      subst h
      simp only [lookupAndRun, ht, if_true]
    · simp only [List.find?_cons, ht, decide_False] at h
      simp only [lookupAndRun, ht, if_false]
      exact ih h

/-! ### The log under the store operations -/

@[simp] theorem record_log (w : World) (a : Action) : (w.record a).log = w.log ++ [a] := rfl

@[simp] theorem step_log (w : World) : w.step.log = w.log := rfl

theorem Messages_Update_log (env : Env) (w : World) (msg : Message) :
    (Messages.Update env w msg).2.log = w.log ++ [.MessagesUpdate msg] := by
  unfold Messages.Update
  simp only []
  split <;> rfl

theorem Messages_Create_log (env : Env) (w : World) (sessionID : String)
    (params : CreateMessageParams) :
    (Messages.Create env w sessionID params).2.log
      = w.log ++ [.MessagesCreate sessionID params] := by
  unfold Messages.Create
  simp only []
  split <;> rfl

theorem Messages_List_log (env : Env) (w : World) (sessionID : String) :
    (Messages.List env w sessionID).2.log = w.log ++ [.MessagesList sessionID] := by
  unfold Messages.List
  simp only []
  split <;> rfl

theorem SameCalls.refl (w : World) : SameCalls w w := ⟨rfl, rfl⟩

theorem SameCalls.trans {w w1 w2 : World} (h1 : SameCalls w w1) (h2 : SameCalls w1 w2) :
    SameCalls w w2 := ⟨h2.1.trans h1.1, h2.2.trans h1.2⟩

theorem SameCalls.of_log {w w1 : World} (ext : List Action) (h : w1.log = w.log ++ ext)
    (hq : ∀ a ∈ ext, a.isStreamResponse = false ∧ a.isExecuteTools = false) :
    SameCalls w w1 := by
  unfold SameCalls World.providerCalls World.dispatches
  rw [h, List.countP_append, List.countP_append]
  have h1 : ext.countP Action.isStreamResponse = 0 :=
    List.countP_eq_zero.2 fun a ha => by simp [(hq a ha).1]
  have h2 : ext.countP Action.isExecuteTools = 0 :=
    List.countP_eq_zero.2 fun a ha => by simp [(hq a ha).2]
  omega

theorem Messages_Update_same (env : Env) (w : World) (msg : Message) :
    SameCalls w (Messages.Update env w msg).2 :=
  SameCalls.of_log _ (Messages_Update_log env w msg) (by simp [Action.isStreamResponse,
    Action.isExecuteTools])

theorem Messages_Create_same (env : Env) (w : World) (sessionID : String)
    (params : CreateMessageParams) : SameCalls w (Messages.Create env w sessionID params).2 :=
  SameCalls.of_log _ (Messages_Create_log env w sessionID params)
    (by simp [Action.isStreamResponse, Action.isExecuteTools])

theorem Messages_List_same (env : Env) (w : World) (sessionID : String) :
    SameCalls w (Messages.List env w sessionID).2 :=
  SameCalls.of_log _ (Messages_List_log env w sessionID)
    (by simp [Action.isStreamResponse, Action.isExecuteTools])

theorem db_GetSessionByID_world (env : Env) (w : World) (id : String) :
    (db.GetSessionByID env w id).2 = w.step := by
  unfold db.GetSessionByID
  split
  · rfl
  · split <;> rfl

theorem service_Get_world (env : Env) (w : World) (id : String) :
    (service.Get env w id).2 = (w.record (.SessionsGet id)).step := by
  unfold service.Get
  rw [← db_GetSessionByID_world env (w.record (.SessionsGet id)) id]
  split <;> simp_all

theorem service_Get_same (env : Env) (w : World) (id : String) :
    SameCalls w (service.Get env w id).2 := by
  apply SameCalls.of_log [.SessionsGet id]
  · rw [service_Get_world]; rfl
  · simp [Action.isStreamResponse, Action.isExecuteTools]

theorem db_UpdateSession_log (env : Env) (w : World) (arg : UpdateSessionParams) :
    (db.UpdateSession env w arg).2.log = w.log := by
  unfold db.UpdateSession
  split
  · rfl
  · split <;> rfl

theorem service_Save_same (env : Env) (w : World) (session : Session) :
    SameCalls w (service.Save env w session).2 := by
  have h := db_UpdateSession_log env (w.record (.SessionsSave session))
    { ID := session.ID, Title := session.Title, PromptTokens := session.PromptTokens,
      CompletionTokens := session.CompletionTokens, Cost := session.Cost }
  unfold service.Save
  split
  · next err w1 heq =>
    rw [heq] at h
    exact SameCalls.of_log [.SessionsSave session] (by simpa using h)
      (by simp [Action.isStreamResponse, Action.isExecuteTools])
  · next dbSession w1 heq =>
    rw [heq] at h
    apply SameCalls.of_log [.SessionsSave session, .Publish .UpdatedEvent dbSession]
    · simp only [record_log] at h ⊢
      rw [h]; simp
    · simp [Action.isStreamResponse, Action.isExecuteTools]

theorem TrackUsage_same (env : Env) (w : World) (sessionID : String) (model : Model)
    (usage : TokenUsage) : SameCalls w (TrackUsage env w sessionID model usage).2 := by
  have hg := service_Get_same env w sessionID
  unfold TrackUsage
  split
  · next err w1 heq => rw [heq] at hg; exact hg
  · next session w1 heq =>
    rw [heq] at hg
    simp only []
    split
    · next err w2 heq2 =>
      have hs := congrArg Prod.snd heq2
      simp only at hs
      rw [← hs]
      exact hg.trans (service_Save_same env w1 _)
    · next r w2 heq2 =>
      have hs := congrArg Prod.snd heq2
      simp only at hs
      rw [← hs]
      exact hg.trans (service_Save_same env w1 _)

/-! ### Folding the events of one stream -/

theorem join_cons (a : String) (l : List String) : String.join (a :: l) = a ++ String.join l := by
  apply String.ext
  simp [String.data_append]

theorem join_append (l1 l2 : List String) :
    String.join (l1 ++ l2) = String.join l1 ++ String.join l2 := by
  apply String.ext
  simp [String.data_append]

theorem contentOf_nil : contentOf [] = "" := rfl

theorem thinkingOf_nil : thinkingOf [] = "" := rfl

theorem contentOf_cons (e : ProviderEvent) (es : List ProviderEvent) :
    contentOf (e :: es)
      = (if e.Type_ = EventContentDelta then e.Content else "") ++ contentOf es := by
  unfold contentOf
  by_cases h : e.Type_ = EventContentDelta <;> simp [List.filter_cons, h, join_cons]

theorem thinkingOf_cons (e : ProviderEvent) (es : List ProviderEvent) :
    thinkingOf (e :: es)
      = (if e.Type_ = EventThinkingDelta then e.Thinking else "") ++ thinkingOf es := by
  unfold thinkingOf
  by_cases h : e.Type_ = EventThinkingDelta <;> simp [List.filter_cons, h, join_cons]

theorem contentOf_append (pre post : List ProviderEvent) :
    contentOf (pre ++ post) = contentOf pre ++ contentOf post := by
  unfold contentOf
  rw [List.filter_append, List.map_append, join_append]

theorem thinkingOf_append (pre post : List ProviderEvent) :
    thinkingOf (pre ++ post) = thinkingOf pre ++ thinkingOf post := by
  unfold thinkingOf
  rw [List.filter_append, List.map_append, join_append]

/-! The equations of `processEvent`, one for each kind of event. -/

theorem processEvent_thinking (env : Env) (w : World) (sessionID : String) (m : Message)
    (e : ProviderEvent) (h : e.Type_ = EventThinkingDelta) :
    processEvent env w sessionID m e =
      (Result.ofErr (Messages.Update env w { m with Thinking := m.Thinking ++ e.Thinking }).1,
        { m with Thinking := m.Thinking ++ e.Thinking },
        (Messages.Update env w { m with Thinking := m.Thinking ++ e.Thinking }).2) := by
  unfold processEvent
  rw [if_pos h]

theorem processEvent_content (env : Env) (w : World) (sessionID : String) (m : Message)
    (e : ProviderEvent) (h : e.Type_ = EventContentDelta) :
    processEvent env w sessionID m e =
      (Result.ofErr (Messages.Update env w { m with Content := m.Content ++ e.Content }).1,
        { m with Content := m.Content ++ e.Content },
        (Messages.Update env w { m with Content := m.Content ++ e.Content }).2) := by
  have h1 : e.Type_ ≠ EventThinkingDelta := by rw [h]; decide
  unfold processEvent
  rw [if_neg h1, if_pos h]

theorem processEvent_error (env : Env) (w : World) (sessionID : String) (m : Message)
    (e : ProviderEvent) (h : e.Type_ = EventError) :
    processEvent env w sessionID m e = (Result.ofErr e.Error, m, w) := by
  have h1 : e.Type_ ≠ EventThinkingDelta := by rw [h]; decide
  have h2 : e.Type_ ≠ EventContentDelta := by rw [h]; decide
  unfold processEvent
  rw [if_neg h1, if_neg h2, if_pos h]

theorem processEvent_complete (env : Env) (w : World) (sessionID : String) (m : Message)
    (e : ProviderEvent) (h : e.Type_ = EventComplete) :
    processEvent env w sessionID m e =
      match e.Response with
      | none => (.panic, m, w)
      | some response =>
        match Messages.Update env w { m with ToolCalls := response.ToolCalls } with
        | (some err, w1) => (.err err, { m with ToolCalls := response.ToolCalls }, w1)
        | (none, w1) =>
          (Result.ofErr (TrackUsage env w1 sessionID env.model response.Usage).1,
            { m with ToolCalls := response.ToolCalls },
            (TrackUsage env w1 sessionID env.model response.Usage).2) := by
  have h1 : e.Type_ ≠ EventThinkingDelta := by rw [h]; decide
  have h2 : e.Type_ ≠ EventContentDelta := by rw [h]; decide
  have h3 : e.Type_ ≠ EventError := by rw [h]; decide
  unfold processEvent
  rw [if_neg h1, if_neg h2, if_neg h3, if_pos h]

theorem processEvent_other (env : Env) (w : World) (sessionID : String) (m : Message)
    (e : ProviderEvent) (h1 : e.Type_ ≠ EventThinkingDelta) (h2 : e.Type_ ≠ EventContentDelta)
    (h3 : e.Type_ ≠ EventError) (h4 : e.Type_ ≠ EventComplete) :
    processEvent env w sessionID m e = (.ok (), m, w) := by
  unfold processEvent
  rw [if_neg h1, if_neg h2, if_neg h3, if_neg h4]

/-- What one call of `processEvent` does to the fields of the Assistant message, whatever its
result: the text grows by the fragment of a delta event and nothing else changes besides the
tool calls. -/
theorem processEvent_fields (env : Env) (w : World) (sessionID : String) (m : Message)
    (e : ProviderEvent) :
    (processEvent env w sessionID m e).2.1.Content
        = m.Content ++ (if e.Type_ = EventContentDelta then e.Content else "") ∧
    (processEvent env w sessionID m e).2.1.Thinking
        = m.Thinking ++ (if e.Type_ = EventThinkingDelta then e.Thinking else "") ∧
    (processEvent env w sessionID m e).2.1.ID = m.ID ∧
    (processEvent env w sessionID m e).2.1.SessionID = m.SessionID ∧
    (processEvent env w sessionID m e).2.1.Role = m.Role ∧
    (processEvent env w sessionID m e).2.1.Finished = m.Finished := by
  by_cases h1 : e.Type_ = EventThinkingDelta
  · have h2 : e.Type_ ≠ EventContentDelta := by rw [h1]; decide
    rw [processEvent_thinking _ _ _ _ _ h1, if_neg h2, if_pos h1]
    simp
  · by_cases h2 : e.Type_ = EventContentDelta
    · rw [processEvent_content _ _ _ _ _ h2, if_neg h1, if_pos h2]
      simp
    · by_cases h3 : e.Type_ = EventError
      · rw [processEvent_error _ _ _ _ _ h3]
        simp [h1, h2]
      · by_cases h4 : e.Type_ = EventComplete
        · rw [processEvent_complete _ _ _ _ _ h4]
          split
          · simp [h1, h2]
          · split <;> simp [h1, h2]
        · rw [processEvent_other _ _ _ _ _ h1 h2 h3 h4]
          simp [h1, h2]

theorem processEvent_same (env : Env) (w : World) (sessionID : String) (m : Message)
    (e : ProviderEvent) : SameCalls w (processEvent env w sessionID m e).2.2 := by
  unfold processEvent
  split
  · exact Messages_Update_same env w _
  · split
    · exact Messages_Update_same env w _
    · split
      · exact SameCalls.refl w
      · split
        · split
          · exact SameCalls.refl w
          · next response hr =>
            simp only []
            split
            · next err w1 heq =>
              have := Messages_Update_same env w { m with ToolCalls := response.ToolCalls }
              rw [heq] at this
              exact this
            · next w1 heq =>
              have h1 := Messages_Update_same env w { m with ToolCalls := response.ToolCalls }
              rw [heq] at h1
              exact h1.trans (TrackUsage_same env w1 sessionID env.model response.Usage)
        · exact SameCalls.refl w

theorem consumeEvents_cons_ok (env : Env) (sessionID : String) (w : World) (m : Message)
    (e : ProviderEvent) (rest : List ProviderEvent) (m1 : Message) (w1 : World)
    (h : processEvent env w sessionID m e = (.ok (), m1, w1)) :
    consumeEvents env sessionID w m (e :: rest) = consumeEvents env sessionID w1 m1 rest := by
  rw [consumeEvents, h]

theorem consumeEvents_cons_err (env : Env) (sessionID : String) (w : World) (m : Message)
    (e : ProviderEvent) (rest : List ProviderEvent) (err : Err) (m1 : Message) (w1 : World)
    (h : processEvent env w sessionID m e = (.err err, m1, w1)) :
    consumeEvents env sessionID w m (e :: rest) =
      (.err err, { m1 with Finished := true },
        (Messages.Update env w1 { m1 with Finished := true }).2) := by
  rw [consumeEvents, h]

theorem consumeEvents_ok_cons_inv (env : Env) (sessionID : String) (w : World) (m : Message)
    (e : ProviderEvent) (rest : List ProviderEvent) (m2 : Message) (w2 : World)
    (h : consumeEvents env sessionID w m (e :: rest) = (.ok (), m2, w2)) :
    ∃ m1 w1, processEvent env w sessionID m e = (.ok (), m1, w1) ∧
      consumeEvents env sessionID w1 m1 rest = (.ok (), m2, w2) := by
  rw [consumeEvents] at h
  split at h
  · next u m1 w1 heq => exact ⟨m1, w1, heq, h⟩
  · simp at h
  · simp at h

theorem consumeEvents_ok_append_inv (env : Env) (sessionID : String)
    (pre post : List ProviderEvent) (w : World) (m : Message) (m2 : Message) (w2 : World)
    (h : consumeEvents env sessionID w m (pre ++ post) = (.ok (), m2, w2)) :
    ∃ m1 w1, consumeEvents env sessionID w m pre = (.ok (), m1, w1) ∧
      consumeEvents env sessionID w1 m1 post = (.ok (), m2, w2) := by
  induction pre generalizing w m with
  | nil => exact ⟨m, w, by simp [consumeEvents], by simpa using h⟩
  | cons e es ih =>
    rw [List.cons_append] at h
    obtain ⟨m1, w1, hp, hrest⟩ := consumeEvents_ok_cons_inv _ _ _ _ _ _ _ _ h
    obtain ⟨m3, w3, hpre, hpost⟩ := ih w1 m1 hrest
    exact ⟨m3, w3, by rw [consumeEvents_cons_ok _ _ _ _ _ _ _ _ hp]; exact hpre, hpost⟩

theorem consumeEvents_append_of_ok (env : Env) (sessionID : String)
    (pre post : List ProviderEvent) (w : World) (m : Message) (m1 : Message) (w1 : World)
    (h : consumeEvents env sessionID w m pre = (.ok (), m1, w1)) :
    consumeEvents env sessionID w m (pre ++ post) = consumeEvents env sessionID w1 m1 post := by
  induction pre generalizing w m with
  | nil =>
    simp only [consumeEvents, Prod.mk.injEq, true_and] at h
    rw [h.1, h.2]; rfl
  | cons e es ih =>
    obtain ⟨m3, w3, hp, hrest⟩ := consumeEvents_ok_cons_inv _ _ _ _ _ _ _ _ h
    rw [List.cons_append, consumeEvents_cons_ok _ _ _ _ _ _ _ _ hp]
    exact ih w3 m3 hrest

/-- The fields of the Assistant message after a sequence of events has been consumed. -/
theorem consumeEvents_fields (env : Env) (sessionID : String) (events : List ProviderEvent)
    (w : World) (m : Message) (m2 : Message) (w2 : World)
    (h : consumeEvents env sessionID w m events = (.ok (), m2, w2)) :
    m2.Content = m.Content ++ contentOf events ∧
    m2.Thinking = m.Thinking ++ thinkingOf events ∧
    m2.ID = m.ID ∧ m2.SessionID = m.SessionID ∧ m2.Role = m.Role ∧
    m2.Finished = m.Finished := by
  induction events generalizing w m with
  | nil =>
    simp only [consumeEvents, Prod.mk.injEq, true_and] at h
    rw [← h.1]
    simp [contentOf_nil, thinkingOf_nil]
  | cons e es ih =>
    obtain ⟨m1, w1, hp, hrest⟩ := consumeEvents_ok_cons_inv _ _ _ _ _ _ _ _ h
    have hf := processEvent_fields env w sessionID m e
    rw [hp] at hf
    obtain ⟨c1, c2, c3, c4, c5, c6⟩ := ih w1 m1 hrest
    simp only at hf
    rw [contentOf_cons, thinkingOf_cons, c1, c2, c3, c4, c5, c6, hf.1, hf.2.1, hf.2.2.1,
      hf.2.2.2.1, hf.2.2.2.2.1, hf.2.2.2.2.2]
    simp [String.append_assoc]

theorem consumeEvents_same (env : Env) (sessionID : String) (events : List ProviderEvent)
    (w : World) (m : Message) : SameCalls w (consumeEvents env sessionID w m events).2.2 := by
  induction events generalizing w m with
  | nil => exact SameCalls.refl w
  | cons e es ih =>
    have hp := processEvent_same env w sessionID m e
    rw [consumeEvents]
    split
    · next u m1 w1 heq =>
      rw [heq] at hp
      exact hp.trans (ih w1 m1)
    · next err m1 w1 heq =>
      rw [heq] at hp
      exact hp.trans (Messages_Update_same env w1 _)
    · next m1 w1 heq =>
      rw [heq] at hp
      exact hp

/-! ### Tool dispatch: claims C1 to C3 -/

/-- C1: for every batch of tool calls (the empty one included), every tool set and every order
in which the dispatch goroutines complete, `ExecuteTools` returns as many results as there are
calls, the result at each index carries the id of the call at that index, and the result list
is the one obtained when the goroutines complete in launch order. -/
theorem ExecuteTools_order_preserving (order : List Nat) (toolCalls : List ToolCall)
    (tls : List tools.BaseTool) (horder : order.Perm (List.range toolCalls.length)) :
    (ExecuteToolsIn order toolCalls tls).1.length = toolCalls.length ∧
    (∀ i (h : i < toolCalls.length),
      ((ExecuteToolsIn order toolCalls tls).1[i]?).map ToolResult.ToolCallID
        = some toolCalls[i].ID) ∧
    ExecuteToolsIn order toolCalls tls = ExecuteTools toolCalls tls := by
  have h1 := ExecuteToolsIn_eq_map order toolCalls tls (mem_of_perm_range horder)
  have h2 := ExecuteToolsIn_eq_map (List.range toolCalls.length) toolCalls tls
    (fun i hi => List.mem_range.2 hi)
  refine ⟨?_, ?_, ?_⟩
  · rw [h1]; simp
  · intro i h
    rw [h1]
    simp [h, runToolCall]
  · rw [ExecuteTools, h1, h2]

/-- Witness of C1: three calls whose goroutines complete in the order 2, 0, 1. -/
theorem ExecuteTools_order_preserving_witness :
    (ExecuteToolsIn [2, 0, 1]
      [⟨"a", "ls", "", ""⟩, ⟨"b", "grep", "", ""⟩, ⟨"c", "ls", "", ""⟩] []).1.length = 3 ∧
    (∀ i (h : i < 3),
      ((ExecuteToolsIn [2, 0, 1]
        [⟨"a", "ls", "", ""⟩, ⟨"b", "grep", "", ""⟩, ⟨"c", "ls", "", ""⟩] []).1[i]?).map
          ToolResult.ToolCallID
        = some ([⟨"a", "ls", "", ""⟩, ⟨"b", "grep", "", ""⟩, ⟨"c", "ls", "", ""⟩] :
            List ToolCall)[i].ID) ∧
    ExecuteToolsIn [2, 0, 1]
        [⟨"a", "ls", "", ""⟩, ⟨"b", "grep", "", ""⟩, ⟨"c", "ls", "", ""⟩] [] =
      ExecuteTools [⟨"a", "ls", "", ""⟩, ⟨"b", "grep", "", ""⟩, ⟨"c", "ls", "", ""⟩] [] :=
  ExecuteTools_order_preserving [2, 0, 1]
    [⟨"a", "ls", "", ""⟩, ⟨"b", "grep", "", ""⟩, ⟨"c", "ls", "", ""⟩] [] (by decide)

/-- C2: when the name of the call at index `i` is the name of no tool of the set, then in every
completion order the result at index `i` carries the call id, `IsError = true` and the content
`"tool not found: "` followed by the requested name, the full result list is returned and
the error is nil. -/
theorem ExecuteTools_tool_not_found (order : List Nat) (toolCalls : List ToolCall)
    (tls : List tools.BaseTool) (horder : order.Perm (List.range toolCalls.length))
    (i : Nat) (hi : i < toolCalls.length)
    (habsent : ∀ tool ∈ tls, tool.Name ≠ toolCalls[i].Name) :
    (ExecuteToolsIn order toolCalls tls).1[i]? =
      some { ToolCallID := toolCalls[i].ID,
             Content := "tool not found: " ++ toolCalls[i].Name, IsError := true } ∧
    (ExecuteToolsIn order toolCalls tls).1.length = toolCalls.length ∧
    (ExecuteToolsIn order toolCalls tls).2 = none := by
  rw [ExecuteToolsIn_eq_map order toolCalls tls (mem_of_perm_range horder)]
  refine ⟨?_, by simp, rfl⟩
  simp [hi, runToolCall, lookupAndRun_absent _ _ habsent]

/-- Witness of C2: the call `"grep"` against a tool set that only holds `"ls"`. -/
theorem ExecuteTools_tool_not_found_witness :
    (ExecuteToolsIn [1, 0] [⟨"a", "ls", "", ""⟩, ⟨"b", "grep", "", ""⟩]
        [⟨"ls", fun _ => .ok ⟨"a.txt", false⟩⟩]).1[1]? =
      some { ToolCallID := "b", Content := "tool not found: grep", IsError := true } ∧
    (ExecuteToolsIn [1, 0] [⟨"a", "ls", "", ""⟩, ⟨"b", "grep", "", ""⟩]
        [⟨"ls", fun _ => .ok ⟨"a.txt", false⟩⟩]).1.length = 2 ∧
    (ExecuteToolsIn [1, 0] [⟨"a", "ls", "", ""⟩, ⟨"b", "grep", "", ""⟩]
        [⟨"ls", fun _ => .ok ⟨"a.txt", false⟩⟩]).2 = none :=
  ExecuteTools_tool_not_found [1, 0] [⟨"a", "ls", "", ""⟩, ⟨"b", "grep", "", ""⟩]
    [⟨"ls", fun _ => .ok ⟨"a.txt", false⟩⟩] (by decide) 1 (by decide)
    (by intro tool hmem; simp at hmem; subst hmem; decide)

/-- C3: `ExecuteTools` returns a nil error for every batch, tool set and completion order; and
when the first tool of the set whose name equals the name of the call at index `i` fails with
the error `e`, the result at index `i` carries the call id, `IsError = true` and the content
`"error running tool: "` followed by the description of `e`. -/
theorem ExecuteTools_never_fails (order : List Nat) (toolCalls : List ToolCall)
    (tls : List tools.BaseTool) (horder : order.Perm (List.range toolCalls.length))
    (i : Nat) (hi : i < toolCalls.length) (tool : tools.BaseTool) (e : Err)
    (hfound : tls.find? (fun t => decide (t.Name = toolCalls[i].Name)) = some tool)
    (hrun : tool.Run { ID := toolCalls[i].ID, Name := toolCalls[i].Name,
                       Input := toolCalls[i].Input } = .error e) :
    (∀ (order1 : List Nat) (calls1 : List ToolCall) (tls1 : List tools.BaseTool),
      (ExecuteToolsIn order1 calls1 tls1).2 = none ∧ (ExecuteTools calls1 tls1).2 = none) ∧
    (ExecuteToolsIn order toolCalls tls).1[i]? =
      some { ToolCallID := toolCalls[i].ID,
             Content := "error running tool: " ++ e, IsError := true } := by
  refine ⟨fun _ _ _ => ⟨rfl, rfl⟩, ?_⟩
  rw [ExecuteToolsIn_eq_map order toolCalls tls (mem_of_perm_range horder)]
  simp [hi, runToolCall, lookupAndRun_found _ _ _ hfound, hrun]

/-- Witness of C3: the only tool fails with the error `"boom"`. -/
theorem ExecuteTools_never_fails_witness :
    (∀ (order1 : List Nat) (calls1 : List ToolCall) (tls1 : List tools.BaseTool),
      (ExecuteToolsIn order1 calls1 tls1).2 = none ∧ (ExecuteTools calls1 tls1).2 = none) ∧
    (ExecuteToolsIn [0] [⟨"a", "ls", "", ""⟩] [⟨"ls", fun _ => .error "boom"⟩]).1[0]? =
      some { ToolCallID := "a", Content := "error running tool: boom", IsError := true } :=
  ExecuteTools_never_fails [0] [⟨"a", "ls", "", ""⟩] [⟨"ls", fun _ => .error "boom"⟩]
    (by decide) 0 (by decide) ⟨"ls", fun _ => .error "boom"⟩ "boom" rfl rfl

theorem Messages_Update_ok (env : Env) (w : World) (msg : Message)
    (h : (Messages.Update env w msg).1 = none) :
    (Messages.Update env w msg).2.messages
      = w.messages.map fun m => if m.ID = msg.ID then msg else m := by
  unfold Messages.Update at h ⊢
  simp only [] at h ⊢
  split
  · next e he => rw [he] at h; simp at h
  · rfl

theorem Messages_Create_ok (env : Env) (w : World) (sessionID : String)
    (params : CreateMessageParams) (msg : Message) (w1 : World)
    (h : Messages.Create env w sessionID params = (.ok msg, w1)) :
    msg.SessionID = sessionID ∧ msg.Role = params.Role ∧ msg.Content = params.Content ∧
    msg.Thinking = "" ∧ msg.ToolCalls = params.ToolCalls ∧
    msg.ToolResults = params.ToolResults ∧ msg.Finished = false ∧
    w1.messages = w.messages ++ [msg] := by
  unfold Messages.Create at h
  simp only [] at h
  split at h
  · simp at h
  · simp only [Prod.mk.injEq, Except.ok.injEq] at h
    obtain ⟨h1, h2⟩ := h
    subst h1
    subst h2
    simp [World.step, World.record]

theorem Result_ofErr_ok (err : Option Err) (h : Result.ofErr err = .ok ()) : err = none := by
  cases err with
  | none => rfl
  | some e => simp [Result.ofErr] at h

/-! ### Streaming: claim C8 -/

/-- C8: when the loop has consumed a sequence of events for the Assistant message it created,
the content of the message is the concatenation, in arrival order, of the fragments of the
content-delta events and its thinking trace that of the thinking-delta events; every delta
event is persisted by exactly one `Messages.Update`, which succeeds and carries the text
accumulated up to and including that event; a content-start or content-stop marker changes
neither the message nor the world (so it persists nothing). -/
theorem consumeEvents_accumulates (env : Env) (sessionID : String) (w0 w : World)
    (m : Message) (events : List ProviderEvent) (m2 : Message) (w2 : World)
    (hcreate : Messages.Create env w0 sessionID { Role := .Assistant, Content := "" }
      = (.ok m, w))
    (h : consumeEvents env sessionID w m events = (.ok (), m2, w2)) :
    m2.Content = contentOf events ∧ m2.Thinking = thinkingOf events ∧
    (∀ pre e post, events = pre ++ e :: post →
      (e.Type_ = EventContentDelta ∨ e.Type_ = EventThinkingDelta) →
      ∃ m1 w1 m3 w3,
        consumeEvents env sessionID w m pre = (.ok (), m1, w1) ∧
        processEvent env w1 sessionID m1 e = (.ok (), m3, w3) ∧
        w3.log = w1.log ++ [.MessagesUpdate m3] ∧
        w3.messages = (w1.messages.map fun x => if x.ID = m3.ID then m3 else x) ∧
        m3.Content = contentOf (pre ++ [e]) ∧ m3.Thinking = thinkingOf (pre ++ [e]) ∧
        consumeEvents env sessionID w3 m3 post = (.ok (), m2, w2)) ∧
    (∀ pre e post, events = pre ++ e :: post →
      (e.Type_ = EventContentStart ∨ e.Type_ = EventContentStop) →
      ∃ m1 w1,
        consumeEvents env sessionID w m pre = (.ok (), m1, w1) ∧
        processEvent env w1 sessionID m1 e = (.ok (), m1, w1) ∧
        consumeEvents env sessionID w1 m1 post = (.ok (), m2, w2)) := by
  obtain ⟨-, -, hc0, ht0, -⟩ := Messages_Create_ok _ _ _ _ _ _ hcreate
  simp only at hc0
  have hall := consumeEvents_fields _ _ _ _ _ _ _ h
  refine ⟨by rw [hall.1, hc0]; simp, by rw [hall.2.1, ht0]; simp, ?_, ?_⟩
  · intro pre e post hsplit hkind
    subst hsplit
    obtain ⟨m1, w1, hpre, hrest⟩ := consumeEvents_ok_append_inv _ _ _ _ _ _ _ _ h
    obtain ⟨m3, w3, hp, hpost⟩ := consumeEvents_ok_cons_inv _ _ _ _ _ _ _ _ hrest
    have hf1 := consumeEvents_fields _ _ _ _ _ _ _ hpre
    have hpe : consumeEvents env sessionID w m (pre ++ [e]) = (.ok (), m3, w3) := by
      rw [consumeEvents_append_of_ok _ _ _ _ _ _ _ _ hpre,
        consumeEvents_cons_ok _ _ _ _ _ _ _ _ hp]
      rfl
    have hf3 := consumeEvents_fields _ _ _ _ _ _ _ hpe
    refine ⟨m1, w1, m3, w3, hpre, hp, ?_, ?_, by rw [hf3.1, hc0]; simp,
      by rw [hf3.2.1, ht0]; simp, hpost⟩
    · rcases hkind with hk | hk
      · rw [processEvent_content _ _ _ _ _ hk] at hp
        simp only [Prod.mk.injEq] at hp
        rw [← hp.2.2, ← hp.2.1]
        exact Messages_Update_log env w1 _
      · rw [processEvent_thinking _ _ _ _ _ hk] at hp
        simp only [Prod.mk.injEq] at hp
        rw [← hp.2.2, ← hp.2.1]
        exact Messages_Update_log env w1 _
    · rcases hkind with hk | hk
      · rw [processEvent_content _ _ _ _ _ hk] at hp
        simp only [Prod.mk.injEq] at hp
        rw [← hp.2.2, ← hp.2.1]
        exact Messages_Update_ok env w1 _ (Result_ofErr_ok _ hp.1)
      · rw [processEvent_thinking _ _ _ _ _ hk] at hp
        simp only [Prod.mk.injEq] at hp
        rw [← hp.2.2, ← hp.2.1]
        exact Messages_Update_ok env w1 _ (Result_ofErr_ok _ hp.1)
  · intro pre e post hsplit hkind
    subst hsplit
    obtain ⟨m1, w1, hpre, hrest⟩ := consumeEvents_ok_append_inv _ _ _ _ _ _ _ _ h
    have hp : processEvent env w1 sessionID m1 e = (.ok (), m1, w1) := by
      rcases hkind with hk | hk <;>
        exact processEvent_other _ _ _ _ _ (by rw [hk]; decide) (by rw [hk]; decide)
          (by rw [hk]; decide) (by rw [hk]; decide)
    refine ⟨m1, w1, hpre, hp, ?_⟩
    rw [consumeEvents_cons_ok _ _ _ _ _ _ _ _ hp] at hrest
    exact hrest

/-- Witness of C8: the sample events folded into a fresh Assistant message give the content
`"Sure, checking..."` and the thinking trace `"hm"`. -/
theorem consumeEvents_accumulates_witness :
    Messages.Create scenarioEnv scenarioWorld "s1" { Role := .Assistant, Content := "" }
      = (.ok sampleAssistant,
          (Messages.Create scenarioEnv scenarioWorld "s1"
            { Role := .Assistant, Content := "" }).2) ∧
    (consumeEvents scenarioEnv "s1"
        (Messages.Create scenarioEnv scenarioWorld "s1" { Role := .Assistant, Content := "" }).2
        sampleAssistant sampleEvents).1 = .ok () ∧
    (consumeEvents scenarioEnv "s1"
        (Messages.Create scenarioEnv scenarioWorld "s1" { Role := .Assistant, Content := "" }).2
        sampleAssistant sampleEvents).2.1.Content = contentOf sampleEvents ∧
    contentOf sampleEvents = "Sure, checking..." ∧
    (consumeEvents scenarioEnv "s1"
        (Messages.Create scenarioEnv scenarioWorld "s1" { Role := .Assistant, Content := "" }).2
        sampleAssistant sampleEvents).2.1.Thinking = thinkingOf sampleEvents ∧
    thinkingOf sampleEvents = "hm" :=
  ⟨rfl, rfl,
    (consumeEvents_accumulates scenarioEnv "s1" scenarioWorld _ sampleAssistant sampleEvents
      _ _ rfl rfl).1, by decide,
    (consumeEvents_accumulates scenarioEnv "s1" scenarioWorld _ sampleAssistant sampleEvents
      _ _ rfl rfl).2.1, by decide⟩

/-! ### Usage tracking: claims C6 and C7 -/

theorem service_Get_ok (env : Env) (w : World) (id : String) (s : Session) (w1 : World)
    (h : service.Get env w id = (.ok s, w1)) :
    w.session id = some s ∧ w1.sessions = w.sessions := by
  have hw := service_Get_world env w id
  rw [h] at hw
  simp only at hw
  unfold service.Get db.GetSessionByID at h
  simp only [World.record, World.step] at h
  unfold World.session
  split at h
  · simp at h
  · next s1 w2 heq =>
    split at heq
    · simp at heq
    · split at heq
      · next s2 hfind =>
        simp only [Prod.mk.injEq, Except.ok.injEq] at heq h
        rw [← h.1, ← heq.1]
        exact ⟨hfind, by rw [hw]; rfl⟩
      · simp at heq

theorem find_replace (l : List Session) (id : String) (row : Session) (s : Session)
    (hrow : row.ID = id) (h : l.find? (fun t => t.ID = id) = some s) :
    (l.map fun t => if t.ID = id then row else t).find? (fun t => t.ID = id) = some row := by
  induction l with
  | nil => simp at h
  | cons a rest ih =>
    by_cases ha : a.ID = id
    · simp [List.find?_cons, ha, hrow]
    · simp only [List.find?_cons, ha, decide_False] at h
      simp only [List.map_cons, ha, if_false, List.find?_cons, decide_False]
      exact ih h

theorem service_Save_ok (env : Env) (w : World) (session : Session) (row : Session)
    (w1 : World) (h : service.Save env w session = (.ok row, w1)) :
    ∃ s, w.session session.ID = some s ∧
      row = { s with Title := session.Title, PromptTokens := session.PromptTokens,
                     CompletionTokens := session.CompletionTokens, Cost := session.Cost } ∧
      w1.session session.ID = some row := by
  unfold service.Save db.UpdateSession at h
  simp only [World.record, World.step] at h
  unfold World.session
  split at h
  · simp at h
  · next r w2 heq =>
    split at heq
    · simp at heq
    · split at heq
      · simp at heq
      · next s hfind =>
        simp only [Prod.mk.injEq, Except.ok.injEq] at heq h
        refine ⟨s, hfind, ?_, ?_⟩
        · rw [← h.1, ← heq.1]
        · rw [← h.2, ← heq.2, ← h.1, ← heq.1]
          have hid : s.ID = session.ID := by
            have := List.find?_some hfind
            simpa using this
          exact find_replace _ _ _ s hid hfind

/-- A successful `TrackUsage` replaces the stored session by the session grown by the usage
record. -/
theorem TrackUsage_ok (env : Env) (w : World) (sessionID : String) (model : Model)
    (usage : TokenUsage) (w2 : World)
    (h : TrackUsage env w sessionID model usage = (none, w2)) :
    ∃ s, w.session sessionID = some s ∧ w2.session sessionID = some (s.track model usage) := by
  unfold TrackUsage at h
  split at h
  · simp at h
  · next s w1 hget =>
    obtain ⟨hs, hsess⟩ := service_Get_ok _ _ _ _ _ hget
    have hid : s.ID = sessionID := by
      have := List.find?_some hs
      simpa using this
    simp only [] at h
    split at h
    · simp at h
    · next row w3 hsave =>
      simp only [Prod.mk.injEq, true_and] at h
      obtain ⟨s1, hs1, hrow, hrow2⟩ := service_Save_ok _ _ _ _ _ hsave
      simp only at hs1 hrow hrow2
      rw [hid] at hs1 hrow2
      have : w1.session sessionID = w.session sessionID := by
        unfold World.session; rw [hsess]
      rw [this, hs] at hs1
      cases hs1
      refine ⟨s, hs, ?_⟩
      rw [← h, hrow2, hrow]
      rfl

theorem wrapInt64_of_inInt64 (x : Int) (h : inInt64 x) : wrapInt64 x = x := by
  unfold inInt64 at h
  unfold wrapInt64
  omega

theorem wrapInt64_add_wrapInt64 (a b : Int) : wrapInt64 (wrapInt64 a + b) = wrapInt64 (a + b) := by
  unfold wrapInt64
  omega

/-! ### The cost in `float64`: claims C6 and C7 -/

/-- The session as `TrackUsage64` saves it. -/
theorem TrackUsage64_ok (env : Env) (w : World) (sessionID : String) (model : Model)
    (usage : TokenUsage) (w2 : World)
    (h : TrackUsage64 env w sessionID model usage = some (none, w2)) :
    ∃ s newCost, w.session sessionID = some s ∧
      Float64.add (.finite s.Cost) (usageCost64 model usage) = .finite newCost ∧
      w2.session sessionID = some
        { s with
          Cost := newCost
          CompletionTokens := wrapInt64 (s.CompletionTokens + usage.OutputTokens)
          PromptTokens := wrapInt64 (s.PromptTokens + usage.InputTokens) } := by
  unfold TrackUsage64 at h
  split at h
  · simp at h
  · next s w1 hget =>
    obtain ⟨hs, hsess⟩ := service_Get_ok _ _ _ _ _ hget
    have hid : s.ID = sessionID := by
      have := List.find?_some hs
      simpa using this
    simp only [] at h
    split at h
    · next newCost hadd =>
      split at h
      · simp at h
      · next row w3 hsave =>
        simp only [Option.some.injEq, Prod.mk.injEq, true_and] at h
        obtain ⟨s1, hs1, hrow, hrow2⟩ := service_Save_ok _ _ _ _ _ hsave
        simp only at hs1 hrow hrow2
        rw [hid] at hs1 hrow2
        have : w1.session sessionID = w.session sessionID := by
          unfold World.session; rw [hsess]
        rw [this, hs] at hs1
        cases hs1
        refine ⟨s, newCost, hs, hadd, ?_⟩
        rw [← h, hrow2, hrow]
    · simp at h

/-- The embedding gives no result only when the new cost is not a finite number. -/
theorem TrackUsage64_none (env : Env) (w : World) (sessionID : String) (model : Model)
    (usage : TokenUsage) (h : TrackUsage64 env w sessionID model usage = none) :
    ∃ s, (service.Get env w sessionID).1 = .ok s ∧
      ∀ newCost, Float64.add (.finite s.Cost) (usageCost64 model usage) ≠ .finite newCost := by
  unfold TrackUsage64 at h
  split at h
  · simp at h
  · next s w1 hget =>
    refine ⟨s, by rw [hget], ?_⟩
    intro newCost hadd
    simp only [] at h
    rw [hadd] at h
    simp only [] at h
    split at h <;> simp at h

theorem Float64_round_zero : Float64.round 0 = .finite 0 := by
  simp [Float64.round]

theorem Float64_add_nan_left (x : Float64) : Float64.add .nan x = .nan := by
  cases x <;> rfl

theorem Float64_add_nan_right (x : Float64) : Float64.add x .nan = .nan := by
  cases x <;> rfl

/-- A product with the converted count zero is zero, or a NaN when the other factor is not
finite. -/
theorem Float64_mul_zero (x : Float64) :
    Float64.mul x (Float64.ofInt64 0) = .finite 0 ∨ Float64.mul x (Float64.ofInt64 0) = .nan := by
  have h0 : Float64.ofInt64 0 = .finite 0 := by
    simp [Float64.ofInt64, Float64_round_zero]
  rw [h0]
  cases x with
  | finite a => left; simp [Float64.mul, Float64_round_zero]
  | inf s => right; simp [Float64.mul]
  | nan => right; rfl

/-- The cost expression is exact when none of its fifteen operations rounds. -/
theorem usageCost64_exact (model : Model) (usage : TokenUsage)
    (h : ∀ q ∈ exactSteps model usage, Float64.round q = .finite q) :
    usageCost64 model usage = .finite (usageCost model usage) := by
  simp only [exactSteps, List.mem_cons, List.mem_singleton, forall_eq_or_imp, forall_eq,
    List.not_mem_nil, false_imp_iff, implies_true, and_true] at h
  obtain ⟨h1, h2, h3, h4, h5, h6, h7, h8, h9, h10, h11, h12, h13, h14, h15⟩ := h
  unfold usageCost64
  simp only [Float64.divMillion, Float64.ofInt64, Float64.mul, Float64.add, h1, h2, h3, h4, h5, h6,
    h7, h8, h9, h10, h11, h12, h13, h14]
  rw [usageCost] at h15
  rw [h15, usageCost]

/-- The cost of the usage record of the specification, evaluated in `float64`: the two
products are 3 and 7.5 and the sum is 10.5, none of them rounded though the quotients are. -/
theorem usageCost64_instance :
    Float64.divMillion (.finite 3) = .finite (1770887431076117 / 590295810358705651712) ∧
    Float64.divMillion (.finite 15) = .finite (8854437155380585 / 590295810358705651712) ∧
    Float64.add
      (Float64.add (Float64.add (.finite 0) (.finite 0))
        (Float64.mul (Float64.divMillion (.finite 3)) (Float64.ofInt64 1000000)))
      (Float64.mul (Float64.divMillion (.finite 15)) (Float64.ofInt64 500000))
      = .finite (21 / 2) := by
  decide!

/-- Counterexample to C6 as stated: with 7 input and 9 output tokens at the rates 3 and 15, from
the cost 0, a successful `TrackUsage` stores the cost `1438846037749345 / 2 ^ 63`, the `float64`
which the rounded operations give, and not `7 * 3 / 1e6 + 9 * 15 / 1e6 = 39 / 250000`, which is
not a `float64`. -/
theorem TrackUsage_cost_counterexample :
    TrackUsage64 scenarioEnv scenarioWorld "s1" scenarioEnv.model
        { InputTokens := 7, OutputTokens := 9 }
      = some (none, tracked scenarioWorld { InputTokens := 7, OutputTokens := 9 }) ∧
    scenarioWorld.session "s1" = some { ID := "s1", Cost := 0 } ∧
    (tracked scenarioWorld { InputTokens := 7, OutputTokens := 9 }).session "s1"
      = some { ID := "s1", PromptTokens := 7, CompletionTokens := 9,
               Cost := 1438846037749345 / 9223372036854775808 } ∧
    (1438846037749345 / 9223372036854775808 : ℚ)
      ≠ 0 + (7 * 3 / 1000000 + 9 * 15 / 1000000 + 0 * 0 / 1000000 + 0 * 0 / 1000000) ∧
    Float64.round (39 / 250000) ≠ .finite (39 / 250000) := by
  refine ⟨by decide!, by decide!, by decide!, by norm_num, by decide!⟩

/-- C6 as amended: a successful `TrackUsage` replaces the stored cost of the session by the
`float64` sum of the old cost and of the cost of the usage record, which is computed in
`float64` as `rateCacheWrite / 1e6 * cacheCreation + rateCacheRead / 1e6 * cacheRead +
rateIn / 1e6 * input + rateOut / 1e6 * output`, every operation rounded to the nearest
`float64`; the embedding gives no result only when that sum is not a finite number. The new
cost is the old cost plus `input * rateIn / 1e6 + output * rateOut / 1e6 +
cacheCreation * rateCacheWrite / 1e6 + cacheRead * rateCacheRead / 1e6` whenever none of the
operations rounds. With one million input tokens, half a million output tokens, no cache tokens
and the rates 3 and 15 the cost of the usage record is exactly 10.5, the new cost is the
`float64` nearest to the old cost plus 10.5, and it is the old cost plus 10.5 whenever that
number is a `float64`, as it is from the cost 0. -/
theorem TrackUsage_cost (env : Env) (w : World) (sessionID : String) (model : Model)
    (usage : TokenUsage) :
    (TrackUsage64 env w sessionID model usage = none →
      ∃ s, (service.Get env w sessionID).1 = .ok s ∧
        ∀ newCost, Float64.add (.finite s.Cost) (usageCost64 model usage) ≠ .finite newCost) ∧
    (∀ w2, TrackUsage64 env w sessionID model usage = some (none, w2) →
      ∃ s s2, w.session sessionID = some s ∧ w2.session sessionID = some s2 ∧
        Float64.finite s2.Cost = Float64.add (.finite s.Cost) (usageCost64 model usage) ∧
        ((∀ q ∈ exactSteps model usage, Float64.round q = .finite q) →
          Float64.round (s.Cost + usageCost model usage)
            = .finite (s.Cost + usageCost model usage) →
          s2.Cost = s.Cost +
            ((usage.InputTokens : ℚ) * model.CostPer1MIn / 1000000 +
             (usage.OutputTokens : ℚ) * model.CostPer1MOut / 1000000 +
             (usage.CacheCreationTokens : ℚ) * model.CostPer1MInCached / 1000000 +
             (usage.CacheReadTokens : ℚ) * model.CostPer1MOutCached / 1000000)) ∧
        (usage.InputTokens = 1000000 → usage.OutputTokens = 500000 →
          usage.CacheCreationTokens = 0 → usage.CacheReadTokens = 0 →
          model.CostPer1MIn = 3 → model.CostPer1MOut = 15 →
          usageCost64 model usage = .finite 10.5 ∧
          Float64.finite s2.Cost = Float64.round (s.Cost + 10.5) ∧
          (Float64.round (s.Cost + 10.5) = .finite (s.Cost + 10.5) → s2.Cost = s.Cost + 10.5) ∧
          (s.Cost = 0 → s2.Cost = 10.5))) := by
  refine ⟨TrackUsage64_none env w sessionID model usage, ?_⟩
  intro w2 h
  obtain ⟨s, newCost, hs, hadd, hs2⟩ := TrackUsage64_ok _ _ _ _ _ _ h
  refine ⟨s, _, hs, hs2, hadd.symm, ?_, ?_⟩
  · intro hex hsum
    rw [usageCost64_exact model usage hex] at hadd
    simp only [Float64.add] at hadd
    rw [hsum] at hadd
    simp only [Float64.finite.injEq] at hadd
    show newCost = _
    rw [← hadd, usageCost]
    ring
  · intro h1 h2 h3 h4 h5 h6
    have hcost : usageCost64 model usage = .finite 10.5 := by
      have hc : usageCost64 model usage = .finite (21 / 2) ∨ usageCost64 model usage = .nan := by
        unfold usageCost64
        rw [h1, h2, h3, h4, h5, h6]
        rcases Float64_mul_zero (Float64.divMillion (.finite model.CostPer1MInCached)) with
          e1 | e1
        · rcases Float64_mul_zero (Float64.divMillion (.finite model.CostPer1MOutCached)) with
            e2 | e2
          · left
            rw [e1, e2]
            exact usageCost64_instance.2.2
          · right
            rw [e2, Float64_add_nan_right, Float64_add_nan_left, Float64_add_nan_left]
        · right
          rw [e1, Float64_add_nan_left, Float64_add_nan_left, Float64_add_nan_left]
      rcases hc with hc | hc
      · rw [hc]
        norm_num
      · rw [hc, Float64_add_nan_right] at hadd
        cases hadd
    have hnew : Float64.finite newCost = Float64.round (s.Cost + 10.5) := by
      rw [hcost] at hadd
      exact hadd.symm
    refine ⟨hcost, hnew, ?_, ?_⟩
    · intro hrep
      rw [hrep] at hnew
      exact Float64.finite.inj hnew
    · intro h0
      rw [h0] at hnew
      have he : Float64.round (0 + 10.5) = .finite (21 / 2) := by
        have : (0 + 10.5 : ℚ) = 21 / 2 := by norm_num
        rw [this]
        decide!
      rw [he] at hnew
      have := Float64.finite.inj hnew
      show newCost = _
      rw [this]
      norm_num

/-- Witness of C6 as amended: the usage of the specification tracked in the scenario store,
whose session has the cost 0, leaves the cost 10.5; and at rates of one and two units for each
token, where no operation rounds, 7 input and 9 output tokens leave the cost 25. -/
theorem TrackUsage_cost_witness :
    (TrackUsage64 scenarioEnv scenarioWorld "s1" scenarioEnv.model
        { InputTokens := 1000000, OutputTokens := 500000 }
      = some (none, tracked scenarioWorld { InputTokens := 1000000, OutputTokens := 500000 }) ∧
    ∃ s s2, scenarioWorld.session "s1" = some s ∧
      (tracked scenarioWorld { InputTokens := 1000000, OutputTokens := 500000 }).session "s1"
        = some s2 ∧
      usageCost64 scenarioEnv.model { InputTokens := 1000000, OutputTokens := 500000 }
        = .finite 10.5 ∧
      Float64.finite s2.Cost = Float64.round (s.Cost + 10.5) ∧
      s2.Cost = 10.5) ∧
    (TrackUsage64 scenarioEnv scenarioWorld "s1" unitModel { InputTokens := 7, OutputTokens := 9 }
      = some (none, unitTracked { InputTokens := 7, OutputTokens := 9 }) ∧
    ∃ s s2, scenarioWorld.session "s1" = some s ∧
      (unitTracked { InputTokens := 7, OutputTokens := 9 }).session "s1" = some s2 ∧
      s2.Cost = s.Cost +
        (((7 : Int) : ℚ) * 1000000 / 1000000 + ((9 : Int) : ℚ) * 2000000 / 1000000 +
         ((0 : Int) : ℚ) * 0 / 1000000 + ((0 : Int) : ℚ) * 0 / 1000000)) :=
  ⟨⟨by decide!,
    match (TrackUsage_cost scenarioEnv scenarioWorld "s1" scenarioEnv.model
        { InputTokens := 1000000, OutputTokens := 500000 }).2 _ (by decide!) with
    | ⟨s, s2, h1, h2, _, _, h5⟩ =>
      ⟨s, s2, h1, h2, (h5 rfl rfl rfl rfl rfl rfl).1, (h5 rfl rfl rfl rfl rfl rfl).2.1,
        (h5 rfl rfl rfl rfl rfl rfl).2.2.2
          (congrArg Session.Cost (Option.some.inj (h1.symm.trans
            (show scenarioWorld.session "s1" = some { ID := "s1" } by decide))))⟩⟩,
   ⟨by decide!,
    match (TrackUsage_cost scenarioEnv scenarioWorld "s1" unitModel
        { InputTokens := 7, OutputTokens := 9 }).2 _ (by decide!) with
    | ⟨s, s2, h1, h2, _, h4, _⟩ =>
      ⟨s, s2, h1, h2,
        h4 (by decide!)
          (by
            rw [congrArg Session.Cost (Option.some.inj (h1.symm.trans
              (show scenarioWorld.session "s1" = some { ID := "s1" } by decide)))]
            decide!)⟩⟩⟩

/-- Counterexample to C7 as stated: with the prompt-token counter at the largest `int64`, one
more input token makes the stored counter wrap to the smallest `int64`, which is not the sum of
the old counter and the tracked input tokens; and from the cost `2 ^ 53`, tracking twice a
usage record whose cost is 3 leaves the cost `2 ^ 53 + 8`, each sum being rounded to a
`float64`, and not `2 ^ 53 + 3 + 3`, which is a `float64`. -/
theorem TrackUsage_additive_counterexample :
    (TrackUsage64 scenarioEnv fullWorld "s1" scenarioEnv.model { InputTokens := 1 }
        = some (none, tracked fullWorld { InputTokens := 1 }) ∧
      TrackUsage64 scenarioEnv (tracked fullWorld { InputTokens := 1 }) "s1" scenarioEnv.model
          { InputTokens := 0 }
        = some (none, tracked (tracked fullWorld { InputTokens := 1 }) { InputTokens := 0 }) ∧
      ((tracked (tracked fullWorld { InputTokens := 1 }) { InputTokens := 0 }).session "s1").map
          Session.PromptTokens = some (-9223372036854775808) ∧
      (-9223372036854775808 : Int) ≠ 9223372036854775807 + 1 + 0) ∧
    (usageCost64 scenarioEnv.model { InputTokens := 1000000 } = .finite 3 ∧
      TrackUsage64 scenarioEnv costlyWorld "s1" scenarioEnv.model { InputTokens := 1000000 }
        = some (none, tracked costlyWorld { InputTokens := 1000000 }) ∧
      TrackUsage64 scenarioEnv (tracked costlyWorld { InputTokens := 1000000 }) "s1"
          scenarioEnv.model { InputTokens := 1000000 }
        = some (none,
            tracked (tracked costlyWorld { InputTokens := 1000000 })
              { InputTokens := 1000000 }) ∧
      (costlyWorld.session "s1").map Session.Cost = some 9007199254740992 ∧
      ((tracked (tracked costlyWorld { InputTokens := 1000000 })
          { InputTokens := 1000000 }).session "s1").map Session.Cost
        = some 9007199254741000 ∧
      (9007199254741000 : ℚ) ≠ 9007199254740992 + 3 + 3 ∧
      Float64.round (9007199254740992 + 3 + 3) = .finite (9007199254740992 + 3 + 3)) := by
  refine ⟨⟨by decide!, by decide!, by decide!, by decide⟩,
    ⟨by decide!, by decide!, by decide!, by decide!, by decide!, by norm_num, ?_⟩⟩
  have : (9007199254740992 + 3 + 3 : ℚ) = 9007199254740998 := by norm_num
  rw [this]
  decide!

/-- C7 as amended: two successful calls of `TrackUsage` in a row leave the cost at the
`float64` sum of the cost of the second usage record and of the `float64` sum of the old cost
and the cost of the first, each cost computed in `float64` as in `TrackUsage`; this is the old
cost plus both costs whenever neither of the two sums rounds. Each token counter is left at the
sum of the old counter and both tracked amounts reduced to the `int64` range by wrap-around,
which is the exact sum whenever that sum lies in the `int64` range. -/
theorem TrackUsage_additive (env : Env) (w : World) (sessionID : String) (model : Model)
    (u1 u2 : TokenUsage) (w1 w2 : World)
    (h1 : TrackUsage64 env w sessionID model u1 = some (none, w1))
    (h2 : TrackUsage64 env w1 sessionID model u2 = some (none, w2)) :
    ∃ s s2, w.session sessionID = some s ∧ w2.session sessionID = some s2 ∧
      Float64.finite s2.Cost
        = Float64.add (Float64.add (.finite s.Cost) (usageCost64 model u1))
            (usageCost64 model u2) ∧
      (∀ c1 c2, usageCost64 model u1 = .finite c1 → usageCost64 model u2 = .finite c2 →
        Float64.round (s.Cost + c1) = .finite (s.Cost + c1) →
        Float64.round (s.Cost + c1 + c2) = .finite (s.Cost + c1 + c2) →
        s2.Cost = s.Cost + c1 + c2) ∧
      s2.PromptTokens = wrapInt64 (s.PromptTokens + u1.InputTokens + u2.InputTokens) ∧
      s2.CompletionTokens
        = wrapInt64 (s.CompletionTokens + u1.OutputTokens + u2.OutputTokens) ∧
      (inInt64 (s.PromptTokens + u1.InputTokens + u2.InputTokens) →
        s2.PromptTokens = s.PromptTokens + u1.InputTokens + u2.InputTokens) ∧
      (inInt64 (s.CompletionTokens + u1.OutputTokens + u2.OutputTokens) →
        s2.CompletionTokens = s.CompletionTokens + u1.OutputTokens + u2.OutputTokens) := by
  obtain ⟨s, c1, hs, hadd1, hs1⟩ := TrackUsage64_ok _ _ _ _ _ _ h1
  obtain ⟨t, c2, ht, hadd2, ht2⟩ := TrackUsage64_ok _ _ _ _ _ _ h2
  rw [hs1] at ht
  cases ht
  simp only at hadd2 ht2
  have hcost : Float64.finite c2
      = Float64.add (Float64.add (.finite s.Cost) (usageCost64 model u1))
          (usageCost64 model u2) := by
    rw [hadd1, hadd2]
  have hp : wrapInt64 (wrapInt64 (s.PromptTokens + u1.InputTokens) + u2.InputTokens)
      = wrapInt64 (s.PromptTokens + u1.InputTokens + u2.InputTokens) :=
    wrapInt64_add_wrapInt64 _ _
  have hc : wrapInt64 (wrapInt64 (s.CompletionTokens + u1.OutputTokens) + u2.OutputTokens)
      = wrapInt64 (s.CompletionTokens + u1.OutputTokens + u2.OutputTokens) :=
    wrapInt64_add_wrapInt64 _ _
  refine ⟨s, _, hs, ht2, hcost, ?_, hp, hc, ?_, ?_⟩
  · intro d1 d2 hd1 hd2 hr1 hr2
    rw [hd1, hd2] at hcost
    simp only [Float64.add, hr1, hr2] at hcost
    exact Float64.finite.inj hcost
  · intro hr
    show wrapInt64 (wrapInt64 (s.PromptTokens + u1.InputTokens) + u2.InputTokens) = _
    rw [hp, wrapInt64_of_inInt64 _ hr]
  · intro hr
    show wrapInt64 (wrapInt64 (s.CompletionTokens + u1.OutputTokens) + u2.OutputTokens) = _
    rw [hc, wrapInt64_of_inInt64 _ hr]

/-- Witness of C7 as amended: the usage of the specification and then 7 input and 9 output
tokens tracked in the scenario store leave the cost `2955531165558255 / 2 ^ 48`, the `float64`
nearest to 10.500156; the usage of the specification and then one million input tokens, whose
costs 10.5 and 3 are added without rounding, leave the cost 13.5. -/
theorem TrackUsage_additive_witness :
    (∃ s s2, scenarioWorld.session "s1" = some s ∧
      (tracked (tracked scenarioWorld { InputTokens := 1000000, OutputTokens := 500000 })
        { InputTokens := 7, OutputTokens := 9 }).session "s1" = some s2 ∧
      Float64.finite s2.Cost
        = Float64.add
            (Float64.add (.finite s.Cost)
              (usageCost64 scenarioEnv.model { InputTokens := 1000000, OutputTokens := 500000 }))
            (usageCost64 scenarioEnv.model { InputTokens := 7, OutputTokens := 9 }) ∧
      s2.PromptTokens = wrapInt64 (s.PromptTokens + 1000000 + 7) ∧
      s2.CompletionTokens = wrapInt64 (s.CompletionTokens + 500000 + 9) ∧
      s2.Cost = 2955531165558255 / 281474976710656) ∧
    (∃ s s2, scenarioWorld.session "s1" = some s ∧
      (tracked (tracked scenarioWorld { InputTokens := 1000000, OutputTokens := 500000 })
        { InputTokens := 1000000 }).session "s1" = some s2 ∧
      s2.Cost = s.Cost + 21 / 2 + 3) :=
  ⟨match TrackUsage_additive scenarioEnv scenarioWorld "s1" scenarioEnv.model
      { InputTokens := 1000000, OutputTokens := 500000 } { InputTokens := 7, OutputTokens := 9 }
      (tracked scenarioWorld { InputTokens := 1000000, OutputTokens := 500000 })
      (tracked (tracked scenarioWorld { InputTokens := 1000000, OutputTokens := 500000 })
        { InputTokens := 7, OutputTokens := 9 })
      (by decide!) (by decide!) with
    | ⟨s, s2, h1, h2, h3, _, h5, h6, _, _⟩ =>
      ⟨s, s2, h1, h2, h3, h5, h6,
        congrArg Session.Cost (Option.some.inj (h2.symm.trans
          (show _ = some { ID := "s1", PromptTokens := 1000007, CompletionTokens := 500009,
                           Cost := 2955531165558255 / 281474976710656 } by decide!)))⟩,
   match TrackUsage_additive scenarioEnv scenarioWorld "s1" scenarioEnv.model
      { InputTokens := 1000000, OutputTokens := 500000 } { InputTokens := 1000000 }
      (tracked scenarioWorld { InputTokens := 1000000, OutputTokens := 500000 })
      (tracked (tracked scenarioWorld { InputTokens := 1000000, OutputTokens := 500000 })
        { InputTokens := 1000000 })
      (by decide!) (by decide!) with
    | ⟨s, s2, h1, h2, _, h4, _⟩ =>
      ⟨s, s2, h1, h2,
        h4 (21 / 2) 3 (by decide!) (by decide!)
          (by
            rw [congrArg Session.Cost (Option.some.inj (h1.symm.trans
              (show scenarioWorld.session "s1" = some { ID := "s1" } by decide)))]
            decide!)
          (by
            rw [congrArg Session.Cost (Option.some.inj (h1.symm.trans
              (show scenarioWorld.session "s1" = some { ID := "s1" } by decide)))]
            decide!)⟩⟩

/-! ### One pass of the loop -/

theorem StreamResponse_calls (env : Env) (w : World) (messages : List Message) :
    (StreamResponse env w messages).2.providerCalls = w.providerCalls + 1 ∧
    (StreamResponse env w messages).2.dispatches = w.dispatches := by
  simp [StreamResponse, World.providerCalls, World.dispatches, World.record,
    List.countP_append, Action.isStreamResponse, Action.isExecuteTools]

theorem ExecuteTools_err (toolCalls : List ToolCall) (tls : List tools.BaseTool) :
    (ExecuteTools toolCalls tls).2 = none := rfl

theorem handleToolExecution_nil (env : Env) (w : World) (m : Message)
    (h : m.ToolCalls = []) : handleToolExecution env w m = ((none, none), w) := by
  simp [handleToolExecution, h]

theorem handleToolExecution_cons (env : Env) (w : World) (m : Message)
    (h : m.ToolCalls ≠ []) :
    handleToolExecution env w m =
      match Messages.Create env (w.record (.ExecuteTools m.ToolCalls)) m.SessionID
          { Role := .Tool, ToolResults := (ExecuteTools m.ToolCalls env.tools).1 } with
      | (.error err, w1) => ((none, some err), w1)
      | (.ok msg, w1) => ((some msg, none), w1) := by
  have hlen : ¬ m.ToolCalls.length = 0 := by
    intro h0; exact h (List.length_eq_zero.1 h0)
  unfold handleToolExecution
  rw [if_neg hlen]
  have he := ExecuteTools_err m.ToolCalls env.tools
  split
  · next x err heq => rw [heq] at he; simp at he
  · next x toolResults heq => rw [heq]

theorem handleToolExecution_calls (env : Env) (w : World) (m : Message) :
    (handleToolExecution env w m).2.providerCalls = w.providerCalls ∧
    (handleToolExecution env w m).2.dispatches
      = w.dispatches + (if m.ToolCalls = [] then 0 else 1) := by
  by_cases h : m.ToolCalls = []
  · rw [handleToolExecution_nil _ _ _ h]
    simp [h]
  · rw [handleToolExecution_cons _ _ _ h]
    have hc := Messages_Create_same env (w.record (.ExecuteTools m.ToolCalls)) m.SessionID
      { Role := .Tool, ToolResults := (ExecuteTools m.ToolCalls env.tools).1 }
    have hr : (w.record (.ExecuteTools m.ToolCalls)).providerCalls = w.providerCalls ∧
        (w.record (.ExecuteTools m.ToolCalls)).dispatches = w.dispatches + 1 := by
      simp [World.providerCalls, World.dispatches, World.record, List.countP_append,
        Action.isStreamResponse, Action.isExecuteTools]
    split
    · next err w1 heq =>
      rw [heq] at hc
      simp only [h, if_false]
      exact ⟨hc.1.trans hr.1, hc.2.trans hr.2⟩
    · next msg w1 heq =>
      rw [heq] at hc
      simp only [h, if_false]
      exact ⟨hc.1.trans hr.1, hc.2.trans hr.2⟩

/-- Every pass through the body of the loop makes exactly one provider call and at most one
tool dispatch. -/
theorem loopBody_calls (env : Env) (w : World) (sessionID : String) (messages : List Message) :
    (loopBody env w sessionID messages).2.2.providerCalls = w.providerCalls + 1 ∧
    (loopBody env w sessionID messages).2.2.dispatches ≤ w.dispatches + 1 := by
  have hs := StreamResponse_calls env w messages
  unfold loopBody
  split
  · next err w1 heq =>
    rw [heq] at hs
    simp only at hs
    exact ⟨hs.1, by rw [hs.2]; omega⟩
  · next eventChan w1 heq =>
    rw [heq] at hs
    simp only at hs
    have hc := Messages_Create_same env w1 sessionID { Role := .Assistant, Content := "" }
    split
    · next err w2 heq2 =>
      rw [heq2] at hc
      exact ⟨hc.1.trans hs.1, by rw [hc.2, hs.2]; omega⟩
    · next assistantMsg w2 heq2 =>
      rw [heq2] at hc
      have hcons := consumeEvents_same env sessionID eventChan w2 assistantMsg
      have h2 : SameCalls w1 (consumeEvents env sessionID w2 assistantMsg eventChan).2.2 :=
        SameCalls.trans hc hcons
      split
      · next err a3 w3 heq3 =>
        rw [heq3] at h2
        exact ⟨h2.1.trans hs.1, by rw [h2.2, hs.2]; omega⟩
      · next a3 w3 heq3 =>
        rw [heq3] at h2
        exact ⟨h2.1.trans hs.1, by rw [h2.2, hs.2]; omega⟩
      · next u a3 w3 heq3 =>
        rw [heq3] at h2
        simp only at h2
        have hh := handleToolExecution_calls env w3 a3
        split
        · next msg err w4 heq4 =>
          rw [heq4] at hh
          simp only at hh
          have hu := Messages_Update_same env w4 { a3 with Finished := true }
          have hp : (Messages.Update env w4 { a3 with Finished := true }).2.providerCalls
              = w.providerCalls + 1 := by rw [hu.1, hh.1, h2.1, hs.1]
          have hd : (Messages.Update env w4 { a3 with Finished := true }).2.dispatches
              ≤ w.dispatches + 1 := by
            rw [hu.2, hh.2, h2.2, hs.2]
            split <;> omega
          simp only []
          split
          · exact ⟨hp, hd⟩
          · split
            · exact ⟨hp, hd⟩
            · split <;> exact ⟨hp, hd⟩

theorem loopBody_of_consumed (env : Env) (w : World) (sessionID : String)
    (messages : List Message) (events : List ProviderEvent) (w1 : World) (a0 : Message)
    (w2 : World) (a1 : Message) (w3 : World)
    (hs : StreamResponse env w messages = (.ok events, w1))
    (hc : Messages.Create env w1 sessionID { Role := .Assistant, Content := "" } = (.ok a0, w2))
    (hcons : consumeEvents env sessionID w2 a0 events = (.ok (), a1, w3)) :
    loopBody env w sessionID messages =
      match handleToolExecution env w3 a1 with
      | ((msg, err), w4) =>
        match err with
        | some err =>
          (.exit (.err err), some { a1 with Finished := true },
            (Messages.Update env w4 { a1 with Finished := true }).2)
        | none =>
          if a1.ToolCalls.length = 0 then
            (.exit (.ok ()), some { a1 with Finished := true },
              (Messages.Update env w4 { a1 with Finished := true }).2)
          else
            match msg with
            | some msg =>
              (.next (messages ++ [{ a1 with Finished := true }] ++ [msg]),
                some { a1 with Finished := true },
                (Messages.Update env w4 { a1 with Finished := true }).2)
            | none =>
              (.next (messages ++ [{ a1 with Finished := true }]),
                some { a1 with Finished := true },
                (Messages.Update env w4 { a1 with Finished := true }).2) := by
  unfold loopBody
  rw [hs]
  simp only []
  rw [hc]
  simp only []
  rw [hcons]

/-- A pass that does not end in a failure has received a stream, created its Assistant message
and consumed every event of the stream. -/
theorem loopBody_consumed_of_ok (env : Env) (w : World) (sessionID : String)
    (messages : List Message) (step : Step) (a : Option Message) (w5 : World)
    (h : loopBody env w sessionID messages = (step, a, w5))
    (hok : ∀ r, step = .exit r → r = .ok ()) :
    ∃ events w1 a0 w2 a1 w3,
      StreamResponse env w messages = (.ok events, w1) ∧
      Messages.Create env w1 sessionID { Role := .Assistant, Content := "" } = (.ok a0, w2) ∧
      consumeEvents env sessionID w2 a0 events = (.ok (), a1, w3) := by
  unfold loopBody at h
  split at h
  · next err w1 heq =>
    simp only [Prod.mk.injEq] at h
    have := hok _ h.1.symm
    simp at this
  · next events w1 heq =>
    split at h
    · next err w2 heq2 =>
      simp only [Prod.mk.injEq] at h
      have := hok _ h.1.symm
      simp at this
    · next a0 w2 heq2 =>
      split at h
      · next err a1 w3 heq3 =>
        simp only [Prod.mk.injEq] at h
        have := hok _ h.1.symm
        simp at this
      · next a1 w3 heq3 =>
        simp only [Prod.mk.injEq] at h
        have := hok _ h.1.symm
        simp at this
      · next u a1 w3 heq3 =>
        exact ⟨events, w1, a0, w2, a1, w3, heq, heq2, heq3⟩

theorem generateLoop_succ (env : Env) (sessionID : String) (fuel : Nat) (w : World)
    (messages : List Message) :
    generateLoop env sessionID (fuel + 1) w messages =
      match (loopBody env w sessionID messages).1 with
      | .exit r => some (r, (loopBody env w sessionID messages).2.2)
      | .next messages1 =>
        generateLoop env sessionID fuel (loopBody env w sessionID messages).2.2 messages1 := by
  rw [generateLoop]
  split <;> next heq => rw [heq]

/-! ### Passes in which no step fails -/

theorem Messages_Update_faultFree (env : Env) (hf : env.faultFree) (w : World) (msg : Message) :
    (Messages.Update env w msg).1 = none ∧ (Messages.Update env w msg).2.sessions = w.sessions := by
  unfold Messages.Update
  simp only [hf _]
  exact ⟨trivial, rfl⟩

theorem Messages_Create_faultFree (env : Env) (hf : env.faultFree) (w : World)
    (sessionID : String) (params : CreateMessageParams) :
    (∃ msg, (Messages.Create env w sessionID params).1 = .ok msg) ∧
    (Messages.Create env w sessionID params).2.sessions = w.sessions := by
  unfold Messages.Create
  simp only [hf _]
  exact ⟨⟨_, rfl⟩, rfl⟩

theorem service_Get_faultFree (env : Env) (hf : env.faultFree) (w : World) (id : String)
    (s : Session) (hs : w.session id = some s) :
    service.Get env w id = (.ok s, (w.record (.SessionsGet id)).step) := by
  unfold World.session at hs
  unfold service.Get db.GetSessionByID
  simp only [hf _]
  have : (w.record (.SessionsGet id)).sessions = w.sessions := rfl
  rw [this, hs]

theorem service_Save_faultFree (env : Env) (hf : env.faultFree) (w : World) (session : Session)
    (s : Session) (hs : w.session session.ID = some s) :
    ∃ row w1, service.Save env w session = (.ok row, w1) := by
  unfold World.session at hs
  unfold service.Save db.UpdateSession
  simp only [hf _]
  have : (w.record (.SessionsSave session)).sessions = w.sessions := rfl
  rw [this, hs]
  exact ⟨_, _, rfl⟩

theorem TrackUsage_faultFree (env : Env) (hf : env.faultFree) (w : World) (sessionID : String)
    (model : Model) (usage : TokenUsage) (hs : (w.session sessionID).isSome) :
    (TrackUsage env w sessionID model usage).1 = none ∧
    ((TrackUsage env w sessionID model usage).2.session sessionID).isSome := by
  obtain ⟨s, hs⟩ := Option.isSome_iff_exists.1 hs
  have hid : s.ID = sessionID := by
    have := List.find?_some hs
    simpa using this
  have h1 : (TrackUsage env w sessionID model usage).1 = none := by
    unfold TrackUsage
    rw [service_Get_faultFree env hf w sessionID s hs]
    simp only []
    obtain ⟨row, w1, hsave⟩ := service_Save_faultFree env hf (w.record (.SessionsGet sessionID)).step
      (s.track model usage) s (by rw [show (s.track model usage).ID = sessionID from hid]; exact hs)
    simp only [Session.track] at hsave
    rw [hsave]
  refine ⟨h1, ?_⟩
  obtain ⟨t, -, ht⟩ := TrackUsage_ok env w sessionID model usage _ (Prod.ext h1 rfl)
  rw [ht]; rfl

theorem session_congr {w w1 : World} (h : w1.sessions = w.sessions) (id : String) :
    w1.session id = w.session id := by
  unfold World.session; rw [h]

theorem processEvent_faultFree (env : Env) (hf : env.faultFree) (w : World)
    (sessionID : String) (m : Message) (ev : ProviderEvent) (hb : ev.benign)
    (hs : (w.session sessionID).isSome) :
    (processEvent env w sessionID m ev).1 = .ok () ∧
    ((processEvent env w sessionID m ev).2.2.session sessionID).isSome := by
  by_cases h1 : ev.Type_ = EventThinkingDelta
  · rw [processEvent_thinking _ _ _ _ _ h1]
    have hu := Messages_Update_faultFree env hf w { m with Thinking := m.Thinking ++ ev.Thinking }
    exact ⟨by simp only [hu.1]; rfl, by rw [session_congr hu.2]; exact hs⟩
  · by_cases h2 : ev.Type_ = EventContentDelta
    · rw [processEvent_content _ _ _ _ _ h2]
      have hu := Messages_Update_faultFree env hf w { m with Content := m.Content ++ ev.Content }
      exact ⟨by simp only [hu.1]; rfl, by rw [session_congr hu.2]; exact hs⟩
    · by_cases h3 : ev.Type_ = EventError
      · rw [processEvent_error _ _ _ _ _ h3, hb.1 h3]
        exact ⟨rfl, hs⟩
      · by_cases h4 : ev.Type_ = EventComplete
        · rw [processEvent_complete _ _ _ _ _ h4]
          obtain ⟨response, hr⟩ := Option.ne_none_iff_exists'.1 (hb.2 h4)
          rw [hr]
          have hu := Messages_Update_faultFree env hf w { m with ToolCalls := response.ToolCalls }
          have hpair : Messages.Update env w { m with ToolCalls := response.ToolCalls }
              = (none, (Messages.Update env w { m with ToolCalls := response.ToolCalls }).2) :=
            Prod.ext hu.1 rfl
          simp only []
          rw [hpair]
          simp only []
          have ht := TrackUsage_faultFree env hf
            (Messages.Update env w { m with ToolCalls := response.ToolCalls }).2 sessionID
            env.model response.Usage (by rw [session_congr hu.2]; exact hs)
          exact ⟨by rw [ht.1]; rfl, ht.2⟩
        · rw [processEvent_other _ _ _ _ _ h1 h2 h3 h4]
          exact ⟨rfl, hs⟩

theorem consumeEvents_faultFree (env : Env) (hf : env.faultFree) (sessionID : String)
    (events : List ProviderEvent) (w : World) (m : Message)
    (hb : ∀ ev ∈ events, ev.benign) (hs : (w.session sessionID).isSome) :
    (consumeEvents env sessionID w m events).1 = .ok () := by
  induction events generalizing w m with
  | nil => rfl
  | cons ev rest ih =>
    have hp := processEvent_faultFree env hf w sessionID m ev (hb ev (List.mem_cons_self _ _)) hs
    have hpair : processEvent env w sessionID m ev
        = (.ok (), (processEvent env w sessionID m ev).2.1,
            (processEvent env w sessionID m ev).2.2) :=
      Prod.ext hp.1 rfl
    rw [consumeEvents_cons_ok _ _ _ _ _ _ _ _ hpair]
    exact ih _ _ (fun e he => hb e (List.mem_cons_of_mem _ he)) hp.2

theorem handleToolExecution_faultFree (env : Env) (hf : env.faultFree) (w : World)
    (m : Message) : (handleToolExecution env w m).1.2 = none := by
  by_cases h : m.ToolCalls = []
  · rw [handleToolExecution_nil _ _ _ h]
  · rw [handleToolExecution_cons _ _ _ h]
    obtain ⟨⟨msg, hmsg⟩, -⟩ := Messages_Create_faultFree env hf
      (w.record (.ExecuteTools m.ToolCalls)) m.SessionID
      { Role := .Tool, ToolResults := (ExecuteTools m.ToolCalls env.tools).1 }
    split
    · next err w1 heq => rw [heq] at hmsg; simp at hmsg
    · rfl

theorem loopBody_faultFree (env : Env) (hf : env.faultFree) (w : World) (sessionID : String)
    (messages : List Message) (events : List ProviderEvent)
    (hstream : env.stream w.calls messages = .ok events)
    (hb : ∀ ev ∈ events, ev.benign) (hs : (w.session sessionID).isSome) :
    ∀ r, (loopBody env w sessionID messages).1 = .exit r → r = .ok () := by
  have hsr : StreamResponse env w messages = (.ok events, (StreamResponse env w messages).2) := by
    unfold StreamResponse; rw [hstream]
  obtain ⟨⟨a0, ha0⟩, hsess⟩ := Messages_Create_faultFree env hf (StreamResponse env w messages).2
    sessionID { Role := .Assistant, Content := "" }
  have hc : Messages.Create env (StreamResponse env w messages).2 sessionID
      { Role := .Assistant, Content := "" }
      = (.ok a0, (Messages.Create env (StreamResponse env w messages).2 sessionID
          { Role := .Assistant, Content := "" }).2) := Prod.ext ha0 rfl
  have hs2 : ((Messages.Create env (StreamResponse env w messages).2 sessionID
      { Role := .Assistant, Content := "" }).2.session sessionID).isSome := by
    rw [session_congr hsess]; exact hs
  generalize (Messages.Create env (StreamResponse env w messages).2 sessionID
      { Role := .Assistant, Content := "" }).2 = w2 at hc hs2
  have hce := consumeEvents_faultFree env hf sessionID events w2 a0 hb hs2
  rcases hcons : consumeEvents env sessionID w2 a0 events with ⟨r0, a1, w3⟩
  rw [hcons] at hce
  simp only at hce
  subst hce
  rw [loopBody_of_consumed _ _ _ _ _ _ _ _ _ _ hsr hc hcons]
  have hh := handleToolExecution_faultFree env hf w3 a1
  intro r hr
  split at hr
  · next msg err w4 heq =>
    rw [heq] at hh
    simp only at hh
    subst hh
    simp only [] at hr
    split at hr
    · simp only [Step.exit.injEq] at hr; exact hr.symm
    · split at hr <;> simp at hr

/-- The pass of the loop that does not end in a failure. -/
theorem loopBody_of_ok (env : Env) (w : World) (sessionID : String)
    (messages : List Message) (step : Step) (a : Option Message) (w5 : World)
    (h : loopBody env w sessionID messages = (step, a, w5))
    (hok : ∀ r, step = .exit r → r = .ok ()) :
    ∃ asst, a = some asst ∧
      (step = .exit (.ok ()) ↔ asst.ToolCalls = []) ∧
      (asst.ToolCalls = [] →
        ∀ fuel, generateLoop env sessionID (fuel + 1) w messages = some (.ok (), w5)) ∧
      w5.providerCalls = w.providerCalls + 1 ∧
      w5.dispatches = w.dispatches + (if asst.ToolCalls = [] then 0 else 1) ∧
      (asst.ToolCalls ≠ [] → ∃ toolMsg,
        step = .next (messages ++ [asst] ++ [toolMsg]) ∧ toolMsg.Role = .Tool ∧
        toolMsg.ToolResults = (ExecuteTools asst.ToolCalls env.tools).1 ∧
        (∀ fuel, generateLoop env sessionID (fuel + 1) w messages
          = generateLoop env sessionID fuel w5 (messages ++ [asst] ++ [toolMsg])) ∧
        (loopBody env w5 sessionID (messages ++ [asst] ++ [toolMsg])).2.2.providerCalls
          = w5.providerCalls + 1) := by
  obtain ⟨events, w1, a0, w2, a1, w3, hs, hc, hcons⟩ :=
    loopBody_consumed_of_ok _ _ _ _ _ _ _ h hok
  have hexit : ∀ fuel r, step = .exit r →
      generateLoop env sessionID (fuel + 1) w messages = some (r, w5) := by
    intro fuel r hr
    rw [generateLoop_succ, h]
    simp only [hr]
  have hnext : ∀ fuel ms, step = .next ms →
      generateLoop env sessionID (fuel + 1) w messages
        = generateLoop env sessionID fuel w5 ms := by
    intro fuel ms hr
    rw [generateLoop_succ, h]
    simp only [hr]
  have hcalls := loopBody_calls env w sessionID messages
  rw [h] at hcalls
  simp only at hcalls
  have hsc := StreamResponse_calls env w messages
  rw [hs] at hsc
  simp only at hsc
  have hcc := Messages_Create_same env w1 sessionID { Role := .Assistant, Content := "" }
  rw [hc] at hcc
  simp only at hcc
  have hce := consumeEvents_same env sessionID events w2 a0
  rw [hcons] at hce
  simp only at hce
  have hte := handleToolExecution_calls env w3 a1
  rw [loopBody_of_consumed _ _ _ _ _ _ _ _ _ _ hs hc hcons] at h
  by_cases hnil : a1.ToolCalls = []
  · have hlen : a1.ToolCalls.length = 0 := by rw [hnil]; rfl
    rw [handleToolExecution_nil _ _ _ hnil] at h hte
    simp only [hlen, if_true, Prod.mk.injEq] at h
    obtain ⟨h1, h2, h3⟩ := h
    have hu := Messages_Update_same env w3 { a1 with Finished := true }
    rw [h3] at hu
    refine ⟨{ a1 with Finished := true }, h2.symm, ?_, ?_, hcalls.1, ?_, ?_⟩
    · simp [← h1, hnil]
    · intro _ fuel
      exact hexit fuel _ h1.symm
    · simp only [hnil, if_true]
      rw [hu.2, hce.2, hcc.2, hsc.2]; rfl
    · intro hne; exact absurd hnil hne
  · have hlen : ¬ a1.ToolCalls.length = 0 := fun h0 => hnil (List.length_eq_zero.1 h0)
    rw [handleToolExecution_cons _ _ _ hnil] at h hte
    split at h
    · next x msg err w4 heq =>
      split at heq
      · next err1 w6 hcreate =>
        simp only [Prod.mk.injEq] at heq
        obtain ⟨⟨-, he⟩, -⟩ := heq
        subst he
        simp only [Prod.mk.injEq] at h
        have := hok _ h.1.symm
        simp at this
      · next tmsg w6 hcreate =>
        simp only [Prod.mk.injEq] at heq
        obtain ⟨⟨hm, he⟩, hw⟩ := heq
        subst hm; subst he; subst hw
        rw [hcreate] at hte
        simp only [hnil, if_false] at hte
        simp only [hlen, if_false, Prod.mk.injEq] at h
        obtain ⟨h1, h2, h3⟩ := h
        have hu := Messages_Update_same env w6 { a1 with Finished := true }
        rw [h3] at hu
        obtain ⟨-, hrole, -, -, -, hres, -⟩ := Messages_Create_ok _ _ _ _ _ _ hcreate
        refine ⟨{ a1 with Finished := true }, h2.symm, ?_, ?_, hcalls.1, ?_, ?_⟩
        · simp [← h1, hnil]
        · intro h0; exact absurd h0 hnil
        · simp only [hnil, if_false]
          rw [hu.2, hte.2, hce.2, hcc.2, hsc.2]
        · intro _
          exact ⟨tmsg, h1.symm, hrole, hres, fun fuel => hnext fuel _ h1.symm,
            (loopBody_calls env w5 sessionID _).1⟩


/-! ### The turn loop: claim C4 -/

/-- C4: a pass of the loop in which no step fails (the store never fails, the provider hands
out a stream, and no event of the stream is an Error carrying an error or a Complete without
response, and the session exists for usage tracking) does not end in a failure; and in every
pass that does not end in a failure, `generate` returns successfully right after the provider
call of the pass if and only if the Assistant message completed by that call carries no tool
call; the pass makes exactly one provider call; when the message carries at least one tool call
the pass makes exactly one tool dispatch, the loop goes round again with the history extended
by the Assistant message and the Tool message, and the following pass makes exactly one further
provider call. -/
theorem loopBody_done_iff (env : Env) (w : World) (sessionID : String)
    (messages : List Message) :
    (env.faultFree → (w.session sessionID).isSome →
      (∃ events, env.stream w.calls messages = .ok events ∧ ∀ ev ∈ events, ev.benign) →
      ∀ r, (loopBody env w sessionID messages).1 = .exit r → r = .ok ()) ∧
    ((∀ r, (loopBody env w sessionID messages).1 = .exit r → r = .ok ()) →
      ∃ asst, (loopBody env w sessionID messages).2.1 = some asst ∧
        ((loopBody env w sessionID messages).1 = .exit (.ok ()) ↔ asst.ToolCalls = []) ∧
        (asst.ToolCalls = [] →
          ∀ fuel, generateLoop env sessionID (fuel + 1) w messages
            = some (.ok (), (loopBody env w sessionID messages).2.2)) ∧
        (loopBody env w sessionID messages).2.2.providerCalls = w.providerCalls + 1 ∧
        (loopBody env w sessionID messages).2.2.dispatches
          = w.dispatches + (if asst.ToolCalls = [] then 0 else 1) ∧
        (asst.ToolCalls ≠ [] → ∃ toolMsg,
          (loopBody env w sessionID messages).1 = .next (messages ++ [asst] ++ [toolMsg]) ∧
          toolMsg.Role = .Tool ∧
          toolMsg.ToolResults = (ExecuteTools asst.ToolCalls env.tools).1 ∧
          (∀ fuel, generateLoop env sessionID (fuel + 1) w messages
            = generateLoop env sessionID fuel (loopBody env w sessionID messages).2.2
                (messages ++ [asst] ++ [toolMsg])) ∧
          (loopBody env (loopBody env w sessionID messages).2.2 sessionID
              (messages ++ [asst] ++ [toolMsg])).2.2.providerCalls
            = (loopBody env w sessionID messages).2.2.providerCalls + 1)) := by
  refine ⟨?_, ?_⟩
  · rintro hf hs ⟨events, hstream, hb⟩
    exact loopBody_faultFree env hf w sessionID messages events hstream hb hs
  · intro hok
    exact loopBody_of_ok env w sessionID messages _ _ _ rfl hok

/-- Witness of C4: the first pass of the scenario fails in no step and completes an Assistant
message with one tool call, so the pass does not return, and it makes one provider call and one
dispatch. -/
theorem loopBody_done_iff_witness :
    ∃ asst, (loopBody scenarioEnv scenarioWorld "s1" []).2.1 = some asst ∧
      ((loopBody scenarioEnv scenarioWorld "s1" []).1 = .exit (.ok ()) ↔ asst.ToolCalls = []) ∧
      asst.ToolCalls = [scenarioCall] ∧
      (loopBody scenarioEnv scenarioWorld "s1" []).2.2.providerCalls
        = scenarioWorld.providerCalls + 1 ∧
      (loopBody scenarioEnv scenarioWorld "s1" []).2.2.dispatches
        = scenarioWorld.dispatches + 1 :=
  match (loopBody_done_iff scenarioEnv scenarioWorld "s1" []).2
      ((loopBody_done_iff scenarioEnv scenarioWorld "s1" []).1 (fun _ => rfl) (by decide)
        ⟨_, rfl, by decide⟩) with
  | ⟨asst, h1, h2, _, h4, h5, _⟩ =>
    have hc : asst.ToolCalls = [scenarioCall] := by
      have : some asst = some _ := h1.symm.trans rfl
      injection this with h
      rw [h]
    ⟨asst, h1, h2, hc, h4, by rw [h5, hc]; rfl⟩

/-! ### Failures: claims C9 and C10 -/

/-- C9: when the stream of a pass delivers an Error event carrying the error `e` after events
that the loop consumed (any number of deltas among them), the Assistant message holds exactly
the content and thinking text of the events before the error, the pass marks it finished and
calls `Messages.Update` with it as its last action (which stores it when the store does not
fail), it makes no tool dispatch and no provider call besides the one of the pass, and
`generate` returns `e`. -/
theorem generateLoop_error_event (env : Env) (w : World) (sessionID : String)
    (messages : List Message) (pre post : List ProviderEvent) (errEv : ProviderEvent)
    (e : Err) (w1 : World) (a0 : Message) (w2 : World) (a1 : Message) (w3 : World)
    (fuel : Nat)
    (hs : StreamResponse env w messages = (.ok (pre ++ errEv :: post), w1))
    (hc : Messages.Create env w1 sessionID { Role := .Assistant, Content := "" } = (.ok a0, w2))
    (hpre : consumeEvents env sessionID w2 a0 pre = (.ok (), a1, w3))
    (hty : errEv.Type_ = EventError) (herr : errEv.Error = some e) :
    a1.Content = contentOf pre ∧ a1.Thinking = thinkingOf pre ∧
    loopBody env w sessionID messages
      = (.exit (.err e), some { a1 with Finished := true },
          (Messages.Update env w3 { a1 with Finished := true }).2) ∧
    generateLoop env sessionID (fuel + 1) w messages
      = some (.err e, (Messages.Update env w3 { a1 with Finished := true }).2) ∧
    (Messages.Update env w3 { a1 with Finished := true }).2.log
      = w3.log ++ [.MessagesUpdate { a1 with Finished := true }] ∧
    ((Messages.Update env w3 { a1 with Finished := true }).1 = none →
      (Messages.Update env w3 { a1 with Finished := true }).2.messages
        = w3.messages.map fun x => if x.ID = a1.ID then { a1 with Finished := true } else x) ∧
    (Messages.Update env w3 { a1 with Finished := true }).2.dispatches = w.dispatches ∧
    (Messages.Update env w3 { a1 with Finished := true }).2.providerCalls
      = w.providerCalls + 1 := by
  obtain ⟨-, -, hc0, ht0, -⟩ := Messages_Create_ok _ _ _ _ _ _ hc
  simp only at hc0
  have hf := consumeEvents_fields _ _ _ _ _ _ _ hpre
  have hp : processEvent env w3 sessionID a1 errEv = (.err e, a1, w3) := by
    rw [processEvent_error _ _ _ _ _ hty, herr]; rfl
  have hall : consumeEvents env sessionID w2 a0 (pre ++ errEv :: post)
      = (.err e, { a1 with Finished := true },
          (Messages.Update env w3 { a1 with Finished := true }).2) := by
    rw [consumeEvents_append_of_ok _ _ _ _ _ _ _ _ hpre,
      consumeEvents_cons_err _ _ _ _ _ _ _ _ _ hp]
  have hbody : loopBody env w sessionID messages
      = (.exit (.err e), some { a1 with Finished := true },
          (Messages.Update env w3 { a1 with Finished := true }).2) := by
    unfold loopBody
    rw [hs]
    simp only []
    rw [hc]
    simp only []
    rw [hall]
  have hsc := StreamResponse_calls env w messages
  rw [hs] at hsc
  simp only at hsc
  have hcc := Messages_Create_same env w1 sessionID { Role := .Assistant, Content := "" }
  rw [hc] at hcc
  simp only at hcc
  have hce := consumeEvents_same env sessionID pre w2 a0
  rw [hpre] at hce
  simp only at hce
  have hu := Messages_Update_same env w3 { a1 with Finished := true }
  refine ⟨by rw [hf.1, hc0]; simp, by rw [hf.2.1, ht0]; simp, hbody, ?_,
    Messages_Update_log env w3 _, fun h => Messages_Update_ok env w3 _ h, ?_, ?_⟩
  · rw [generateLoop_succ, hbody]
  · rw [hu.2, hce.2, hcc.2, hsc.2]
  · rw [hu.1, hce.1, hcc.1, hsc.1]

/-- Witness of C9: the broken stream makes `generate` return `"connection reset"` with the
Assistant message holding the text of the two deltas before the error. -/
theorem generateLoop_error_event_witness :
    brokenPass.2.1.Content = "Sure, " ∧ brokenPass.2.1.Thinking = "hm" ∧
    generateLoop brokenEnv "s1" (0 + 1) scenarioWorld []
      = some (.err "connection reset",
          (Messages.Update brokenEnv brokenPass.2.2
            { brokenPass.2.1 with Finished := true }).2) :=
  match generateLoop_error_event brokenEnv scenarioWorld "s1" []
      [ { Type_ := EventContentDelta, Content := "Sure, " },
        { Type_ := EventThinkingDelta, Thinking := "hm" } ]
      [ { Type_ := EventContentDelta, Content := "never seen" } ]
      { Type_ := EventError, Error := some "connection reset" } "connection reset"
      (StreamResponse brokenEnv scenarioWorld []).2 sampleAssistant
      (Messages.Create brokenEnv (StreamResponse brokenEnv scenarioWorld []).2 "s1"
        { Role := .Assistant, Content := "" }).2
      brokenPass.2.1 brokenPass.2.2 0 rfl rfl rfl rfl rfl with
  | ⟨h1, h2, _, h4, _⟩ => ⟨h1.trans (by decide), h2.trans (by decide), h4⟩

/-- C10, the code at the failing input: in the scenario over a store whose tenth operation fails
(the `Messages.Update` that marks the first Assistant message finished), `generate` makes a
second provider call and returns a nil error, and the first Assistant message is left
unfinished in the store. -/
theorem generate_ignores_finish_failure :
    lockedEnv.faults 9 = some "database is locked" ∧
    ∃ w1, generate lockedEnv 2 scenarioWorld "s1" "list files" = some (.ok (), w1) ∧
      w1.providerCalls = 2 ∧ w1.tick = 15 ∧
      w1.messages.map Message.Finished = [false, false, false, true] :=
  ⟨rfl, _, rfl, by decide, by decide, by decide⟩

/-! ### The end-to-end scenario: claim C5 -/

theorem generateLoop_mono (env : Env) (sessionID : String) (fuel k : Nat) (w : World)
    (messages : List Message) (r : Result Unit × World)
    (h : generateLoop env sessionID fuel w messages = some r) :
    generateLoop env sessionID (fuel + k) w messages = some r := by
  induction fuel generalizing w messages with
  | zero => simp [generateLoop] at h
  | succ n ih =>
    rw [generateLoop_succ] at h
    rw [Nat.add_right_comm, generateLoop_succ]
    split at h
    · exact h
    · exact ih _ _ h

theorem generate_mono (env : Env) (fuel k : Nat) (w : World) (sessionID content : String)
    (r : Result Unit × World) (h : generate env fuel w sessionID content = some r) :
    generate env (fuel + k) w sessionID content = some r := by
  unfold generate at h ⊢
  split
  · next err w1 heq => rw [heq] at h; exact h
  · next messages w1 heq =>
    rw [heq] at h
    simp only [] at h ⊢
    split
    · next err w3 heq3 => rw [heq3] at h; exact h
    · next userMsg w3 heq3 =>
      rw [heq3] at h
      exact generateLoop_mono _ _ _ _ _ _ _ h

/-- Counterexample to C5 as stated: in the scenario the loop terminates successfully with the
four messages User, Assistant, Tool, Assistant, but the content persisted for the last
Assistant message is the empty string and not `"Done."`. -/
theorem generate_scenario_counterexample :
    ∃ w1, generate scenarioEnv 2 scenarioWorld "s1" "list files" = some (.ok (), w1) ∧
      w1.messages.map Message.Role = [.User, .Assistant, .Tool, .Assistant] ∧
      w1.messages.getLast?.map Message.Content = some "" ∧
      w1.messages.getLast?.map Message.Content ≠ some "Done." :=
  ⟨_, rfl, by decide, by decide, by decide⟩

/-- C5 as amended: in the scenario, whenever at least two passes are allowed, the loop
terminates successfully after two provider calls and one dispatch; the store then holds exactly
the four messages User, Assistant, Tool, Assistant, the Tool message carrying one result bound
to `"tc1"`, the first Assistant message the text of the two deltas, and the last Assistant
message the empty content: the content of the Complete event is not copied. -/
theorem generate_scenario (fuel : Nat) (h : 2 ≤ fuel) :
    ∃ w1, generate scenarioEnv fuel scenarioWorld "s1" "list files" = some (.ok (), w1) ∧
      w1.messages = scenarioMessages ∧
      w1.messages.map Message.Role = [.User, .Assistant, .Tool, .Assistant] ∧
      w1.messages.getLast?.map Message.Content = some "" ∧
      w1.providerCalls = 2 ∧ w1.dispatches = 1 := by
  obtain ⟨k, rfl⟩ := Nat.exists_eq_add_of_le h
  exact ⟨_, generate_mono scenarioEnv 2 k scenarioWorld "s1" "list files" _ rfl,
    by decide, by decide, by decide, by decide, by decide⟩

/-- Witness of C5 as amended: the scenario with five passes allowed. -/
theorem generate_scenario_witness :
    2 ≤ 5 ∧
    ∃ w1, generate scenarioEnv 5 scenarioWorld "s1" "list files" = some (.ok (), w1) ∧
      w1.messages = scenarioMessages :=
  ⟨by decide,
    match generate_scenario 5 (by decide) with
    | ⟨w1, h1, h2, _⟩ => ⟨w1, h1, h2⟩⟩

/-! ### Events of the session service: claim C16 -/

theorem published_record (w : World) (a : Action) :
    (w.record a).published = w.published ++
      (match a with
       | .Publish kind session => [(kind, session)]
       | _ => []) := by
  unfold World.published World.record
  simp only [List.filterMap_append]
  cases a <;> rfl

theorem published_congr {w w1 : World} (h : w1.log = w.log) : w1.published = w.published := by
  unfold World.published; rw [h]

theorem db_CreateSession_log (env : Env) (w : World) (arg : CreateSessionParams) :
    (db.CreateSession env w arg).2.log = w.log := by
  unfold db.CreateSession
  split
  · rfl
  · split <;> rfl

theorem db_DeleteSession_log (env : Env) (w : World) (id : String) :
    (db.DeleteSession env w id).2.log = w.log := by
  unfold db.DeleteSession
  split <;> rfl

theorem service_Get_published (env : Env) (w : World) (id : String) :
    (service.Get env w id).2.published = w.published := by
  rw [service_Get_world]
  have h : ((w.record (.SessionsGet id)).step).published = (w.record (.SessionsGet id)).published :=
    published_congr rfl
  rw [h, published_record]
  simp

/-- C16: every mutating operation of the session service publishes exactly one event when its
store calls succeed and none when a store call fails, in which case it returns the error of
that call: `Create` and `CreateTaskSession` publish a created-event carrying the created
session, `Save` an updated-event carrying the stored session, `Delete` a deleted-event carrying
the session as it was read before the deletion. -/
theorem service_publishes (env : Env) (w : World) :
    (∀ id title,
      (∀ e w1, db.CreateSession env w { ID := id, Title := title } = (.error e, w1) →
        service.Create env w id title = (.error e, w1) ∧ w1.published = w.published) ∧
      (∀ row w1, db.CreateSession env w { ID := id, Title := title } = (.ok row, w1) →
        ∃ w2, service.Create env w id title = (.ok row, w2) ∧
          w2.published = w.published ++ [(.CreatedEvent, row)])) ∧
    (∀ toolCallID parent title,
      (∀ e w1, db.CreateSession env w
          { ID := toolCallID, ParentSessionID := parent, Title := title } = (.error e, w1) →
        service.CreateTaskSession env w toolCallID parent title = (.error e, w1) ∧
          w1.published = w.published) ∧
      (∀ row w1, db.CreateSession env w
          { ID := toolCallID, ParentSessionID := parent, Title := title } = (.ok row, w1) →
        ∃ w2, service.CreateTaskSession env w toolCallID parent title = (.ok row, w2) ∧
          w2.published = w.published ++ [(.CreatedEvent, row)])) ∧
    (∀ session,
      (∀ e w1, db.UpdateSession env (w.record (.SessionsSave session))
          { ID := session.ID, Title := session.Title, PromptTokens := session.PromptTokens,
            CompletionTokens := session.CompletionTokens, Cost := session.Cost }
          = (.error e, w1) →
        service.Save env w session = (.error e, w1) ∧ w1.published = w.published) ∧
      (∀ row w1, db.UpdateSession env (w.record (.SessionsSave session))
          { ID := session.ID, Title := session.Title, PromptTokens := session.PromptTokens,
            CompletionTokens := session.CompletionTokens, Cost := session.Cost }
          = (.ok row, w1) →
        ∃ w2, service.Save env w session = (.ok row, w2) ∧
          w2.published = w.published ++ [(.UpdatedEvent, row)])) ∧
    (∀ id,
      (∀ e w1, service.Get env w id = (.error e, w1) →
        service.Delete env w id = (some e, w1) ∧ w1.published = w.published) ∧
      (∀ s w1 e w2, service.Get env w id = (.ok s, w1) →
        db.DeleteSession env w1 s.ID = (some e, w2) →
        service.Delete env w id = (some e, w2) ∧ w2.published = w.published) ∧
      (∀ s w1 w2, service.Get env w id = (.ok s, w1) →
        db.DeleteSession env w1 s.ID = (none, w2) →
        w.session id = some s ∧
        ∃ w3, service.Delete env w id = (none, w3) ∧
          w3.published = w.published ++ [(.DeletedEvent, s)])) := by
  refine ⟨?_, ?_, ?_, ?_⟩
  · intro id title
    refine ⟨?_, ?_⟩
    · intro e w1 h
      have hl := db_CreateSession_log env w { ID := id, Title := title }
      rw [h] at hl
      exact ⟨by simp [service.Create, h], published_congr hl⟩
    · intro row w1 h
      have hl := db_CreateSession_log env w { ID := id, Title := title }
      rw [h] at hl
      refine ⟨w1.record (.Publish .CreatedEvent row), by simp [service.Create, h], ?_⟩
      rw [published_record, published_congr hl]
  · intro toolCallID parent title
    refine ⟨?_, ?_⟩
    · intro e w1 h
      have hl := db_CreateSession_log env w
        { ID := toolCallID, ParentSessionID := parent, Title := title }
      rw [h] at hl
      exact ⟨by simp [service.CreateTaskSession, h], published_congr hl⟩
    · intro row w1 h
      have hl := db_CreateSession_log env w
        { ID := toolCallID, ParentSessionID := parent, Title := title }
      rw [h] at hl
      refine ⟨w1.record (.Publish .CreatedEvent row),
        by simp [service.CreateTaskSession, h], ?_⟩
      rw [published_record, published_congr hl]
  · intro session
    refine ⟨?_, ?_⟩
    · intro e w1 h
      have hl := db_UpdateSession_log env (w.record (.SessionsSave session))
        { ID := session.ID, Title := session.Title, PromptTokens := session.PromptTokens,
          CompletionTokens := session.CompletionTokens, Cost := session.Cost }
      rw [h] at hl
      refine ⟨by simp [service.Save, h], ?_⟩
      rw [published_congr hl, published_record]
      simp
    · intro row w1 h
      have hl := db_UpdateSession_log env (w.record (.SessionsSave session))
        { ID := session.ID, Title := session.Title, PromptTokens := session.PromptTokens,
          CompletionTokens := session.CompletionTokens, Cost := session.Cost }
      rw [h] at hl
      refine ⟨w1.record (.Publish .UpdatedEvent row), by simp [service.Save, h], ?_⟩
      rw [published_record, published_congr hl, published_record]
      simp
  · intro id
    have hg := service_Get_published env w id
    refine ⟨?_, ?_, ?_⟩
    · intro e w1 h
      rw [h] at hg
      exact ⟨by simp [service.Delete, h], hg⟩
    · intro s w1 e w2 h hd
      rw [h] at hg
      have hl := db_DeleteSession_log env w1 s.ID
      rw [hd] at hl
      exact ⟨by simp [service.Delete, h, hd], (published_congr hl).trans hg⟩
    · intro s w1 w2 h hd
      rw [h] at hg
      have hl := db_DeleteSession_log env w1 s.ID
      rw [hd] at hl
      refine ⟨(service_Get_ok _ _ _ _ _ h).1, w2.record (.Publish .DeletedEvent s),
        by simp [service.Delete, h, hd], ?_⟩
      rw [published_record, published_congr hl]
      simp only at hg
      rw [hg]

/-- Witness of C16: creating the session `"s2"` in the scenario store publishes one
created-event carrying it. -/
theorem service_publishes_witness :
    ∃ w2, service.Create scenarioEnv scenarioWorld "s2" "notes"
        = (.ok { ID := "s2", Title := "notes" }, w2) ∧
      w2.published = scenarioWorld.published ++ [(.CreatedEvent, { ID := "s2", Title := "notes" })] :=
  ((service_publishes scenarioEnv scenarioWorld).1 "s2" "notes").2 { ID := "s2", Title := "notes" }
    (db.CreateSession scenarioEnv scenarioWorld { ID := "s2", Title := "notes" }).2 rfl

/-! ### The shape of the log -/

theorem Extends.same (P : Action → Prop) (w : World) : Extends P w w :=
  ⟨[], by simp, by simp⟩

theorem Extends.andThen {P : Action → Prop} {w w1 w2 : World} (h1 : Extends P w w1)
    (h2 : Extends P w1 w2) : Extends P w w2 := by
  obtain ⟨e1, hl1, hp1⟩ := h1
  obtain ⟨e2, hl2, hp2⟩ := h2
  refine ⟨e1 ++ e2, by rw [hl2, hl1, List.append_assoc], ?_⟩
  intro a ha
  rcases List.mem_append.1 ha with h | h
  · exact hp1 a h
  · exact hp2 a h

theorem Extends.mono {P Q : Action → Prop} {w w1 : World} (h : Extends P w w1)
    (hpq : ∀ a, P a → Q a) : Extends Q w w1 := by
  obtain ⟨e, hl, hp⟩ := h
  exact ⟨e, hl, fun a ha => hpq a (hp a ha)⟩

theorem Extends.of_eq {P : Action → Prop} {w w1 w2 : World} (h : Extends P w w1)
    (heq : w1 = w2) : Extends P w w2 := heq ▸ h

theorem Messages_Update_ext (env : Env) (w : World) (msg : Message) :
    Extends (fun a => a = .MessagesUpdate msg) w (Messages.Update env w msg).2 :=
  ⟨[.MessagesUpdate msg], Messages_Update_log env w msg, by simp⟩

theorem service_Get_ext (env : Env) (w : World) (id : String) (mid : String) :
    Extends (Action.folds mid) w (service.Get env w id).2 := by
  refine ⟨[.SessionsGet id], by rw [service_Get_world]; rfl, ?_⟩
  simp [Action.folds]

theorem service_Save_ext (env : Env) (w : World) (session : Session) (mid : String) :
    Extends (Action.folds mid) w (service.Save env w session).2 := by
  have h := db_UpdateSession_log env (w.record (.SessionsSave session))
    { ID := session.ID, Title := session.Title, PromptTokens := session.PromptTokens,
      CompletionTokens := session.CompletionTokens, Cost := session.Cost }
  unfold service.Save
  split
  · next err w1 heq =>
    rw [heq] at h
    exact ⟨[.SessionsSave session], by simpa using h, by simp [Action.folds]⟩
  · next dbSession w1 heq =>
    rw [heq] at h
    refine ⟨[.SessionsSave session, .Publish .UpdatedEvent dbSession], ?_, by simp [Action.folds]⟩
    simp only [record_log] at h ⊢
    rw [h]; simp

theorem TrackUsage_ext (env : Env) (w : World) (sessionID : String) (model : Model)
    (usage : TokenUsage) (mid : String) :
    Extends (Action.folds mid) w (TrackUsage env w sessionID model usage).2 := by
  have hg := service_Get_ext env w sessionID mid
  unfold TrackUsage
  split
  · next err w1 heq => rw [heq] at hg; exact hg
  · next session w1 heq =>
    rw [heq] at hg
    simp only []
    split
    · next err w2 heq2 =>
      have hs := congrArg Prod.snd heq2
      simp only at hs
      rw [← hs]
      exact hg.andThen (service_Save_ext env w1 _ mid)
    · next r w2 heq2 =>
      have hs := congrArg Prod.snd heq2
      simp only at hs
      rw [← hs]
      exact hg.andThen (service_Save_ext env w1 _ mid)

theorem processEvent_ext (env : Env) (w : World) (sessionID : String) (m : Message)
    (e : ProviderEvent) (hfin : m.Finished = false) :
    Extends (Action.folds m.ID) w (processEvent env w sessionID m e).2.2 := by
  by_cases h1 : e.Type_ = EventThinkingDelta
  · rw [processEvent_thinking _ _ _ _ _ h1]
    exact (Messages_Update_ext env w _).mono (by rintro a rfl; exact ⟨rfl, hfin⟩)
  · by_cases h2 : e.Type_ = EventContentDelta
    · rw [processEvent_content _ _ _ _ _ h2]
      exact (Messages_Update_ext env w _).mono (by rintro a rfl; exact ⟨rfl, hfin⟩)
    · by_cases h3 : e.Type_ = EventError
      · rw [processEvent_error _ _ _ _ _ h3]
        exact Extends.same _ w
      · by_cases h4 : e.Type_ = EventComplete
        · rw [processEvent_complete _ _ _ _ _ h4]
          split
          · exact Extends.same _ w
          · next response hr =>
            have hu : Extends (Action.folds m.ID) w
                (Messages.Update env w { m with ToolCalls := response.ToolCalls }).2 :=
              (Messages_Update_ext env w _).mono (by rintro a rfl; exact ⟨rfl, hfin⟩)
            split
            · next err w1 heq => rw [heq] at hu; exact hu
            · next w1 heq =>
              rw [heq] at hu
              exact hu.andThen (TrackUsage_ext env w1 sessionID env.model response.Usage m.ID)
        · rw [processEvent_other _ _ _ _ _ h1 h2 h3 h4]
          exact Extends.same _ w

theorem consumeEvents_cons_panic (env : Env) (sessionID : String) (w : World) (m : Message)
    (e : ProviderEvent) (rest : List ProviderEvent) (m1 : Message) (w1 : World)
    (h : processEvent env w sessionID m e = (.panic, m1, w1)) :
    consumeEvents env sessionID w m (e :: rest) = (.panic, m1, w1) := by
  rw [consumeEvents, h]

/-- The log of the inner loop over the events: while events are folded only the Assistant
message is updated, unfinished, and usage is tracked; when an event fails the last call is the
update of the message marked finished. -/
theorem consumeEvents_ext (env : Env) (sessionID : String) (events : List ProviderEvent)
    (w : World) (m : Message) (hfin : m.Finished = false) :
    (consumeEvents env sessionID w m events).2.1.ID = m.ID ∧
    ((∀ e, (consumeEvents env sessionID w m events).1 ≠ .err e) →
      Extends (Action.folds m.ID) w (consumeEvents env sessionID w m events).2.2 ∧
      (consumeEvents env sessionID w m events).2.1.Finished = false) ∧
    (∀ e, (consumeEvents env sessionID w m events).1 = .err e →
      (consumeEvents env sessionID w m events).2.1.Finished = true ∧
      ∃ ext, (consumeEvents env sessionID w m events).2.2.log
          = w.log ++ ext ++ [.MessagesUpdate (consumeEvents env sessionID w m events).2.1] ∧
        ∀ a ∈ ext, Action.folds m.ID a) := by
  induction events generalizing w m with
  | nil =>
    refine ⟨rfl, fun _ => ⟨Extends.same _ w, hfin⟩, ?_⟩
    intro e he
    simp [consumeEvents] at he
  | cons ev rest ih =>
    have hf := processEvent_fields env w sessionID m ev
    have hx := processEvent_ext env w sessionID m ev hfin
    rcases hp : processEvent env w sessionID m ev with ⟨r, m1, w1⟩
    rw [hp] at hf hx
    simp only at hf hx
    obtain ⟨-, -, hid, -, -, hfin1⟩ := hf
    cases r with
    | ok u =>
      cases u
      rw [consumeEvents_cons_ok _ _ _ _ _ _ _ _ hp]
      obtain ⟨i1, i2, i3⟩ := ih w1 m1 (hfin1.trans hfin)
      rw [hid] at i1 i2 i3
      refine ⟨i1, ?_, ?_⟩
      · intro hne
        exact ⟨hx.andThen (i2 hne).1, (i2 hne).2⟩
      · intro e he
        obtain ⟨h1, ext, hl, hq⟩ := i3 e he
        obtain ⟨ext0, hl0, hq0⟩ := hx
        refine ⟨h1, ext0 ++ ext, ?_, ?_⟩
        · rw [hl, hl0]; simp
        · intro a ha
          rcases List.mem_append.1 ha with h | h
          · exact hq0 a h
          · exact hq a h
    | err err =>
      rw [consumeEvents_cons_err _ _ _ _ _ _ _ _ _ hp]
      refine ⟨hid, ?_, ?_⟩
      · intro hne
        exact absurd rfl (hne err)
      · intro e _
        obtain ⟨ext0, hl0, hq0⟩ := hx
        refine ⟨rfl, ext0, ?_, hq0⟩
        rw [Messages_Update_log, hl0]
    | panic =>
      rw [consumeEvents_cons_panic _ _ _ _ _ _ _ _ hp]
      refine ⟨hid, fun _ => ⟨hx, hfin1.trans hfin⟩, ?_⟩
      intro e he
      simp at he

theorem handleToolExecution_log (env : Env) (w : World) (m : Message) :
    (handleToolExecution env w m).2.log = w.log ++
      (if m.ToolCalls = [] then []
       else [.ExecuteTools m.ToolCalls,
             .MessagesCreate m.SessionID
               { Role := .Tool, ToolResults := (ExecuteTools m.ToolCalls env.tools).1 }]) := by
  by_cases h : m.ToolCalls = []
  · rw [handleToolExecution_nil _ _ _ h]
    simp [h]
  · rw [handleToolExecution_cons _ _ _ h, if_neg h]
    have hc := Messages_Create_log env (w.record (.ExecuteTools m.ToolCalls)) m.SessionID
      { Role := .Tool, ToolResults := (ExecuteTools m.ToolCalls env.tools).1 }
    split
    · next err w1 heq => rw [heq] at hc; simp only at hc; rw [hc]; simp
    · next msg w1 heq => rw [heq] at hc; simp only at hc; rw [hc]; simp

theorem loopBody_snd_of_consumed (env : Env) (w : World) (sessionID : String)
    (messages : List Message) (events : List ProviderEvent) (w1 : World) (a0 : Message)
    (w2 : World) (a1 : Message) (w3 : World)
    (hs : StreamResponse env w messages = (.ok events, w1))
    (hc : Messages.Create env w1 sessionID { Role := .Assistant, Content := "" } = (.ok a0, w2))
    (hcons : consumeEvents env sessionID w2 a0 events = (.ok (), a1, w3)) :
    (loopBody env w sessionID messages).2 =
      (some { a1 with Finished := true },
        (Messages.Update env (handleToolExecution env w3 a1).2 { a1 with Finished := true }).2) := by
  rw [loopBody_of_consumed _ _ _ _ _ _ _ _ _ _ hs hc hcons]
  rcases hh : handleToolExecution env w3 a1 with ⟨⟨msg, err⟩, w4⟩
  simp only []
  cases err with
  | some e => rfl
  | none =>
    simp only []
    split
    · rfl
    · cases msg <;> rfl

theorem StreamResponse_log (env : Env) (w : World) (messages : List Message) :
    (StreamResponse env w messages).2.log = w.log ++ [.StreamResponse messages] := rfl

/-- The log of a pass that has created its Assistant message and does not panic: after the
provider call and the creation come calls of the pass on that message, unfinished, and the last
call is the update of the message marked finished. -/
theorem loopBody_log (env : Env) (w : World) (sessionID : String) (messages : List Message)
    (step : Step) (asst : Message) (w5 : World)
    (h : loopBody env w sessionID messages = (step, some asst, w5))
    (hnp : step ≠ .exit .panic) :
    ∃ a0 w1 w2 ext,
      (Messages.Create env w1 sessionID { Role := .Assistant, Content := "" } = (.ok a0, w2)) ∧
      asst.ID = a0.ID ∧ asst.Finished = true ∧
      w5.log = w.log ++ [.StreamResponse messages,
          .MessagesCreate sessionID { Role := .Assistant, Content := "" }]
        ++ ext ++ [.MessagesUpdate asst] ∧
      ∀ a ∈ ext, Action.inPass a0.ID a := by
  have hsl := StreamResponse_log env w messages
  rcases hs : StreamResponse env w messages with ⟨sr, w1⟩
  rw [hs] at hsl
  simp only at hsl
  cases sr with
  | error e =>
    unfold loopBody at h
    rw [hs] at h
    simp at h
  | ok events =>
    have hcl := Messages_Create_log env w1 sessionID { Role := .Assistant, Content := "" }
    rcases hc : Messages.Create env w1 sessionID { Role := .Assistant, Content := "" }
      with ⟨cr, w2⟩
    rw [hc] at hcl
    simp only at hcl
    cases cr with
    | error e =>
      unfold loopBody at h
      rw [hs] at h
      simp only [] at h
      rw [hc] at h
      simp at h
    | ok a0 =>
      have hfin0 : a0.Finished = false := (Messages_Create_ok _ _ _ _ _ _ hc).2.2.2.2.2.2.1
      have hce := consumeEvents_ext env sessionID events w2 a0 hfin0
      rcases hcons : consumeEvents env sessionID w2 a0 events with ⟨r, a1, w3⟩
      rw [hcons] at hce
      simp only at hce
      obtain ⟨hid, hok, herr⟩ := hce
      have hw2 : w2.log = w.log ++ [.StreamResponse messages,
          .MessagesCreate sessionID { Role := .Assistant, Content := "" }] := by
        rw [hcl, hsl]; simp
      cases r with
      | err e =>
        unfold loopBody at h
        rw [hs] at h
        simp only [] at h
        rw [hc] at h
        simp only [] at h
        rw [hcons] at h
        simp only [Prod.mk.injEq, Option.some.injEq] at h
        obtain ⟨-, ha, hw⟩ := h
        subst ha; subst hw
        obtain ⟨hf, ext, hl, hq⟩ := herr e rfl
        refine ⟨a0, w1, w2, ext, hc, hid, hf, by rw [hl, hw2], ?_⟩
        intro a ha
        have := hq a ha
        cases a <;> simp_all [Action.folds, Action.inPass]
      | panic =>
        unfold loopBody at h
        rw [hs] at h
        simp only [] at h
        rw [hc] at h
        simp only [] at h
        rw [hcons] at h
        simp only [Prod.mk.injEq] at h
        exact absurd h.1.symm hnp
      | ok u =>
        cases u
        have hsnd := loopBody_snd_of_consumed _ _ _ _ _ _ _ _ _ _ hs hc hcons
        rw [h] at hsnd
        simp only [Prod.mk.injEq, Option.some.injEq] at hsnd
        obtain ⟨ha, hw⟩ := hsnd
        obtain ⟨⟨ext, hl, hq⟩, -⟩ := hok (by intro e; simp)
        refine ⟨a0, w1, w2, ext ++ (if a1.ToolCalls = [] then []
            else [.ExecuteTools a1.ToolCalls,
              .MessagesCreate a1.SessionID
                { Role := .Tool, ToolResults := (ExecuteTools a1.ToolCalls env.tools).1 }]),
          hc, by rw [ha]; exact hid, by rw [ha], ?_, ?_⟩
        · rw [hw, Messages_Update_log, handleToolExecution_log, hl, hw2, ha]
          simp
        · intro a hmem
          rcases List.mem_append.1 hmem with hm | hm
          · have := hq a hm
            cases a <;> simp_all [Action.folds, Action.inPass]
          · by_cases hnil : a1.ToolCalls = []
            · simp [hnil] at hm
            · simp only [hnil, if_false, List.mem_cons, List.mem_singleton,
                List.not_mem_nil, or_false] at hm
              rcases hm with rfl | rfl <;> simp [Action.inPass]

/-! ### The life of an Assistant message: claims C19 and C20 -/

theorem inPass_not_finished (id : String) (a : Action) (h : Action.inPass id a) :
    a.isFinishedUpdate = false := by
  cases a <;> simp_all [Action.inPass, Action.isFinishedUpdate]

theorem folds_inPass (id : String) (a : Action) (h : Action.folds id a) : Action.inPass id a := by
  cases a <;> simp_all [Action.folds, Action.inPass]

/-- C20: in every pass of the loop that has created its Assistant message, on every way out of
the pass other than a panic (stream ended, Error event, persistence or usage failure, failure
to create the Tool message), `Messages.Update` is called with the message marked finished
exactly once, as the last call of the pass; every earlier update of the pass carries that
message with `Finished = false`, and no call of the pass follows. -/
theorem loopBody_finished_once (env : Env) (w : World) (sessionID : String)
    (messages : List Message) (step : Step) (asst : Message) (w5 : World)
    (h : loopBody env w sessionID messages = (step, some asst, w5))
    (hnp : step ≠ .exit .panic) :
    asst.Finished = true ∧
    ∃ ext,
      w5.log = w.log ++ [.StreamResponse messages,
          .MessagesCreate sessionID { Role := .Assistant, Content := "" }]
        ++ ext ++ [.MessagesUpdate asst] ∧
      (∀ a ∈ ext, ∀ m, a = .MessagesUpdate m → m.ID = asst.ID ∧ m.Finished = false) ∧
      (w5.log.drop w.log.length).countP Action.isFinishedUpdate = 1 ∧
      (w5.log.drop w.log.length).getLast? = some (.MessagesUpdate asst) := by
  obtain ⟨a0, w1, w2, ext, -, hid, hfin, hl, hq⟩ := loopBody_log _ _ _ _ _ _ _ h hnp
  refine ⟨hfin, ext, hl, ?_, ?_, ?_⟩
  · intro a ha m hm
    subst hm
    have := hq _ ha
    simp only [Action.inPass] at this
    exact ⟨this.1.trans hid.symm, this.2⟩
  · have hz : ext.countP Action.isFinishedUpdate = 0 :=
      List.countP_eq_zero.2 fun a ha => by simp [inPass_not_finished _ _ (hq a ha)]
    rw [hl]
    simp [List.append_assoc, List.countP_append, hz, Action.isFinishedUpdate, hfin]
  · have hd : w5.log.drop w.log.length
        = ([.StreamResponse messages,
            .MessagesCreate sessionID { Role := .Assistant, Content := "" }] ++ ext)
          ++ [.MessagesUpdate asst] := by
      rw [hl]; simp [List.append_assoc]
    rw [hd, List.getLast?_append]
    rfl

/-- Witness of C20: the first pass of the scenario. -/
theorem loopBody_finished_once_witness :
    (scenarioMessages[1]?).map Message.Finished = some true ∧
    (((loopBody scenarioEnv scenarioWorld "s1" []).2.2.log.drop
        scenarioWorld.log.length).countP Action.isFinishedUpdate = 1) :=
  match loopBody_finished_once scenarioEnv scenarioWorld "s1" []
      (loopBody scenarioEnv scenarioWorld "s1" []).1
      { ID := "msg-0", SessionID := "s1", Role := .Assistant, Content := "Sure, checking...",
        Thinking := "", ToolCalls := [scenarioCall], ToolResults := [], Finished := true }
      (loopBody scenarioEnv scenarioWorld "s1" []).2.2 rfl
      (fun hr => Step.noConfusion hr) with
  | ⟨_, _, _, _, h4, _⟩ => ⟨by decide, h4⟩

/-- Counterexample to C19 as stated: in the first pass of the scenario the tool dispatch and the
creation of the Tool message come before the update that marks the Assistant message finished;
no update of a finished message precedes the dispatch. -/
theorem loopBody_order_counterexample :
    (loopBody scenarioEnv scenarioWorld "s1" []).2.2.log.drop 8 =
      [ .ExecuteTools [scenarioCall],
        .MessagesCreate "s1"
          { Role := .Tool,
            ToolResults := [{ ToolCallID := "tc1", Content := "a.txt", IsError := false }] },
        .MessagesUpdate
          { ID := "msg-0", SessionID := "s1", Role := .Assistant,
            Content := "Sure, checking...", Thinking := "", ToolCalls := [scenarioCall],
            ToolResults := [], Finished := true } ] ∧
    ((loopBody scenarioEnv scenarioWorld "s1" []).2.2.log.take 8).countP
      Action.isFinishedUpdate = 0 := by
  decide

/-- C19 as amended: in every pass that has consumed its stream and whose Assistant message
carries at least one tool call, the last three calls of the pass are, in this order, the tool
dispatch, the creation of the Tool message with the results of the dispatch, and the update
that marks the Assistant message finished; the calls before them only fold events into the
unfinished message. -/
theorem loopBody_order (env : Env) (w : World) (sessionID : String)
    (messages : List Message) (events : List ProviderEvent) (w1 : World) (a0 : Message)
    (w2 : World) (a1 : Message) (w3 : World)
    (hs : StreamResponse env w messages = (.ok events, w1))
    (hc : Messages.Create env w1 sessionID { Role := .Assistant, Content := "" } = (.ok a0, w2))
    (hcons : consumeEvents env sessionID w2 a0 events = (.ok (), a1, w3))
    (hcalls : a1.ToolCalls ≠ []) :
    (loopBody env w sessionID messages).2.1 = some { a1 with Finished := true } ∧
    ∃ ext,
      (loopBody env w sessionID messages).2.2.log =
        w.log ++ [.StreamResponse messages,
          .MessagesCreate sessionID { Role := .Assistant, Content := "" }]
        ++ ext ++
        [ .ExecuteTools a1.ToolCalls,
          .MessagesCreate a1.SessionID
            { Role := .Tool, ToolResults := (ExecuteTools a1.ToolCalls env.tools).1 },
          .MessagesUpdate { a1 with Finished := true } ] ∧
      ∀ a ∈ ext, Action.folds a0.ID a := by
  have hsnd := loopBody_snd_of_consumed _ _ _ _ _ _ _ _ _ _ hs hc hcons
  have hfin0 : a0.Finished = false := (Messages_Create_ok _ _ _ _ _ _ hc).2.2.2.2.2.2.1
  have hce := consumeEvents_ext env sessionID events w2 a0 hfin0
  rw [hcons] at hce
  simp only at hce
  obtain ⟨⟨ext, hl, hq⟩, -⟩ := hce.2.1 (by intro e; simp)
  have hsl := StreamResponse_log env w messages
  rw [hs] at hsl
  have hcl := Messages_Create_log env w1 sessionID { Role := .Assistant, Content := "" }
  rw [hc] at hcl
  simp only at hsl hcl
  refine ⟨by rw [hsnd], ext, ?_, hq⟩
  rw [hsnd]
  simp only
  rw [Messages_Update_log, handleToolExecution_log, if_neg hcalls, hl, hcl, hsl]
  simp

/-- Witness of C19 as amended: the first pass of the scenario. -/
theorem loopBody_order_witness :
    firstPass.2.1.ToolCalls ≠ [] ∧
    (loopBody scenarioEnv scenarioWorld "s1" []).2.1
      = some { firstPass.2.1 with Finished := true } :=
  ⟨by decide,
    (loopBody_order scenarioEnv scenarioWorld "s1" [] _
      (StreamResponse scenarioEnv scenarioWorld []).2 sampleAssistant
      (Messages.Create scenarioEnv (StreamResponse scenarioEnv scenarioWorld []).2 "s1"
        { Role := .Assistant, Content := "" }).2
      firstPass.2.1 firstPass.2.2 rfl rfl rfl (by decide)).1⟩

/-! ### The title task: claims C13 and C14 -/

theorem titleTasks_of_ext {w w1 : World} (ext : List Action) (h : w1.log = w.log ++ ext)
    (hq : ∀ a ∈ ext, a.isTitleGeneration = false) : w1.titleTasks = w.titleTasks := by
  unfold World.titleTasks
  rw [h, List.countP_append]
  have : ext.countP Action.isTitleGeneration = 0 :=
    List.countP_eq_zero.2 fun a ha => by simp [hq a ha]
  omega

theorem inPass_not_title (id : String) (a : Action) (h : Action.inPass id a) :
    a.isTitleGeneration = false := by
  cases a <;> simp_all [Action.inPass, Action.isTitleGeneration]

/-- No pass of the loop starts a title task, however the pass ends. -/
theorem loopBody_titleTasks (env : Env) (w : World) (sessionID : String)
    (messages : List Message) :
    (loopBody env w sessionID messages).2.2.titleTasks = w.titleTasks := by
  have hsl := StreamResponse_log env w messages
  rcases hs : StreamResponse env w messages with ⟨sr, w1⟩
  rw [hs] at hsl
  simp only at hsl
  have h1 : w1.titleTasks = w.titleTasks :=
    titleTasks_of_ext _ hsl (by simp [Action.isTitleGeneration])
  cases sr with
  | error e =>
    unfold loopBody
    rw [hs]
    exact h1
  | ok events =>
    have hcl := Messages_Create_log env w1 sessionID { Role := .Assistant, Content := "" }
    rcases hc : Messages.Create env w1 sessionID { Role := .Assistant, Content := "" }
      with ⟨cr, w2⟩
    rw [hc] at hcl
    simp only at hcl
    have h2 : w2.titleTasks = w.titleTasks :=
      (titleTasks_of_ext _ hcl (by simp [Action.isTitleGeneration])).trans h1
    cases cr with
    | error e =>
      unfold loopBody
      rw [hs]
      simp only []
      rw [hc]
      exact h2
    | ok a0 =>
      have hfin0 : a0.Finished = false := (Messages_Create_ok _ _ _ _ _ _ hc).2.2.2.2.2.2.1
      have hce := consumeEvents_ext env sessionID events w2 a0 hfin0
      rcases hcons : consumeEvents env sessionID w2 a0 events with ⟨r, a1, w3⟩
      rw [hcons] at hce
      simp only at hce
      obtain ⟨-, hok, herr⟩ := hce
      cases r with
      | err e =>
        obtain ⟨-, ext, hl, hq⟩ := herr e rfl
        have h3 : w3.titleTasks = w2.titleTasks := by
          apply titleTasks_of_ext (ext ++ [.MessagesUpdate a1]) (by rw [hl, List.append_assoc])
          intro a ha
          rcases List.mem_append.1 ha with hm | hm
          · exact inPass_not_title _ _ (folds_inPass _ _ (hq a hm))
          · simp only [List.mem_singleton] at hm; subst hm; rfl
        unfold loopBody
        rw [hs]
        simp only []
        rw [hc]
        simp only []
        rw [hcons]
        exact h3.trans h2
      | panic =>
        obtain ⟨⟨ext, hl, hq⟩, -⟩ := hok (by intro e; simp)
        have h3 : w3.titleTasks = w2.titleTasks :=
          titleTasks_of_ext ext hl fun a ha => inPass_not_title _ _ (folds_inPass _ _ (hq a ha))
        unfold loopBody
        rw [hs]
        simp only []
        rw [hc]
        simp only []
        rw [hcons]
        exact h3.trans h2
      | ok u =>
        cases u
        obtain ⟨⟨ext, hl, hq⟩, -⟩ := hok (by intro e; simp)
        have h3 : w3.titleTasks = w2.titleTasks :=
          titleTasks_of_ext ext hl fun a ha => inPass_not_title _ _ (folds_inPass _ _ (hq a ha))
        have hsnd := loopBody_snd_of_consumed _ _ _ _ _ _ _ _ _ _ hs hc hcons
        rw [hsnd]
        simp only
        have h4 : (handleToolExecution env w3 a1).2.titleTasks = w3.titleTasks := by
          apply titleTasks_of_ext _ (handleToolExecution_log env w3 a1)
          intro a ha
          split at ha
          · simp at ha
          · simp only [List.mem_cons, List.mem_singleton, List.not_mem_nil, or_false] at ha
            rcases ha with rfl | rfl <;> rfl
        have h5 := titleTasks_of_ext _
          (Messages_Update_log env (handleToolExecution env w3 a1).2 { a1 with Finished := true })
          (by simp [Action.isTitleGeneration])
        exact h5.trans (h4.trans (h3.trans h2))

theorem generateLoop_titleTasks (env : Env) (sessionID : String) (fuel : Nat) (w : World)
    (messages : List Message) (r : Result Unit) (w1 : World)
    (h : generateLoop env sessionID fuel w messages = some (r, w1)) :
    w1.titleTasks = w.titleTasks := by
  induction fuel generalizing w messages with
  | zero => simp [generateLoop] at h
  | succ n ih =>
    rw [generateLoop_succ] at h
    have hb := loopBody_titleTasks env w sessionID messages
    split at h
    · simp only [Option.some.injEq, Prod.mk.injEq] at h
      rw [← h.2]; exact hb
    · exact (ih _ _ h).trans hb

/-- C13: `generate` starts the title task exactly when `Messages.List` returned, without
error, no message: the loop then begins in a world in which one title task has been started in
that case and none otherwise; no pass of the loop starts a title task, however many passes
follow; so when `generate` returns, one title task has been started if the list was empty and
none otherwise. -/
theorem generate_title_task (env : Env) (fuel : Nat) (w : World) (sessionID content : String) :
    (∀ msgs w1 user w3, Messages.List env w sessionID = (.ok msgs, w1) →
      Messages.Create env
          (if msgs.length = 0 then w1.record (.TitleGeneration sessionID content) else w1)
          sessionID { Role := .User, Content := content } = (.ok user, w3) →
      generate env fuel w sessionID content
        = generateLoop env sessionID fuel w3 (msgs ++ [user]) ∧
      w3.titleTasks = w.titleTasks + (if msgs = [] then 1 else 0)) ∧
    (∀ w1 msgs, (loopBody env w1 sessionID msgs).2.2.titleTasks = w1.titleTasks) ∧
    (∀ r w1, generate env fuel w sessionID content = some (r, w1) →
      ((Messages.List env w sessionID).1 = .ok [] → w1.titleTasks = w.titleTasks + 1) ∧
      ((Messages.List env w sessionID).1 ≠ .ok [] → w1.titleTasks = w.titleTasks)) := by
  have hlist : ∀ msgs w1, Messages.List env w sessionID = (.ok msgs, w1) →
      w1.titleTasks = w.titleTasks := by
    intro msgs w1 h
    have hl := Messages_List_log env w sessionID
    rw [h] at hl
    exact titleTasks_of_ext _ hl (by simp [Action.isTitleGeneration])
  have hstart : ∀ msgs w1 user w3, Messages.List env w sessionID = (.ok msgs, w1) →
      Messages.Create env
          (if msgs.length = 0 then w1.record (.TitleGeneration sessionID content) else w1)
          sessionID { Role := .User, Content := content } = (.ok user, w3) →
      w3.titleTasks = w.titleTasks + (if msgs = [] then 1 else 0) := by
    intro msgs w1 user w3 h hc
    have hcl := Messages_Create_log env
      (if msgs.length = 0 then w1.record (.TitleGeneration sessionID content) else w1)
      sessionID { Role := .User, Content := content }
    rw [hc] at hcl
    simp only at hcl
    have h3 := titleTasks_of_ext _ hcl (by simp [Action.isTitleGeneration])
    rw [h3]
    by_cases hm : msgs = []
    · subst hm
      simp only [List.length_nil, if_true]
      rw [← hlist _ _ h]
      simp [World.titleTasks, World.record, List.countP_append, Action.isTitleGeneration]
    · have hlen : ¬ msgs.length = 0 := fun h0 => hm (List.length_eq_zero.1 h0)
      simp only [hlen, hm, if_false]
      exact hlist _ _ h
  refine ⟨?_, fun w1 msgs => loopBody_titleTasks env w1 sessionID msgs, ?_⟩
  · intro msgs w1 user w3 h hc
    refine ⟨?_, hstart msgs w1 user w3 h hc⟩
    unfold generate
    rw [h]
    simp only []
    rw [hc]
  · intro r w5 hgen
    rcases hl : Messages.List env w sessionID with ⟨lr, w1⟩
    cases lr with
    | error e =>
      unfold generate at hgen
      rw [hl] at hgen
      simp only [Option.some.injEq, Prod.mk.injEq] at hgen
      have hll := Messages_List_log env w sessionID
      rw [hl] at hll
      refine ⟨by intro h; simp at h, fun _ => ?_⟩
      rw [← hgen.2]
      exact titleTasks_of_ext _ hll (by simp [Action.isTitleGeneration])
    | ok msgs =>
      rcases hc : Messages.Create env
          (if msgs.length = 0 then w1.record (.TitleGeneration sessionID content) else w1)
          sessionID { Role := .User, Content := content } with ⟨cr, w3⟩
      have hfinal : w5.titleTasks = w.titleTasks + (if msgs = [] then 1 else 0) := by
        cases cr with
        | error e =>
          unfold generate at hgen
          rw [hl] at hgen
          simp only [] at hgen
          rw [hc] at hgen
          simp only [Option.some.injEq, Prod.mk.injEq] at hgen
          have hcl := Messages_Create_log env
            (if msgs.length = 0 then w1.record (.TitleGeneration sessionID content) else w1)
            sessionID { Role := .User, Content := content }
          rw [hc] at hcl
          simp only at hcl
          rw [← hgen.2, titleTasks_of_ext _ hcl (by simp [Action.isTitleGeneration])]
          by_cases hm : msgs = []
          · subst hm
            simp only [List.length_nil, if_true]
            rw [← hlist _ _ hl]
            simp [World.titleTasks, World.record, List.countP_append, Action.isTitleGeneration]
          · have hlen : ¬ msgs.length = 0 := fun h0 => hm (List.length_eq_zero.1 h0)
            simp only [hlen, hm, if_false]
            exact hlist _ _ hl
        | ok user =>
          have hs := hstart msgs w1 user w3 hl hc
          unfold generate at hgen
          rw [hl] at hgen
          simp only [] at hgen
          rw [hc] at hgen
          simp only [] at hgen
          rw [generateLoop_titleTasks _ _ _ _ _ _ _ hgen, hs]
      refine ⟨?_, ?_⟩
      · intro h
        simp only [Except.ok.injEq] at h
        rw [hfinal, h]; rfl
      · intro h
        have hm : msgs ≠ [] := fun h0 => h (by rw [h0])
        rw [hfinal]; simp [hm]

/-- Witness of C13: the scenario starts from a session without messages, so one title task is
started. -/
theorem generate_title_task_witness :
    ∃ w1, generate scenarioEnv 2 scenarioWorld "s1" "list files" = some (.ok (), w1) ∧
      w1.titleTasks = scenarioWorld.titleTasks + 1 :=
  ⟨_, rfl,
    ((generate_title_task scenarioEnv 2 scenarioWorld "s1" "list files").2.2 (.ok ()) _ rfl).1
      rfl⟩

/-- Counterexample to C14 as stated: the title provider and the session lookup both succeed,
the response has empty content, and `handleTitleGeneration` makes no `Save` and leaves the
title `"old title"` in place instead of overwriting it with the response content. -/
theorem handleTitleGeneration_counterexample :
    (titleEnv "").titleGenerator (titleRequest "list files") = .ok (some { Content := "" }) ∧
    (service.Get (titleEnv "") titledWorld "s1").1 = .ok { ID := "s1", Title := "old title" } ∧
    (handleTitleGeneration (titleEnv "") titledWorld "s1" "list files").1 = .ok () ∧
    (handleTitleGeneration (titleEnv "") titledWorld "s1" "list files").2.log
      = [.SessionsGet "s1"] ∧
    ((handleTitleGeneration (titleEnv "") titledWorld "s1" "list files").2.session "s1").map
      Session.Title = some "old title" ∧
    ((handleTitleGeneration (titleEnv "") titledWorld "s1" "list files").2.session "s1").map
      Session.Title ≠ some "" :=
  ⟨rfl, rfl, rfl, by decide, by decide, by decide⟩

/-- C14 as amended: when the title provider fails, or the session lookup fails,
`handleTitleGeneration` makes no `Save`, leaves the sessions unchanged and ends without error;
when both succeed and the response content is not empty, it calls `Save` with the title set to
the response content, and a successful `Save` leaves that title in the store; when both succeed
and the response content is empty, it makes no `Save` and leaves the sessions unchanged. -/
theorem handleTitleGeneration_spec (env : Env) (w : World) (sessionID content : String) :
    (∀ e, env.titleGenerator (titleRequest content) = .error e →
      handleTitleGeneration env w sessionID content = (.ok (), w)) ∧
    (∀ response e w1, env.titleGenerator (titleRequest content) = .ok response →
      service.Get env w sessionID = (.error e, w1) →
      handleTitleGeneration env w sessionID content = (.ok (), w1) ∧
      w1.sessions = w.sessions ∧ w1.log = w.log ++ [.SessionsGet sessionID]) ∧
    (∀ response session w1,
      env.titleGenerator (titleRequest content) = .ok (some response) →
      service.Get env w sessionID = (.ok session, w1) → response.Content ≠ "" →
      handleTitleGeneration env w sessionID content
        = (.ok (), (service.Save env w1 { session with Title := response.Content }).2) ∧
      ∀ row w2, service.Save env w1 { session with Title := response.Content } = (.ok row, w2) →
        w2.session sessionID = some row ∧ row.Title = response.Content) ∧
    (∀ response session w1,
      env.titleGenerator (titleRequest content) = .ok (some response) →
      service.Get env w sessionID = (.ok session, w1) → response.Content = "" →
      handleTitleGeneration env w sessionID content = (.ok (), w1) ∧
      w1.sessions = w.sessions ∧ w1.log = w.log ++ [.SessionsGet sessionID]) := by
  have hgw := service_Get_world env w sessionID
  refine ⟨?_, ?_, ?_, ?_⟩
  · intro e he
    unfold handleTitleGeneration
    rw [he]
  · intro response e w1 hr hg
    rw [hg] at hgw
    simp only at hgw
    refine ⟨?_, by rw [hgw]; rfl, by rw [hgw]; rfl⟩
    unfold handleTitleGeneration
    rw [hr]
    simp only []
    rw [hg]
  · intro response session w1 hr hg hne
    refine ⟨?_, ?_⟩
    · unfold handleTitleGeneration
      rw [hr]
      simp only []
      rw [hg]
      simp only [hne, ne_eq, not_false_eq_true, if_true]
    · intro row w2 hsave
      obtain ⟨s, -, hrow, hsess⟩ := service_Save_ok _ _ _ _ _ hsave
      have hid : session.ID = sessionID := by
        have := List.find?_some (service_Get_ok _ _ _ _ _ hg).1
        simpa using this
      simp only at hsess hrow
      rw [hid] at hsess
      exact ⟨hsess, by rw [hrow]⟩
  · intro response session w1 hr hg hemp
    rw [hg] at hgw
    simp only at hgw
    refine ⟨?_, by rw [hgw]; rfl, by rw [hgw]; rfl⟩
    unfold handleTitleGeneration
    rw [hr]
    simp only []
    rw [hg]
    simp only [hemp, ne_eq, not_true_eq_false, if_false]

/-- Witness of C14 as amended: the title provider answers `"Listing files"` and the title of
the stored session becomes that text. -/
theorem handleTitleGeneration_spec_witness :
    (handleTitleGeneration (titleEnv "Listing files") titledWorld "s1" "list files").1 = .ok () ∧
    ((handleTitleGeneration (titleEnv "Listing files") titledWorld "s1" "list files").2.session
      "s1").map Session.Title = some "Listing files" :=
  ⟨congrArg Prod.fst
      (((handleTitleGeneration_spec (titleEnv "Listing files") titledWorld "s1" "list files").2.2.1
        { Content := "Listing files" } { ID := "s1", Title := "old title" }
        (service.Get (titleEnv "Listing files") titledWorld "s1").2 rfl rfl (by decide)).1),
    by decide⟩

/-! ### Monotone counters: claim C17 -/

/-- Counterexample to C17 as stated: with the prompt-token counter at the largest `int64` a
successful `TrackUsage` of one input token leaves a smaller counter; and a usage record with a
negative output count leaves a smaller completion counter. -/
theorem TrackUsage_monotone_counterexample :
    (∃ w1 s1,
      TrackUsage scenarioEnv fullWorld "s1" scenarioEnv.model { InputTokens := 1 } = (none, w1) ∧
      fullWorld.session "s1" = some { ID := "s1", PromptTokens := 9223372036854775807 } ∧
      w1.session "s1" = some s1 ∧ s1.PromptTokens < 9223372036854775807) ∧
    (∃ w1 s1,
      TrackUsage scenarioEnv scenarioWorld "s1" scenarioEnv.model { OutputTokens := -5 }
        = (none, w1) ∧
      scenarioWorld.session "s1" = some { ID := "s1" } ∧
      w1.session "s1" = some s1 ∧ s1.CompletionTokens < 0) :=
  ⟨⟨_, _, rfl, rfl, rfl, by decide⟩, ⟨_, _, rfl, rfl, rfl, by decide⟩⟩

/-- C17 as amended: after a successful `TrackUsage` with non-negative token counts and
non-negative rates the cost of the session is at least what it was, and each token counter is
at least what it was whenever its new total lies in the `int64` range. -/
theorem TrackUsage_monotone (env : Env) (w : World) (sessionID : String) (model : Model)
    (usage : TokenUsage) (w2 : World)
    (h : TrackUsage env w sessionID model usage = (none, w2))
    (hin : 0 ≤ usage.InputTokens) (hout : 0 ≤ usage.OutputTokens)
    (hcw : 0 ≤ usage.CacheCreationTokens) (hcr : 0 ≤ usage.CacheReadTokens)
    (hri : 0 ≤ model.CostPer1MIn) (hro : 0 ≤ model.CostPer1MOut)
    (hrw : 0 ≤ model.CostPer1MInCached) (hrr : 0 ≤ model.CostPer1MOutCached) :
    ∃ s s2, w.session sessionID = some s ∧ w2.session sessionID = some s2 ∧
      s.Cost ≤ s2.Cost ∧
      (inInt64 (s.PromptTokens + usage.InputTokens) → s.PromptTokens ≤ s2.PromptTokens) ∧
      (inInt64 (s.CompletionTokens + usage.OutputTokens) →
        s.CompletionTokens ≤ s2.CompletionTokens) := by
  obtain ⟨s, hs, hs2⟩ := TrackUsage_ok _ _ _ _ _ _ h
  refine ⟨s, s.track model usage, hs, hs2, ?_, ?_, ?_⟩
  · have hc : 0 ≤ usageCost model usage := by
      unfold usageCost
      have h1 : (0 : ℚ) ≤ (usage.InputTokens : ℚ) := by exact_mod_cast hin
      have h2 : (0 : ℚ) ≤ (usage.OutputTokens : ℚ) := by exact_mod_cast hout
      have h3 : (0 : ℚ) ≤ (usage.CacheCreationTokens : ℚ) := by exact_mod_cast hcw
      have h4 : (0 : ℚ) ≤ (usage.CacheReadTokens : ℚ) := by exact_mod_cast hcr
      positivity
    simp only [Session.track]
    linarith
  · intro hr
    simp only [Session.track]
    rw [wrapInt64_of_inInt64 _ hr]
    omega
  · intro hr
    simp only [Session.track]
    rw [wrapInt64_of_inInt64 _ hr]
    omega

/-- Witness of C17 as amended: the usage of the specification tracked in the scenario store. -/
theorem TrackUsage_monotone_witness :
    ∃ s s2, scenarioWorld.session "s1" = some s ∧
      (TrackUsage scenarioEnv scenarioWorld "s1" scenarioEnv.model
        { InputTokens := 1000000, OutputTokens := 500000 }).2.session "s1" = some s2 ∧
      s.Cost ≤ s2.Cost :=
  match TrackUsage_monotone scenarioEnv scenarioWorld "s1" scenarioEnv.model
      { InputTokens := 1000000, OutputTokens := 500000 }
      (TrackUsage scenarioEnv scenarioWorld "s1" scenarioEnv.model
        { InputTokens := 1000000, OutputTokens := 500000 }).2
      (Prod.ext (by decide) rfl) (by decide) (by decide) (by decide) (by decide)
      (by decide) (by decide) (by decide) (by decide) with
  | ⟨s, s2, h1, h2, h3, _⟩ => ⟨s, s2, h1, h2, h3⟩

/-! ### The Anthropic producer: claims C11 and C12 -/

theorem frameEvents_not_error (event : anthropic.MessageStreamEvent) (acc : anthropic.Message) :
    ∀ e ∈ frameEvents event acc, e.Type_ ≠ EventError := by
  intro e he
  unfold frameEvents at he
  split at he
  · simp only [List.mem_singleton] at he; subst he; decide
  · split at he
    · simp at he
    · split at he
      · simp only [List.mem_singleton] at he; subst he; decide
      · split at he
        · simp only [List.mem_singleton] at he; subst he
          simp [completeEvent, EventComplete, EventError]
        · simp at he

theorem frameEvents_not_terminal (event : anthropic.MessageStreamEvent) (acc : anthropic.Message)
    (h : event.Type_ ≠ "message_stop") : ∀ e ∈ frameEvents event acc, e.isTerminal = false := by
  intro e he
  unfold frameEvents at he
  split at he
  · simp only [List.mem_singleton] at he; subst he; decide
  · split at he
    · simp at he
    · split at he
      · simp only [List.mem_singleton] at he; subst he; decide
      · simp at he

theorem frameEvents_stop (event : anthropic.MessageStreamEvent) (acc : anthropic.Message)
    (h : event.Type_ = "message_stop") : frameEvents event acc = [completeEvent acc] := by
  unfold frameEvents
  rw [h]
  simp

/-- The events sent for a run of frames that are all accumulated: they precede whatever the
producer sends afterwards; none of them is an Error event, and none is terminal when the run
holds no `message_stop` frame. -/
theorem produce_append
    (Accumulate : anthropic.Message → anthropic.MessageStreamEvent → Except Err anthropic.Message)
    (pre : List anthropic.MessageStreamEvent) (acc acc1 : anthropic.Message)
    (h : accumulateAll Accumulate acc pre = .ok acc1) :
    ∃ evs,
      (∀ rest streamErr, anthropicProvider.produce Accumulate acc (pre ++ rest) streamErr
        = evs ++ anthropicProvider.produce Accumulate acc1 rest streamErr) ∧
      (∀ e ∈ evs, e.Type_ ≠ EventError) ∧
      ((∀ f ∈ pre, f.Type_ ≠ "message_stop") → ∀ e ∈ evs, e.isTerminal = false) := by
  induction pre generalizing acc with
  | nil =>
    simp only [accumulateAll, Except.ok.injEq] at h
    subst h
    exact ⟨[], by simp, by simp, by simp⟩
  | cons f fs ih =>
    rw [accumulateAll] at h
    rcases ha : Accumulate acc f with err | acc2
    · rw [ha] at h; simp at h
    · rw [ha] at h
      simp only [] at h
      obtain ⟨evs, h1, h2, h3⟩ := ih acc2 h
      refine ⟨frameEvents f acc2 ++ evs, ?_, ?_, ?_⟩
      · intro rest streamErr
        rw [List.cons_append, anthropicProvider.produce, ha]
        simp only []
        rw [h1, List.append_assoc]
      · intro e he
        rcases List.mem_append.1 he with hm | hm
        · exact frameEvents_not_error f acc2 e hm
        · exact h2 e hm
      · intro hno e he
        rcases List.mem_append.1 he with hm | hm
        · exact frameEvents_not_terminal f acc2 (hno f (List.mem_cons_self _ _)) e hm
        · exact h3 (fun g hg => hno g (List.mem_cons_of_mem _ hg)) e hm

theorem countP_terminal_of_none (evs : List ProviderEvent)
    (h : ∀ e ∈ evs, e.isTerminal = false) : evs.countP ProviderEvent.isTerminal = 0 :=
  List.countP_eq_zero.2 fun e he => by simp [h e he]

/-- The events of the producer: the events of the accumulated frames, in order, then one Error
event when the production ends with a failure. -/
theorem produce_eq
    (Accumulate : anthropic.Message → anthropic.MessageStreamEvent → Except Err anthropic.Message)
    (acc : anthropic.Message) (frames : List anthropic.MessageStreamEvent)
    (streamErr : Option Err) :
    anthropicProvider.produce Accumulate acc frames streamErr
      = ((accumulatedFrames Accumulate acc frames).map fun p => frameEvents p.1 p.2).flatten
        ++ (match productionFailure Accumulate acc frames streamErr with
            | some err => [{ Type_ := EventError, Error := some err }]
            | none => []) := by
  induction frames generalizing acc with
  | nil =>
    cases streamErr <;>
      simp [anthropicProvider.produce, accumulatedFrames, productionFailure, errorEvent]
  | cons f fs ih =>
    rw [anthropicProvider.produce, accumulatedFrames, productionFailure]
    cases ha : Accumulate acc f with
    | error err => simp [errorEvent]
    | ok acc1 =>
      simp only []
      rw [ih acc1]
      simp

theorem frameEvents_counts (event : anthropic.MessageStreamEvent) (acc : anthropic.Message) :
    (frameEvents event acc).countP ProviderEvent.isTerminal
      = (if event.Type_ = "message_stop" then 1 else 0) ∧
    (frameEvents event acc).countP (fun e => decide (e.Type_ = EventComplete))
      = (if event.Type_ = "message_stop" then 1 else 0) ∧
    (frameEvents event acc).countP (fun e => decide (e.Type_ = EventError)) = 0 := by
  unfold frameEvents
  by_cases h1 : event.Type_ = "content_block_start"
  · rw [if_pos h1, if_neg (by rw [h1]; decide)]
    decide
  · rw [if_neg h1]
    by_cases h2 : event.Type_ = "content_block_delta"
    · rw [if_pos h2, if_neg (by rw [h2]; decide)]
      decide
    · rw [if_neg h2]
      by_cases h3 : event.Type_ = "content_block_stop"
      · rw [if_pos h3, if_neg (by rw [h3]; decide)]
        decide
      · rw [if_neg h3]
        by_cases h4 : event.Type_ = "message_stop"
        · rw [if_pos h4, if_pos h4]
          simp [completeEvent, ProviderEvent.isTerminal, EventComplete, EventError]
        · rw [if_neg h4, if_neg h4]
          decide

theorem frameEvents_silent (event : anthropic.MessageStreamEvent) (acc : anthropic.Message) :
    frameEvents event acc = [] ↔ silentFrame event := by
  unfold frameEvents silentFrame
  by_cases h1 : event.Type_ = "content_block_start"
  · simp [h1]
  · by_cases h2 : event.Type_ = "content_block_delta"
    · rw [if_neg h1, if_pos h2]
      simp [h2]
    · by_cases h3 : event.Type_ = "content_block_stop"
      · simp [h3]
      · by_cases h4 : event.Type_ = "message_stop"
        · simp [h4]
        · simp [h1, h2, h3, h4]

/-- The events of the accumulated frames: as many terminal events, all of them Complete events,
as there are `message_stop` frames among them, and no Error event. -/
theorem accumulated_counts
    (l : List (anthropic.MessageStreamEvent × anthropic.Message)) :
    ((l.map fun p => frameEvents p.1 p.2).flatten).countP ProviderEvent.isTerminal
      = l.countP (fun p => decide (p.1.Type_ = "message_stop")) ∧
    ((l.map fun p => frameEvents p.1 p.2).flatten).countP (fun e => decide (e.Type_ = EventComplete))
      = l.countP (fun p => decide (p.1.Type_ = "message_stop")) ∧
    ((l.map fun p => frameEvents p.1 p.2).flatten).countP (fun e => decide (e.Type_ = EventError))
      = 0 := by
  induction l with
  | nil => simp
  | cons p rest ih =>
    obtain ⟨h1, h2, h3⟩ := frameEvents_counts p.1 p.2
    obtain ⟨i1, i2, i3⟩ := ih
    simp only [List.map_cons, List.flatten_cons, List.countP_append, List.countP_cons, h1, h2, h3,
      i1, i2, i3, decide_eq_true_eq]
    refine ⟨by omega, by omega, trivial⟩

theorem accumulated_silent
    (l : List (anthropic.MessageStreamEvent × anthropic.Message)) :
    (l.map fun p => frameEvents p.1 p.2).flatten = [] ↔ ∀ f ∈ l.map Prod.fst, silentFrame f := by
  induction l with
  | nil => simp
  | cons p rest ih =>
    simp only [List.map_cons, List.flatten_cons, List.append_eq_nil, ih, List.mem_cons,
      forall_eq_or_imp, frameEvents_silent]

/-- A list with exactly one element of a kind splits at that element. -/
theorem split_of_countP_one {α : Type} (p : α → Bool) (l : List α) (h : l.countP p = 1) :
    ∃ pre x post, l = pre ++ x :: post ∧ p x = true ∧ (∀ y ∈ pre, p y = false) ∧
      ∀ y ∈ post, p y = false := by
  induction l with
  | nil => simp at h
  | cons a rest ih =>
    by_cases ha : p a = true
    · refine ⟨[], a, rest, rfl, ha, by simp, ?_⟩
      rw [List.countP_cons_of_pos _ _ ha] at h
      have h0 : rest.countP p = 0 := by omega
      intro y hy
      have := List.countP_eq_zero.1 h0 y hy
      simpa using this
    · rw [List.countP_cons_of_neg _ _ ha] at h
      obtain ⟨pre, x, post, hl, hx, hpre, hpost⟩ := ih h
      refine ⟨a :: pre, x, post, by rw [hl]; rfl, hx, ?_, hpost⟩
      intro y hy
      rcases List.mem_cons.1 hy with rfl | hy
      · simpa using ha
      · exact hpre y hy

/-- Counterexample to C11 as stated, whatever the accumulation of the vendor library does: a
vendor stream that delivers no frame and ends without error produces no event, so no terminal
event; whenever a `message_stop` frame is accumulated and the stream then ends with a transport
error, two terminal events are produced; and whenever a `message_stop` frame is accumulated and
a `content_block_stop` frame follows, either that frame is accumulated too and the last event is
not terminal, or it is rejected and two terminal events are produced. The same with an
accumulation that accepts every frame. -/
theorem produce_terminal_counterexample :
    (∀ Accumulate acc, anthropicProvider.produce Accumulate acc [] none = []) ∧
    (∀ Accumulate acc acc1, Accumulate acc { Type_ := "message_stop" } = .ok acc1 →
      anthropicProvider.produce Accumulate acc [{ Type_ := "message_stop" }]
          (some "connection reset")
        = [completeEvent acc1, { Type_ := EventError, Error := some "connection reset" }]) ∧
    (∀ Accumulate acc acc1, Accumulate acc { Type_ := "message_stop" } = .ok acc1 →
      anthropicProvider.produce Accumulate acc
          [{ Type_ := "message_stop" }, { Type_ := "content_block_stop" }] none
        = [completeEvent acc1, { Type_ := EventContentStop }] ∨
      (∃ err, anthropicProvider.produce Accumulate acc
          [{ Type_ := "message_stop" }, { Type_ := "content_block_stop" }] none
        = [completeEvent acc1, { Type_ := EventError, Error := some err }])) ∧
    ¬ OneTerminalLast (anthropicProvider.produce acceptAll {} [] none) ∧
    ¬ OneTerminalLast (anthropicProvider.produce acceptAll {} [{ Type_ := "message_stop" }]
      (some "connection reset")) ∧
    ¬ OneTerminalLast (anthropicProvider.produce acceptAll {}
      [{ Type_ := "message_stop" }, { Type_ := "content_block_stop" }] none) := by
  refine ⟨?_, ?_, ?_, ?_, ?_, ?_⟩
  · intro Accumulate acc
    rfl
  · intro Accumulate acc acc1 h
    simp [anthropicProvider.produce, h, frameEvents, errorEvent]
  · intro Accumulate acc acc1 h
    cases h2 : Accumulate acc1 { Type_ := "content_block_stop" } with
    | error err =>
      right
      exact ⟨err, by simp [anthropicProvider.produce, h, h2, frameEvents, errorEvent]⟩
    | ok acc2 =>
      left
      simp [anthropicProvider.produce, h, h2, frameEvents]
  · intro h
    have := h.1
    revert this
    decide
  · intro h
    have := h.1
    revert this
    decide
  · rintro ⟨-, e, he, ht⟩
    have h2 : (anthropicProvider.produce acceptAll {}
      [{ Type_ := "message_stop" }, { Type_ := "content_block_stop" }] none).getLast?
        = some { Type_ := EventContentStop } := by decide
    rw [h2] at he
    cases he
    revert ht
    decide

theorem accumulated_silent_pairs
    (l : List (anthropic.MessageStreamEvent × anthropic.Message)) :
    (l.map fun p => frameEvents p.1 p.2).flatten = [] ↔ ∀ p ∈ l, silentFrame p.1 := by
  rw [accumulated_silent]
  simp

theorem isTerminal_error (err : Option Err) :
    ProviderEvent.isTerminal { Type_ := EventError, Error := err } = true := by
  simp [ProviderEvent.isTerminal]

theorem isTerminal_complete (acc : anthropic.Message) :
    (completeEvent acc).isTerminal = true := by
  simp [ProviderEvent.isTerminal, completeEvent]

/-- C11 as amended: the events of the Anthropic producer are the events of the frames it
accumulates, in order, followed by one Error event exactly when the production ends with a
failure; so they hold one Complete event for each accumulated `message_stop` frame, and the
frames after such a frame are still translated. They hold exactly one terminal event, which is
the last event, exactly in two cases: the production ends with a failure and no `message_stop`
frame was accumulated, and then that event is the Error event carrying the failure; or the
production ends without failure, exactly one `message_stop` frame was accumulated and every frame
accumulated after it is one for which no event is sent, and then that event is the Complete
event of the message accumulated up to the `message_stop` frame. -/
theorem produce_one_terminal
    (Accumulate : anthropic.Message → anthropic.MessageStreamEvent → Except Err anthropic.Message)
    (acc : anthropic.Message) (frames : List anthropic.MessageStreamEvent)
    (streamErr : Option Err) :
    anthropicProvider.produce Accumulate acc frames streamErr
      = ((accumulatedFrames Accumulate acc frames).map fun p => frameEvents p.1 p.2).flatten
        ++ (match productionFailure Accumulate acc frames streamErr with
            | some err => [{ Type_ := EventError, Error := some err }]
            | none => []) ∧
    (anthropicProvider.produce Accumulate acc frames streamErr).countP
        (fun e => decide (e.Type_ = EventComplete))
      = (accumulatedFrames Accumulate acc frames).countP
          (fun p => decide (p.1.Type_ = "message_stop")) ∧
    (anthropicProvider.produce Accumulate acc frames streamErr).countP
        (fun e => decide (e.Type_ = EventError))
      = (if (productionFailure Accumulate acc frames streamErr).isSome then 1 else 0) ∧
    (OneTerminalLast (anthropicProvider.produce Accumulate acc frames streamErr) ↔
      ((∃ err, productionFailure Accumulate acc frames streamErr = some err) ∧
        ∀ p ∈ accumulatedFrames Accumulate acc frames, p.1.Type_ ≠ "message_stop") ∨
      (productionFailure Accumulate acc frames streamErr = none ∧
        ∃ pre stop post, accumulatedFrames Accumulate acc frames = pre ++ stop :: post ∧
          stop.1.Type_ = "message_stop" ∧ (∀ p ∈ pre, p.1.Type_ ≠ "message_stop") ∧
          ∀ p ∈ post, silentFrame p.1)) ∧
    (∀ err, productionFailure Accumulate acc frames streamErr = some err →
      (anthropicProvider.produce Accumulate acc frames streamErr).getLast?
        = some { Type_ := EventError, Error := some err }) ∧
    (productionFailure Accumulate acc frames streamErr = none →
      ∀ pre stop post, accumulatedFrames Accumulate acc frames = pre ++ stop :: post →
        stop.1.Type_ = "message_stop" → (∀ p ∈ post, silentFrame p.1) →
        (anthropicProvider.produce Accumulate acc frames streamErr).getLast?
          = some (completeEvent stop.2)) := by
  have hp := produce_eq Accumulate acc frames streamErr
  obtain ⟨hc1, hc2, hc3⟩ := accumulated_counts (accumulatedFrames Accumulate acc frames)
  have hsplit : ∀ pre stop post, accumulatedFrames Accumulate acc frames = pre ++ stop :: post →
      stop.1.Type_ = "message_stop" → (∀ p ∈ post, silentFrame p.1) →
      ((accumulatedFrames Accumulate acc frames).map fun p => frameEvents p.1 p.2).flatten
        = (pre.map fun p => frameEvents p.1 p.2).flatten ++ [completeEvent stop.2] := by
    intro pre stop post hl hstop hpost
    rw [hl]
    simp only [List.map_append, List.map_cons, List.flatten_append, List.flatten_cons]
    rw [(accumulated_silent_pairs post).2 hpost, frameEvents_stop _ _ hstop]
    simp
  refine ⟨hp, ?_, ?_, ?_, ?_, ?_⟩
  · rw [hp, List.countP_append, hc2]
    cases productionFailure Accumulate acc frames streamErr <;>
      simp [EventComplete, EventError]
  · rw [hp, List.countP_append, hc3]
    cases productionFailure Accumulate acc frames streamErr <;> simp
  · constructor
    · rintro ⟨hcount, e, hlast, hterm⟩
      rw [hp] at hcount hlast
      cases hf : productionFailure Accumulate acc frames streamErr with
      | some err =>
        left
        rw [hf] at hcount
        simp only [] at hcount
        rw [List.countP_append, hc1] at hcount
        simp only [List.countP_cons, List.countP_nil, isTerminal_error, if_true] at hcount
        refine ⟨⟨err, rfl⟩, ?_⟩
        intro p hpm hms
        have h0 : (accumulatedFrames Accumulate acc frames).countP
            (fun p => decide (p.1.Type_ = "message_stop")) = 0 := by omega
        have := List.countP_eq_zero.1 h0 p hpm
        simp [hms] at this
      | none =>
        right
        rw [hf] at hcount hlast
        simp only [List.append_nil] at hcount hlast
        rw [hc1] at hcount
        obtain ⟨pre, stop, post, hl, hstop, hpre, hpost⟩ := split_of_countP_one _ _ hcount
        refine ⟨rfl, pre, stop, post, hl, by simpa using hstop, ?_, ?_⟩
        · intro p hpm
          simpa using hpre p hpm
        · rw [← accumulated_silent_pairs]
          by_contra hne
          have hcp : ((post.map fun p => frameEvents p.1 p.2).flatten).countP
              ProviderEvent.isTerminal = 0 := by
            rw [(accumulated_counts post).1]
            exact List.countP_eq_zero.2 fun p hpm => by simp [hpost p hpm]
          have hlast2 : ((post.map fun p => frameEvents p.1 p.2).flatten).getLast? = some e := by
            rw [hl] at hlast
            simp only [List.map_append, List.map_cons, List.flatten_append,
              List.flatten_cons] at hlast
            rw [← List.append_assoc, List.getLast?_append_of_ne_nil _ hne] at hlast
            exact hlast
          have hmem := List.mem_of_getLast?_eq_some hlast2
          have := List.countP_eq_zero.1 hcp e hmem
          exact this hterm
    · rintro (⟨⟨err, hf⟩, hno⟩ | ⟨hf, pre, stop, post, hl, hstop, hpre, hpost⟩)
      · rw [hp, hf]
        simp only []
        refine ⟨?_, { Type_ := EventError, Error := some err }, by simp, isTerminal_error _⟩
        rw [List.countP_append, hc1]
        have h0 : (accumulatedFrames Accumulate acc frames).countP
            (fun p => decide (p.1.Type_ = "message_stop")) = 0 :=
          List.countP_eq_zero.2 fun p hpm => by simp [hno p hpm]
        rw [h0]
        simp [isTerminal_error]
      · rw [hp, hf, hsplit pre stop post hl hstop hpost]
        simp only [List.append_nil]
        refine ⟨?_, completeEvent stop.2, by simp, isTerminal_complete _⟩
        rw [List.countP_append, (accumulated_counts pre).1]
        have h0 : pre.countP (fun p => decide (p.1.Type_ = "message_stop")) = 0 :=
          List.countP_eq_zero.2 fun p hpm => by simp [hpre p hpm]
        rw [h0]
        simp [isTerminal_complete]
  · intro err hf
    rw [hp, hf]
    simp
  · intro hf pre stop post hl hstop hpost
    rw [hp, hf, hsplit pre stop post hl hstop hpost]
    simp

/-- Witness of C11 as amended: a protocol-conforming vendor stream whose `message_stop` frame is
followed by a `ping` frame, for which no event is sent, produces one terminal event, as its last
event. -/
theorem produce_one_terminal_witness :
    OneTerminalLast (anthropicProvider.produce acceptAll {} pingedFrames none) :=
  (produce_one_terminal acceptAll {} pingedFrames none).2.2.2.1.2
    (Or.inr ⟨by decide,
      [ ({ Type_ := "message_start" }, {}), ({ Type_ := "content_block_start" }, {}),
        ({ Type_ := "content_block_delta", Data := "Done." }, {}),
        ({ Type_ := "content_block_stop" }, {}), ({ Type_ := "message_delta" }, {}) ],
      ({ Type_ := "message_stop" }, {}), [({ Type_ := "ping" }, {})], by decide, by decide,
      by decide, by decide⟩)

/-- C12: when the vendor stream ends with a transport error after frames that were all
accumulated, or when the accumulation rejects a frame, the last event the producer sends before
it closes the channel is an Error event whose `Error` field is that failure, the transport error
in the first case and the error returned by the accumulation in the second, and which carries
nothing else; and when no `message_stop` frame came before, no terminal event precedes it. -/
theorem produce_error_last
    (Accumulate : anthropic.Message → anthropic.MessageStreamEvent → Except Err anthropic.Message)
    (acc : anthropic.Message) (frames : List anthropic.MessageStreamEvent) :
    (∀ accN err, accumulateAll Accumulate acc frames = .ok accN →
      ∃ evs last, anthropicProvider.produce Accumulate acc frames (some err) = evs ++ [last] ∧
        last.Type_ = EventError ∧ last.Error = some err ∧
        last = { Type_ := EventError, Error := some err } ∧
        ((∀ f ∈ frames, f.Type_ ≠ "message_stop") → ∀ e ∈ evs, e.isTerminal = false)) ∧
    (∀ pre f post acc1 err streamErr, frames = pre ++ f :: post →
      accumulateAll Accumulate acc pre = .ok acc1 → Accumulate acc1 f = .error err →
      ∃ evs last, anthropicProvider.produce Accumulate acc frames streamErr = evs ++ [last] ∧
        last.Type_ = EventError ∧ last.Error = some err ∧
        last = { Type_ := EventError, Error := some err } ∧
        ((∀ g ∈ pre, g.Type_ ≠ "message_stop") → ∀ e ∈ evs, e.isTerminal = false)) := by
  refine ⟨?_, ?_⟩
  · intro accN err hall
    obtain ⟨evs, h1, -, h3⟩ := produce_append Accumulate frames acc accN hall
    refine ⟨evs, { Type_ := EventError, Error := some err }, ?_, rfl, rfl, rfl, h3⟩
    have := h1 [] (some err)
    rw [List.append_nil] at this
    rw [this]
    simp [anthropicProvider.produce, errorEvent]
  · intro pre f post acc1 err streamErr hfr hpre hrej
    subst hfr
    obtain ⟨evs, h1, -, h3⟩ := produce_append Accumulate pre acc acc1 hpre
    refine ⟨evs, { Type_ := EventError, Error := some err }, ?_, rfl, rfl, rfl, h3⟩
    rw [h1, anthropicProvider.produce, hrej]
    rfl

/-- Witness of C12: a vendor stream that breaks after the start of a block produces the start
marker and then the Error event that carries the transport error. -/
theorem produce_error_last_witness :
    ∃ evs last, anthropicProvider.produce acceptAll {}
        [{ Type_ := "message_start" }, { Type_ := "content_block_start" }]
        (some "connection reset")
      = evs ++ [last] ∧ last.Type_ = EventError ∧ last.Error = some "connection reset" :=
  match (produce_error_last acceptAll {}
      [{ Type_ := "message_start" }, { Type_ := "content_block_start" }]).1 {}
      "connection reset" rfl with
  | ⟨evs, last, h, h2, h3, _⟩ => ⟨evs, last, h, h2, h3⟩

/-! ### The sampling temperature: claim C18 -/

/-- C18: for a non-empty history the temperature chosen by the Anthropic `StreamResponse` is
1 exactly when the last message has role User and its lower-cased content contains the
substring `"think"`, and 0 otherwise; it is a function of the history, so equal histories
give equal temperatures. -/
theorem temperature_spec (ToLower : String → String) (messages : List Message)
    (hne : messages ≠ []) :
    (anthropicProvider.temperature ToLower messages = .ok 1 ↔
      ((messages.getLast hne).Role = .User ∧
        ∃ pre post, (ToLower (messages.getLast hne).Content).data
          = pre ++ "think".data ++ post)) ∧
    (anthropicProvider.temperature ToLower messages = .ok 0 ↔
      ¬ ((messages.getLast hne).Role = .User ∧
        ∃ pre post, (ToLower (messages.getLast hne).Content).data
          = pre ++ "think".data ++ post)) ∧
    (∀ other, other = messages →
      anthropicProvider.temperature ToLower other
        = anthropicProvider.temperature ToLower messages) := by
  have hc : ∀ s : String, strings.Contains s "think" = true ↔
      ∃ pre post, s.data = pre ++ "think".data ++ post := by
    intro s
    unfold strings.Contains
    rw [decide_eq_true_iff]
    constructor
    · rintro ⟨pre, post, h⟩; exact ⟨pre, post, h.symm⟩
    · rintro ⟨pre, post, h⟩; exact ⟨pre, post, h.symm⟩
  have hlast : messages.getLast? = some (messages.getLast hne) := List.getLast?_eq_getLast _ hne
  have ht : anthropicProvider.temperature ToLower messages =
      if (messages.getLast hne).Role = .User ∧
          strings.Contains (ToLower (messages.getLast hne).Content) "think" = true
      then .ok 1 else .ok 0 := by
    unfold anthropicProvider.temperature
    rw [hlast]
  refine ⟨?_, ?_, fun other h => by rw [h]⟩
  · rw [ht, ← hc]
    split <;> simp_all
  · rw [ht, ← hc]
    split <;> simp_all

/-- Witness of C18: a User message that asks to think gives the temperature 1 (with a
lower-casing that leaves the already lower-case text as it is). -/
theorem temperature_spec_witness :
    anthropicProvider.temperature (fun t => t)
      [{ ID := "msg-0", SessionID := "s1", Role := .User, Content := "please think hard",
         Thinking := "", ToolCalls := [], ToolResults := [], Finished := false }] = .ok 1 :=
  ((temperature_spec (fun t => t)
    [{ ID := "msg-0", SessionID := "s1", Role := .User, Content := "please think hard",
       Thinking := "", ToolCalls := [], ToolResults := [], Finished := false }]
    (by simp)).1).2 ⟨rfl, "please ".data, " hard".data, by decide⟩

/-! ### Construction of the agent: claim C15 -/

theorem buildPair_cases (build : ProviderOptions → Except Err BuiltProvider)
    (agentOptions titleOptions : ProviderOptions) :
    (∃ err, buildPair build agentOptions titleOptions = (none, none, some err)) ∨
    (∃ agentProvider titleGenerator,
      buildPair build agentOptions titleOptions
        = (some agentProvider, some titleGenerator, none)) := by
  unfold buildPair
  cases build agentOptions with
  | error err => exact Or.inl ⟨err, rfl⟩
  | ok agentProvider =>
    cases build titleOptions with
    | error err => exact Or.inl ⟨err, rfl⟩
    | ok titleGenerator => exact Or.inr ⟨agentProvider, titleGenerator, rfl⟩

theorem mem_of_lookup {α : Type} (supported : List (String × α)) (id : String) (x : α)
    (h : supported.lookup id = some x) : (id, x) ∈ supported := by
  induction supported with
  | nil => simp [List.lookup] at h
  | cons entry rest ih =>
    obtain ⟨k, v⟩ := entry
    by_cases hk : id = k
    · subst hk
      simp only [List.lookup, beq_self_eq_true, Option.some.injEq] at h
      subst h
      exact List.mem_cons_self _ _
    · have hb : (id == k) = false := by simpa using hk
      simp only [List.lookup, hb] at h
      exact List.mem_cons_of_mem _ (ih h)

/-- For a model of one of the four kinds, `getAgentProviders` returns an error and no provider,
or both providers and no error. -/
theorem getAgentProviders_cases (cfg : config.Config) (b : Builders) (model : Model)
    (hkind : model.Provider = ProviderOpenAI ∨ model.Provider = ProviderAnthropic ∨
      model.Provider = ProviderGemini ∨ model.Provider = ProviderGROQ) :
    (∃ err, getAgentProviders cfg b model = (none, none, some err)) ∨
    (∃ agentProvider titleGenerator,
      getAgentProviders cfg b model = (some agentProvider, some titleGenerator, none)) := by
  unfold getAgentProviders
  simp only []
  cases cfg.Providers.lookup model.Provider with
  | none => exact Or.inl ⟨_, rfl⟩
  | some providerConfig =>
    simp only []
    split
    · exact Or.inl ⟨_, rfl⟩
    · split
      · exact buildPair_cases _ _ _
      · split
        · exact buildPair_cases _ _ _
        · split
          · exact buildPair_cases _ _ _
          · split
            · exact buildPair_cases _ _ _
            · rcases hkind with h | h | h | h <;> contradiction

/-- C15: `NewTaskAgent` returns a non-nil error and no agent when the coder model is not in the
table of supported models, when the provider of the model is missing from the provider map, and
when it is not enabled. Over a table all of whose models are served by one of the four kinds of
provider which the sources name, and for which `getAgentProviders` has a case, no model of the
table has a provider of another kind, and `NewTaskAgent` returns either a non-nil error and no
agent, or a nil error and an agent both of whose providers are non-nil: no agent with a nil
provider is returned. The table is not among the sources. -/
theorem NewTaskAgent_fails_fast (cfg : config.Config) (supported : List (String × Model))
    (b : Builders) :
    (supported.lookup cfg.Coder = none →
      NewTaskAgent cfg supported b = (none, some "model not supported")) ∧
    (∀ model, supported.lookup cfg.Coder = some model →
      cfg.Providers.lookup model.Provider = none →
      NewTaskAgent cfg supported b = (none, some "provider is not enabled")) ∧
    (∀ model providerConfig, supported.lookup cfg.Coder = some model →
      cfg.Providers.lookup model.Provider = some providerConfig →
      providerConfig.Enabled = false →
      NewTaskAgent cfg supported b = (none, some "provider is not enabled")) ∧
    (kindsNamed supported →
      (∀ model, supported.lookup cfg.Coder = some model →
        ¬ (model.Provider = ProviderOpenAI ∨ model.Provider = ProviderAnthropic ∨
          model.Provider = ProviderGemini ∨ model.Provider = ProviderGROQ) →
        ∃ err, NewTaskAgent cfg supported b = (none, some err)) ∧
      ((∃ err, NewTaskAgent cfg supported b = (none, some err)) ∨
        (∃ a agentProvider titleGenerator,
          NewTaskAgent cfg supported b = (some a, none) ∧
          a.agent = some agentProvider ∧ a.titleGenerator = some titleGenerator))) := by
  refine ⟨?_, ?_, ?_, ?_⟩
  · intro h
    unfold NewTaskAgent
    rw [h]
  · intro model h hp
    unfold NewTaskAgent
    rw [h]
    simp only []
    unfold getAgentProviders
    simp only []
    rw [hp]
  · intro model providerConfig h hp hen
    unfold NewTaskAgent
    rw [h]
    simp only []
    unfold getAgentProviders
    simp only []
    rw [hp]
    simp only []
    rw [if_pos hen]
  · intro hk
    constructor
    · intro model h hno
      exact absurd (hk _ (mem_of_lookup _ _ _ h)) hno
    · unfold NewTaskAgent
      cases h : supported.lookup cfg.Coder with
      | none => exact Or.inl ⟨_, rfl⟩
      | some model =>
        simp only []
        rcases getAgentProviders_cases cfg b model (hk _ (mem_of_lookup _ _ _ h)) with
          ⟨err, he⟩ | ⟨agentProvider, titleGenerator, he⟩
        · rw [he]
          exact Or.inl ⟨err, rfl⟩
        · rw [he]
          exact Or.inr ⟨_, agentProvider, titleGenerator, rfl, rfl, rfl⟩

/-- Witness of C15: over a table with one Anthropic model, a configuration that does not enable
the Anthropic provider gets an error and no agent, and one that enables it gets an agent with
both providers. -/
theorem NewTaskAgent_fails_fast_witness :
    NewTaskAgent (claudeConfig false) claudeTable plainBuilders
      = (none, some "provider is not enabled") ∧
    ((∃ err, NewTaskAgent (claudeConfig true) claudeTable plainBuilders = (none, some err)) ∨
      (∃ a agentProvider titleGenerator,
        NewTaskAgent (claudeConfig true) claudeTable plainBuilders = (some a, none) ∧
        a.agent = some agentProvider ∧ a.titleGenerator = some titleGenerator)) ∧
    (NewTaskAgent (claudeConfig true) claudeTable plainBuilders).2 = none :=
  ⟨(NewTaskAgent_fails_fast (claudeConfig false) claudeTable plainBuilders).2.2.1 _
      { APIKey := "key", Enabled := false } rfl rfl rfl,
    ((NewTaskAgent_fails_fast (claudeConfig true) claudeTable plainBuilders).2.2.2
      (by decide)).2,
    by decide⟩

/-! ### Tool lookup: claim C23 -/

/-- The lookup loop on a tool set that holds a tool of the requested name: it runs the first
such tool, once, and its outcome is the outcome of that run. -/
theorem lookup_first_match (toolCall : ToolCall) (tls : List tools.BaseTool) (k0 : Nat)
    (h : ∃ tool ∈ tls, tool.Name = toolCall.Name) :
    ∃ k tool, tls[k]? = some tool ∧ tool.Name = toolCall.Name ∧
      (∀ j t, j < k → tls[j]? = some t → t.Name ≠ toolCall.Name) ∧
      lookupRuns toolCall k0 tls
        = [(k0 + k, { ID := toolCall.ID, Name := toolCall.Name, Input := toolCall.Input })] ∧
      tls.find? (fun t => decide (t.Name = toolCall.Name)) = some tool := by
  induction tls generalizing k0 with
  | nil => simp at h
  | cons t rest ih =>
    by_cases ht : t.Name = toolCall.Name
    · refine ⟨0, t, by simp, ht, ?_, ?_, ?_⟩
      · intro j t1 hj; omega
      · simp [lookupRuns, ht]
      · simp [List.find?_cons, ht]
    · have hrest : ∃ tool ∈ rest, tool.Name = toolCall.Name := by
        obtain ⟨tool, hmem, hname⟩ := h
        rcases List.mem_cons.1 hmem with heq | hm
        · subst heq; exact absurd hname ht
        · exact ⟨tool, hm, hname⟩
      obtain ⟨k, tool, h1, h2, h3, h4, h5⟩ := ih (k0 + 1) hrest
      refine ⟨k + 1, tool, by simpa using h1, h2, ?_, ?_, ?_⟩
      · intro j t1 hj hget
        cases j with
        | zero =>
          simp only [List.getElem?_cons_zero, Option.some.injEq] at hget
          subst hget; exact ht
        | succ j =>
          simp only [List.getElem?_cons_succ] at hget
          exact h3 j t1 (by omega) hget
      · simp only [lookupRuns, ht, if_false]
        rw [h4]
        congr 2
        omega
      · simp only [List.find?_cons, ht, decide_False]
        exact h5

/-- C23: for every call whose name equals the name of at least one tool of the set, the lookup
runs exactly one tool, once: the first tool in set order whose name equals the requested name,
with the call's ID, Name and Input passed unchanged; and when that run returns without error
the result at the call's index carries the call id and the Content and IsError of the tool
response, in every completion order. -/
theorem ExecuteTools_first_match (order : List Nat) (toolCalls : List ToolCall)
    (tls : List tools.BaseTool) (horder : order.Perm (List.range toolCalls.length))
    (i : Nat) (hi : i < toolCalls.length)
    (hsome : ∃ tool ∈ tls, tool.Name = toolCalls[i].Name) :
    ∃ k tool, tls[k]? = some tool ∧ tool.Name = toolCalls[i].Name ∧
      (∀ j t, j < k → tls[j]? = some t → t.Name ≠ toolCalls[i].Name) ∧
      lookupRuns toolCalls[i] 0 tls
        = [(k, { ID := toolCalls[i].ID, Name := toolCalls[i].Name,
                 Input := toolCalls[i].Input })] ∧
      (∀ response,
        tool.Run { ID := toolCalls[i].ID, Name := toolCalls[i].Name,
                   Input := toolCalls[i].Input } = .ok response →
        (ExecuteToolsIn order toolCalls tls).1[i]? =
          some { ToolCallID := toolCalls[i].ID, Content := response.Content,
                 IsError := response.IsError }) := by
  obtain ⟨k, tool, h1, h2, h3, h4, h5⟩ := lookup_first_match toolCalls[i] tls 0 hsome
  refine ⟨k, tool, h1, h2, h3, by simpa using h4, ?_⟩
  intro response hrun
  rw [ExecuteToolsIn_eq_map order toolCalls tls (mem_of_perm_range horder)]
  simp [hi, runToolCall, lookupAndRun_found _ _ _ h5, hrun]

/-- Witness of C23: two tools named `"ls"` behind a tool named `"grep"`; one tool of that name
is run, once. -/
theorem ExecuteTools_first_match_witness :
    ∃ k tool,
      ([⟨"grep", fun _ => .ok ⟨"g", false⟩⟩, lsTool, ⟨"ls", fun _ => .error "second"⟩] :
        List tools.BaseTool)[k]? = some tool ∧
      tool.Name = "ls" ∧
      lookupRuns scenarioCall 0
          [⟨"grep", fun _ => .ok ⟨"g", false⟩⟩, lsTool, ⟨"ls", fun _ => .error "second"⟩]
        = [(k, { ID := "tc1", Name := "ls", Input := "\x7b\x7d" })] :=
  match ExecuteTools_first_match [0] [scenarioCall]
      [⟨"grep", fun _ => .ok ⟨"g", false⟩⟩, lsTool, ⟨"ls", fun _ => .error "second"⟩]
      (by decide) 0 (by decide) ⟨lsTool, by simp, rfl⟩ with
  | ⟨k, tool, h1, h2, _, h4, _⟩ => ⟨k, tool, h1, h2, h4⟩

/-! ### Every way through a pass -/

theorem folds_idle (id : String) (a : Action) (h : Action.folds id a) : Action.idle a := by
  cases a <;> simp_all [Action.folds, Action.idle]

/-- The log of a pass that has consumed its stream. -/
theorem loopBody_log_of_consumed (env : Env) (w : World) (sessionID : String)
    (messages : List Message) (events : List ProviderEvent) (w1 : World) (a0 : Message)
    (w2 : World) (a1 : Message) (w3 : World)
    (hs : StreamResponse env w messages = (.ok events, w1))
    (hc : Messages.Create env w1 sessionID { Role := .Assistant, Content := "" } = (.ok a0, w2))
    (hcons : consumeEvents env sessionID w2 a0 events = (.ok (), a1, w3)) :
    ∃ ext, w3.log = w2.log ++ ext ∧ (∀ a ∈ ext, Action.folds a0.ID a) ∧
      (loopBody env w sessionID messages).2.2.log =
        w.log ++ [.StreamResponse messages,
          .MessagesCreate sessionID { Role := .Assistant, Content := "" }]
        ++ ext ++
        (if a1.ToolCalls = [] then []
         else [.ExecuteTools a1.ToolCalls,
               .MessagesCreate a1.SessionID
                 { Role := .Tool, ToolResults := (ExecuteTools a1.ToolCalls env.tools).1 }])
        ++ [.MessagesUpdate { a1 with Finished := true }] := by
  have hsnd := loopBody_snd_of_consumed _ _ _ _ _ _ _ _ _ _ hs hc hcons
  have hfin0 : a0.Finished = false := (Messages_Create_ok _ _ _ _ _ _ hc).2.2.2.2.2.2.1
  have hce := consumeEvents_ext env sessionID events w2 a0 hfin0
  rw [hcons] at hce
  simp only at hce
  obtain ⟨⟨ext, hl, hq⟩, -⟩ := hce.2.1 (by intro e; simp)
  have hsl := StreamResponse_log env w messages
  rw [hs] at hsl
  have hcl := Messages_Create_log env w1 sessionID { Role := .Assistant, Content := "" }
  rw [hc] at hcl
  simp only at hsl hcl
  refine ⟨ext, hl, hq, ?_⟩
  rw [hsnd]
  simp only
  rw [Messages_Update_log, handleToolExecution_log, hl, hcl, hsl]
  simp

/-- Every pass either has consumed its stream, or it ends `generate` after calls that neither
dispatch tools nor create a Tool message. -/
theorem loopBody_cases (env : Env) (w : World) (sessionID : String) (messages : List Message) :
    (∃ ext, (loopBody env w sessionID messages).2.2.log
          = w.log ++ [.StreamResponse messages] ++ ext ∧
        (∀ a ∈ ext, Action.idle a) ∧
        ∀ ms, (loopBody env w sessionID messages).1 ≠ .next ms) ∨
    (∃ events w1 a0 w2 a1 w3,
      StreamResponse env w messages = (.ok events, w1) ∧
      Messages.Create env w1 sessionID { Role := .Assistant, Content := "" } = (.ok a0, w2) ∧
      consumeEvents env sessionID w2 a0 events = (.ok (), a1, w3)) := by
  have hsl := StreamResponse_log env w messages
  rcases hs : StreamResponse env w messages with ⟨sr, w1⟩
  rw [hs] at hsl
  simp only at hsl
  cases sr with
  | error e =>
    left
    unfold loopBody
    rw [hs]
    exact ⟨[], by simpa using hsl, by simp, by intro ms; simp⟩
  | ok events =>
    have hcl := Messages_Create_log env w1 sessionID { Role := .Assistant, Content := "" }
    rcases hc : Messages.Create env w1 sessionID { Role := .Assistant, Content := "" }
      with ⟨cr, w2⟩
    rw [hc] at hcl
    simp only at hcl
    cases cr with
    | error e =>
      left
      unfold loopBody
      rw [hs]
      simp only []
      rw [hc]
      refine ⟨[.MessagesCreate sessionID { Role := .Assistant, Content := "" }], ?_, ?_, ?_⟩
      · simp only; rw [hcl, hsl]
      · simp [Action.idle]
      · intro ms; simp
    | ok a0 =>
      have hfin0 : a0.Finished = false := (Messages_Create_ok _ _ _ _ _ _ hc).2.2.2.2.2.2.1
      have hce := consumeEvents_ext env sessionID events w2 a0 hfin0
      rcases hcons : consumeEvents env sessionID w2 a0 events with ⟨r, a1, w3⟩
      rw [hcons] at hce
      simp only at hce
      obtain ⟨-, hok, herr⟩ := hce
      cases r with
      | ok u => cases u; right; exact ⟨events, w1, a0, w2, a1, w3, rfl, hc, hcons⟩
      | err e =>
        left
        obtain ⟨-, ext, hl, hq⟩ := herr e rfl
        unfold loopBody
        rw [hs]
        simp only []
        rw [hc]
        simp only []
        rw [hcons]
        refine ⟨[.MessagesCreate sessionID { Role := .Assistant, Content := "" }] ++ ext
          ++ [.MessagesUpdate a1], ?_, ?_, ?_⟩
        · simp only; rw [hl, hcl, hsl]; simp
        · intro a ha
          simp only [List.mem_append, List.mem_singleton] at ha
          rcases ha with (rfl | hm) | rfl
          · simp [Action.idle]
          · exact folds_idle _ _ (hq a hm)
          · simp [Action.idle]
        · intro ms; simp
      | panic =>
        left
        obtain ⟨⟨ext, hl, hq⟩, -⟩ := hok (by intro e; simp)
        unfold loopBody
        rw [hs]
        simp only []
        rw [hc]
        simp only []
        rw [hcons]
        refine ⟨[.MessagesCreate sessionID { Role := .Assistant, Content := "" }] ++ ext, ?_, ?_, ?_⟩
        · simp only; rw [hl, hcl, hsl]; simp
        · intro a ha
          simp only [List.mem_append, List.mem_singleton] at ha
          rcases ha with rfl | hm
          · simp [Action.idle]
          · exact folds_idle _ _ (hq a hm)
        · intro ms; simp

/-! ### The last update of the Assistant message -/

theorem TrackUsage_tracks (env : Env) (w : World) (sessionID : String) (model : Model)
    (usage : TokenUsage) :
    Extends Action.tracks w (TrackUsage env w sessionID model usage).2 := by
  obtain ⟨e1, hl1, hq1⟩ := TrackUsage_ext env w sessionID model usage "a"
  obtain ⟨e2, hl2, hq2⟩ := TrackUsage_ext env w sessionID model usage "b"
  have he : e2 = e1 := List.append_cancel_left (hl2.symm.trans hl1)
  subst he
  refine ⟨e2, hl1, ?_⟩
  intro a ha
  have h1 := hq1 a ha
  have h2 := hq2 a ha
  cases a with
  | MessagesUpdate msg =>
    simp only [Action.folds] at h1 h2
    exact absurd (h1.1.symm.trans h2.1) (by decide)
  | SessionsGet _ => trivial
  | SessionsSave _ => trivial
  | Publish _ _ => trivial
  | _ => simp [Action.folds] at h1

/-- When `processEvent` changes the Assistant message it calls `Messages.Update` with the
changed message and then only tracks usage; otherwise it makes no call. -/
theorem processEvent_updated (env : Env) (w : World) (sessionID : String) (m : Message)
    (e : ProviderEvent) (ext : List Action)
    (hl : (processEvent env w sessionID m e).2.2.log = w.log ++ ext) :
    ((processEvent env w sessionID m e).2.1 = m ∧ ext = []) ∨
    ∃ tail, ext = .MessagesUpdate (processEvent env w sessionID m e).2.1 :: tail ∧
      ∀ a ∈ tail, Action.tracks a := by
  by_cases h1 : e.Type_ = EventThinkingDelta
  · rw [processEvent_thinking _ _ _ _ _ h1] at hl ⊢
    simp only [Messages_Update_log] at hl
    right
    exact ⟨[], (List.append_cancel_left hl).symm, by simp⟩
  · by_cases h2 : e.Type_ = EventContentDelta
    · rw [processEvent_content _ _ _ _ _ h2] at hl ⊢
      simp only [Messages_Update_log] at hl
      right
      exact ⟨[], (List.append_cancel_left hl).symm, by simp⟩
    · by_cases h3 : e.Type_ = EventError
      · rw [processEvent_error _ _ _ _ _ h3] at hl ⊢
        exact Or.inl ⟨rfl, (List.append_cancel_left (hl.symm.trans (List.append_nil _).symm))⟩
      · by_cases h4 : e.Type_ = EventComplete
        · rw [processEvent_complete _ _ _ _ _ h4] at hl ⊢
          cases hr : e.Response with
          | none =>
            rw [hr] at hl
            exact Or.inl
              ⟨rfl, (List.append_cancel_left (hl.symm.trans (List.append_nil _).symm))⟩
          | some response =>
            rw [hr] at hl
            simp only [] at hl ⊢
            have hu := Messages_Update_log env w { m with ToolCalls := response.ToolCalls }
            rcases hup : Messages.Update env w { m with ToolCalls := response.ToolCalls }
              with ⟨err, w1⟩
            rw [hup] at hl hu
            simp only at hu
            cases err with
            | some err =>
              simp only [] at hl ⊢
              right
              rw [hu] at hl
              exact ⟨[], (List.append_cancel_left hl).symm, by simp⟩
            | none =>
              simp only [] at hl ⊢
              right
              obtain ⟨e2, hl2, hq2⟩ :=
                TrackUsage_tracks env w1 sessionID env.model response.Usage
              rw [hl2, hu, List.append_assoc] at hl
              exact ⟨e2, (List.append_cancel_left hl).symm, hq2⟩
        · rw [processEvent_other _ _ _ _ _ h1 h2 h3 h4] at hl ⊢
          exact Or.inl ⟨rfl, (List.append_cancel_left (hl.symm.trans (List.append_nil _).symm))⟩

/-- When the events have been folded without failure, the message is the one the pass started
with and no call has been made, or the last update the pass has made is the update of that
message and only calls of usage tracking follow it. -/
theorem consumeEvents_updated (env : Env) (sessionID : String) (events : List ProviderEvent)
    (w : World) (m : Message) (m2 : Message) (w2 : World) (ext : List Action)
    (hfin : m.Finished = false)
    (h : consumeEvents env sessionID w m events = (.ok (), m2, w2))
    (hl : w2.log = w.log ++ ext) :
    (m2 = m ∧ ext = []) ∨
    ∃ before tail, ext = before ++ .MessagesUpdate m2 :: tail ∧ ∀ a ∈ tail, Action.tracks a := by
  induction events generalizing w m ext with
  | nil =>
    simp only [consumeEvents, Prod.mk.injEq] at h
    refine Or.inl ⟨h.2.1.symm, ?_⟩
    rw [← h.2.2] at hl
    exact List.append_cancel_left (hl.symm.trans (List.append_nil _).symm)
  | cons ev rest ih =>
    obtain ⟨m1, w1, hp, hrest⟩ := consumeEvents_ok_cons_inv _ _ _ _ _ _ _ _ h
    have hx := processEvent_ext env w sessionID m ev hfin
    have hf := processEvent_fields env w sessionID m ev
    rw [hp] at hx hf
    simp only at hx hf
    obtain ⟨e1, hl1, -⟩ := hx
    have hfin1 : m1.Finished = false := hf.2.2.2.2.2.trans hfin
    have hce := consumeEvents_ext env sessionID rest w1 m1 hfin1
    rw [hrest] at hce
    simp only at hce
    obtain ⟨⟨e2, hl2, -⟩, -⟩ := hce.2.1 (by intro e; simp)
    have hext : ext = e1 ++ e2 := by
      rw [hl2, hl1, List.append_assoc] at hl
      exact (List.append_cancel_left hl).symm
    have hu := processEvent_updated env w sessionID m ev e1 (by rw [hp]; exact hl1)
    rw [hp] at hu
    simp only at hu
    rcases ih w1 m1 e2 hfin1 hrest hl2 with ⟨h2, h2e⟩ | ⟨before, tail, h2, h2t⟩
    · rcases hu with ⟨h1, h1e⟩ | ⟨tail, h1, h1t⟩
      · exact Or.inl ⟨h2.trans h1, by rw [hext, h1e, h2e]; rfl⟩
      · right
        refine ⟨[], tail, ?_, h1t⟩
        rw [hext, h2e, h1, h2]
        simp
    · right
      refine ⟨e1 ++ before, tail, ?_, h2t⟩
      rw [hext, h2]
      simp

/-- Two ways to split a list at an element that occurs at one place only are the same. -/
theorem split_unique {α : Type} (x y : α) (p1 q1 p2 q2 : List α)
    (h : p1 ++ y :: q1 = p2 ++ x :: q2) (h1 : x ∉ p1) (h2 : x ∉ q1) :
    p2 = p1 ∧ x = y ∧ q2 = q1 := by
  induction p1 generalizing p2 with
  | nil =>
    cases p2 with
    | nil =>
      simp only [List.nil_append, List.cons.injEq] at h
      exact ⟨rfl, h.1.symm, h.2.symm⟩
    | cons b p2 =>
      simp only [List.nil_append, List.cons_append, List.cons.injEq] at h
      exact absurd (by rw [h.2]; simp) h2
  | cons a p1 ih =>
    cases p2 with
    | nil =>
      simp only [List.nil_append, List.cons_append, List.cons.injEq] at h
      exact absurd (by rw [h.1]; simp) h1
    | cons b p2 =>
      simp only [List.cons_append, List.cons.injEq] at h
      obtain ⟨i1, i2, i3⟩ := ih p2 h.2 (fun hm => h1 (List.mem_cons_of_mem _ hm))
      exact ⟨by rw [h.1, i1], i2, i3⟩

/-! ### Properties of the whole log of a run -/

/-- A property of call sequences that holds of the calls of every pass started with a history
satisfying `I`, where `I` passes on to the next history, holds of the calls of the loop. -/
theorem generateLoop_log_induct (env : Env) (sessionID : String) (P : List Action → Prop)
    (I : List Message → Prop)
    (happ : ∀ l1 l2, P l1 → P l2 → P (l1 ++ l2))
    (hpass : ∀ w messages, I messages →
      ∃ ext, (loopBody env w sessionID messages).2.2.log = w.log ++ ext ∧ P ext ∧
        ∀ ms, (loopBody env w sessionID messages).1 = .next ms → I ms)
    (fuel : Nat) (w : World) (messages : List Message) (r : Result Unit) (w1 : World)
    (hI : I messages)
    (h : generateLoop env sessionID fuel w messages = some (r, w1)) :
    ∃ ext, w1.log = w.log ++ ext ∧ P ext := by
  induction fuel generalizing w messages with
  | zero => simp [generateLoop] at h
  | succ n ih =>
    rw [generateLoop_succ] at h
    obtain ⟨e1, hl1, hp1, hnext⟩ := hpass w messages hI
    split at h
    · simp only [Option.some.injEq, Prod.mk.injEq] at h
      rw [← h.2]
      exact ⟨e1, hl1, hp1⟩
    · next ms heq =>
      obtain ⟨e2, hl2, hp2⟩ := ih _ _ (hnext ms heq) h
      exact ⟨e1 ++ e2, by rw [hl2, hl1, List.append_assoc], happ _ _ hp1 hp2⟩

/-- The calls `generate` makes before its loop, and the history the loop starts with. -/
theorem generate_opening (env : Env) (fuel : Nat) (w : World) (sessionID content : String) :
    (∃ e w1 pre, generate env fuel w sessionID content = some (.err e, w1) ∧
      w1.log = w.log ++ pre ∧ ∀ a ∈ pre, Action.opens a) ∨
    (∃ msgs w1 user w3 pre,
      Messages.List env w sessionID = (.ok msgs, w1) ∧
      Messages.Create env
          (if msgs.length = 0 then w1.record (.TitleGeneration sessionID content) else w1)
          sessionID { Role := .User, Content := content } = (.ok user, w3) ∧
      generate env fuel w sessionID content
        = generateLoop env sessionID fuel w3 (msgs ++ [user]) ∧
      w3.log = w.log ++ pre ∧ ∀ a ∈ pre, Action.opens a) := by
  have hll := Messages_List_log env w sessionID
  rcases hl : Messages.List env w sessionID with ⟨lr, w1⟩
  rw [hl] at hll
  simp only at hll
  cases lr with
  | error e =>
    left
    refine ⟨e, w1, [.MessagesList sessionID], ?_, hll, by simp [Action.opens]⟩
    unfold generate
    rw [hl]
  | ok msgs =>
    have hcl := Messages_Create_log env
      (if msgs.length = 0 then w1.record (.TitleGeneration sessionID content) else w1)
      sessionID { Role := .User, Content := content }
    have h2 : ∃ t, (if msgs.length = 0 then w1.record (.TitleGeneration sessionID content)
        else w1).log = w1.log ++ t ∧ ∀ a ∈ t, Action.opens a := by
      split
      · exact ⟨[.TitleGeneration sessionID content], rfl, by simp [Action.opens]⟩
      · exact ⟨[], by simp, by simp⟩
    obtain ⟨t, ht, hto⟩ := h2
    rcases hc : Messages.Create env
      (if msgs.length = 0 then w1.record (.TitleGeneration sessionID content) else w1)
      sessionID { Role := .User, Content := content } with ⟨cr, w3⟩
    rw [hc] at hcl
    simp only at hcl
    have hlog : w3.log = w.log ++ ([.MessagesList sessionID] ++ t ++
        [.MessagesCreate sessionID { Role := .User, Content := content }]) := by
      rw [hcl, ht, hll]; simp
    have hopens : ∀ a ∈ [Action.MessagesList sessionID] ++ t ++
        [.MessagesCreate sessionID { Role := .User, Content := content }],
        Action.opens a := by
      intro a ha
      simp only [List.mem_append, List.mem_singleton] at ha
      rcases ha with (rfl | hm) | rfl
      · trivial
      · exact hto a hm
      · simp [Action.opens]
    cases cr with
    | error e =>
      left
      refine ⟨e, w3, _, ?_, hlog, hopens⟩
      unfold generate
      rw [hl]
      simp only []
      rw [hc]
    | ok user =>
      right
      refine ⟨msgs, w1, user, w3, _, rfl, hc, ?_, hlog, hopens⟩
      unfold generate
      rw [hl]
      simp only []
      rw [hc]

/-- A property of call sequences that holds of the opening calls and of the calls of every
pass holds of the calls of every run of `generate` that returns. -/
theorem generate_log_induct (env : Env) (sessionID content : String)
    (P : List Action → Prop) (I : List Message → Prop)
    (happ : ∀ l1 l2, P l1 → P l2 → P (l1 ++ l2))
    (hopen : ∀ pre, (∀ a ∈ pre, Action.opens a) → P pre)
    (hinit : ∀ msgs user, user.Role = .User → user.Content = content →
      user.SessionID = sessionID → I (msgs ++ [user]))
    (hpass : ∀ w messages, I messages →
      ∃ ext, (loopBody env w sessionID messages).2.2.log = w.log ++ ext ∧ P ext ∧
        ∀ ms, (loopBody env w sessionID messages).1 = .next ms → I ms)
    (fuel : Nat) (w : World) (r : Result Unit) (w1 : World)
    (h : generate env fuel w sessionID content = some (r, w1)) :
    ∃ ext, w1.log = w.log ++ ext ∧ P ext := by
  rcases generate_opening env fuel w sessionID content with
    ⟨e, w2, pre, hg, hl, ho⟩ | ⟨msgs, w2, user, w3, pre, -, hc, hg, hl, ho⟩
  · rw [hg] at h
    simp only [Option.some.injEq, Prod.mk.injEq] at h
    rw [← h.2]
    exact ⟨pre, hl, hopen pre ho⟩
  · rw [hg] at h
    obtain ⟨hu1, hu2, hu3, -⟩ := Messages_Create_ok _ _ _ _ _ _ hc
    obtain ⟨e2, hl2, hp2⟩ := generateLoop_log_induct env sessionID P I happ hpass fuel w3
      (msgs ++ [user]) r w1 (hinit msgs user hu2 hu3 hu1) h
    exact ⟨pre ++ e2, by rw [hl2, hl, List.append_assoc], happ _ _ (hopen pre ho) hp2⟩

/-! ### Tool messages and the Assistant message before them: claim C21 -/

theorem ToolPaired_of_none (tls : List tools.BaseTool) (sessionID : String) (l : List Action)
    (h : ∀ sid params, Action.MessagesCreate sid params ∈ l → params.Role ≠ .Tool) :
    ToolPaired tls sessionID l := by
  intro pre post sid params hsplit hrole
  exact absurd hrole (h sid params (by rw [hsplit]; simp))

theorem ToolPaired_append (tls : List tools.BaseTool) (sessionID : String)
    (l1 l2 : List Action) (h1 : ToolPaired tls sessionID l1) (h2 : ToolPaired tls sessionID l2) :
    ToolPaired tls sessionID (l1 ++ l2) := by
  intro pre post sid params hsplit hrole
  rcases List.append_eq_append_iff.1 hsplit with ⟨a, hpre, hl2⟩ | ⟨c, hl1, hpost⟩
  · obtain ⟨hsid, before, m, tail, hp, rest⟩ := h2 a post sid params hl2 hrole
    refine ⟨hsid, l1 ++ before, m, tail, ?_, rest⟩
    rw [hpre, hp]
    simp
  · cases c with
    | nil =>
      simp only [List.nil_append, List.append_nil] at hpost hl1
      obtain ⟨hsid, before, m, tail, hp, rest⟩ := h2 [] post sid params (by simpa using hpost.symm) hrole
      exact absurd hp (by simp)
    | cons x c =>
      simp only [List.cons_append, List.cons.injEq] at hpost
      exact h1 pre c sid params (by rw [hl1, hpost.1]) hrole

theorem ExecuteTools_results (toolCalls : List ToolCall) (tls : List tools.BaseTool) :
    (ExecuteTools toolCalls tls).1.length = toolCalls.length ∧
    (ExecuteTools toolCalls tls).1.map ToolResult.ToolCallID = toolCalls.map ToolCall.ID := by
  rw [ExecuteTools, ExecuteToolsIn_eq_map _ toolCalls tls (fun i hi => List.mem_range.2 hi)]
  refine ⟨by simp, ?_⟩
  simp only [List.map_map]
  rfl

/-- The calls of one pass pair every creation of a Tool message with the Assistant message of
the pass. -/
theorem loopBody_paired (env : Env) (w : World) (sessionID : String) (messages : List Message) :
    ∃ ext, (loopBody env w sessionID messages).2.2.log = w.log ++ ext ∧
      ToolPaired env.tools sessionID ext := by
  rcases loopBody_cases env w sessionID messages with
    ⟨ext, hl, hidle, -⟩ | ⟨events, w1, a0, w2, a1, w3, hs, hc, hcons⟩
  · refine ⟨[.StreamResponse messages] ++ ext, by rw [hl, List.append_assoc], ?_⟩
    apply ToolPaired_of_none
    intro sid params hm hrole
    simp only [List.mem_append, List.mem_singleton] at hm
    rcases hm with hm | hm
    · cases hm
    · have := hidle _ hm
      simp only [Action.idle] at this
      rw [this] at hrole
      cases hrole
  · obtain ⟨ext, hl3, hfold, hlog⟩ :=
      loopBody_log_of_consumed _ _ _ _ _ _ _ _ _ _ hs hc hcons
    obtain ⟨hsid0, hrole0, -, -, htc0, -, hfin0, -⟩ := Messages_Create_ok _ _ _ _ _ _ hc
    obtain ⟨-, -, -, hsid1, hrole1, hfin1⟩ := consumeEvents_fields _ _ _ _ _ _ _ hcons
    have hnofold : ∀ sid params, Action.MessagesCreate sid params ∉ ext := by
      intro sid params hm
      exact hfold _ hm
    by_cases hnil : a1.ToolCalls = []
    · rw [if_pos hnil] at hlog
      refine ⟨[.StreamResponse messages,
          .MessagesCreate sessionID { Role := .Assistant, Content := "" }] ++ ext
          ++ [.MessagesUpdate { a1 with Finished := true }], by rw [hlog]; simp, ?_⟩
      apply ToolPaired_of_none
      intro sid params hm hrole
      simp only [List.mem_append, List.mem_cons, List.mem_singleton, List.not_mem_nil,
        or_false] at hm
      rcases hm with ((hm | hm) | hm) | hm
      · cases hm
      · simp only [Action.MessagesCreate.injEq] at hm
        rw [hm.2] at hrole
        cases hrole
      · exact hnofold _ _ hm
      · cases hm
    · rw [if_neg hnil] at hlog
      refine ⟨([Action.StreamResponse messages,
            .MessagesCreate sessionID { Role := .Assistant, Content := "" }] ++ ext
            ++ [.ExecuteTools a1.ToolCalls]) ++
          Action.MessagesCreate a1.SessionID
            { Role := .Tool, ToolResults := (ExecuteTools a1.ToolCalls env.tools).1 } ::
          [.MessagesUpdate { a1 with Finished := true }], by rw [hlog]; simp, ?_⟩
      intro pre post sid params hsplit hrole
      obtain ⟨hpre, hx, -⟩ := split_unique _ _ _ _ _ _ hsplit
        (by
          intro hm
          simp only [List.mem_append, List.mem_cons, List.mem_singleton, List.not_mem_nil,
            or_false] at hm
          rcases hm with ((hm | hm) | hm) | hm
          · cases hm
          · simp only [Action.MessagesCreate.injEq] at hm
            rw [hm.2] at hrole
            cases hrole
          · exact hnofold _ _ hm
          · cases hm)
        (by simp)
      simp only [Action.MessagesCreate.injEq] at hx
      obtain ⟨hx1, hx2⟩ := hx
      have hres := ExecuteTools_results a1.ToolCalls env.tools
      refine ⟨by rw [hx1, hsid1, hsid0], ?_⟩
      rcases consumeEvents_updated _ _ _ _ _ _ _ ext hfin0 hcons hl3 with
        ⟨heq, -⟩ | ⟨before, tail, hext, htail⟩
      · exact absurd (by rw [heq, htc0]) hnil
      · refine ⟨[.StreamResponse messages,
            .MessagesCreate sessionID { Role := .Assistant, Content := "" }] ++ before,
          a1, tail, ?_, htail, hrole1.trans hrole0, hsid1.trans hsid0, hfin1.trans hfin0,
          ?_, ?_, ?_⟩
        · rw [hpre, hext]; simp
        · rw [hx2]
        · rw [hx2]; exact hres.1
        · rw [hx2]; exact hres.2

theorem drop_log {α : Type} (l ext : List α) : (l ++ ext).drop l.length = ext := by simp

/-- C21: every creation of a Tool message that `generate` makes, in any pass of its loop and so
in any run that returns, is in the session of the run and follows at once the dispatch of the
tool calls of the Assistant message completed immediately before it: the last message update
before the dispatch is the update of that Assistant message of the same session, still
unfinished, with only usage tracking between; the Tool message carries the results of that
dispatch, exactly one for each tool call of the Assistant message, in the same order, each
with the identifier of its call. -/
theorem generate_tool_results (env : Env) (sessionID : String) :
    (∀ w messages, ToolPaired env.tools sessionID
      ((loopBody env w sessionID messages).2.2.log.drop w.log.length)) ∧
    (∀ fuel w content r w1, generate env fuel w sessionID content = some (r, w1) →
      ToolPaired env.tools sessionID (w1.log.drop w.log.length)) := by
  constructor
  · intro w messages
    obtain ⟨ext, hl, hp⟩ := loopBody_paired env w sessionID messages
    rw [hl, drop_log]
    exact hp
  · intro fuel w content r w1 h
    obtain ⟨ext, hl, hp⟩ := generate_log_induct env sessionID content
      (ToolPaired env.tools sessionID) (fun _ => True) (ToolPaired_append env.tools sessionID)
      (by
        intro pre ho
        apply ToolPaired_of_none
        intro sid params hm hrole
        have := ho _ hm
        simp only [Action.opens] at this
        rw [this] at hrole
        cases hrole)
      (fun _ _ _ _ _ => trivial)
      (fun w messages _ => by
        obtain ⟨ext, hl, hp⟩ := loopBody_paired env w sessionID messages
        exact ⟨ext, hl, hp, fun _ _ => trivial⟩)
      fuel w r w1 h
    rw [hl, drop_log]
    exact hp

/-- Witness of C21: the run of the scenario returns, and the one Tool message it creates
follows the dispatch of the call `tc1` of the first Assistant message and carries the one
result for `tc1`. -/
theorem generate_tool_results_witness :
    ∃ w1, generate scenarioEnv 2 scenarioWorld "s1" "list files" = some (.ok (), w1) ∧
      ToolPaired scenarioEnv.tools "s1" (w1.log.drop scenarioWorld.log.length) ∧
      Action.MessagesCreate "s1"
        { Role := .Tool,
          ToolResults := [{ ToolCallID := "tc1", Content := "a.txt", IsError := false }] }
        ∈ w1.log :=
  ⟨_, rfl, (generate_tool_results scenarioEnv "s1").2 2 scenarioWorld "list files" (.ok ()) _ rfl,
    by decide⟩

/-! ### The history passed to the provider: claim C22 -/

/-- Every pass asks the provider once, first of all its calls, with the history of the pass. -/
theorem loopBody_asks_once (env : Env) (w : World) (sessionID : String)
    (messages : List Message) :
    ∃ ext, (loopBody env w sessionID messages).2.2.log
        = w.log ++ .StreamResponse messages :: ext ∧
      ∀ a ∈ ext, a.isStreamResponse = false := by
  rcases loopBody_cases env w sessionID messages with
    ⟨ext, hl, hidle, -⟩ | ⟨events, w1, a0, w2, a1, w3, hs, hc, hcons⟩
  · refine ⟨ext, by rw [hl]; simp, ?_⟩
    intro a ha
    have := hidle a ha
    cases a <;> simp_all [Action.idle, Action.isStreamResponse]
  · obtain ⟨ext, -, hfold, hlog⟩ := loopBody_log_of_consumed _ _ _ _ _ _ _ _ _ _ hs hc hcons
    refine ⟨[.MessagesCreate sessionID { Role := .Assistant, Content := "" }] ++ ext ++
        (if a1.ToolCalls = [] then []
         else [.ExecuteTools a1.ToolCalls,
               .MessagesCreate a1.SessionID
                 { Role := .Tool, ToolResults := (ExecuteTools a1.ToolCalls env.tools).1 }])
        ++ [.MessagesUpdate { a1 with Finished := true }], by rw [hlog]; simp, ?_⟩
    intro a ha
    simp only [List.mem_append, List.mem_singleton] at ha
    rcases ha with ((rfl | hm) | hm) | rfl
    · rfl
    · have := hfold a hm
      cases a <;> simp_all [Action.folds, Action.isStreamResponse]
    · split at hm
      · cases hm
      · simp only [List.mem_cons, List.mem_singleton, List.not_mem_nil, or_false] at hm
        rcases hm with rfl | rfl <;> rfl
    · rfl

/-- A pass after which the loop goes round again: the next history is the history of the pass
followed by the Assistant message of the pass and by its Tool message. -/
theorem loopBody_next (env : Env) (w : World) (sessionID : String) (messages next : List Message)
    (h : (loopBody env w sessionID messages).1 = .next next) :
    ∃ events asst toolMsg,
      env.stream w.calls messages = .ok events ∧
      (loopBody env w sessionID messages).2.1 = some asst ∧
      next = messages ++ [asst, toolMsg] ∧
      asst.SessionID = sessionID ∧ asst.Role = .Assistant ∧
      asst.Content = contentOf events ∧ asst.Thinking = thinkingOf events ∧
      asst.ToolCalls ≠ [] ∧ asst.Finished = true ∧
      toolMsg.Role = .Tool ∧
      toolMsg.ToolResults = (ExecuteTools asst.ToolCalls env.tools).1 ∧
      ∀ fuel, generateLoop env sessionID (fuel + 1) w messages
        = generateLoop env sessionID fuel (loopBody env w sessionID messages).2.2 next := by
  rcases hb : loopBody env w sessionID messages with ⟨step, a, w5⟩
  rw [hb] at h
  simp only at h
  subst h
  have hok : ∀ r, Step.next next = .exit r → r = .ok () := by intro r hr; cases hr
  obtain ⟨events, w1, a0, w2, a1, w3, hs, hc, hcons⟩ :=
    loopBody_consumed_of_ok _ _ _ _ _ _ _ hb hok
  obtain ⟨asst, ha, hiff, -, -, -, hnext⟩ := loopBody_of_ok _ _ _ _ _ _ _ hb hok
  have hne : asst.ToolCalls ≠ [] := fun hn => by
    have := hiff.2 hn
    cases this
  obtain ⟨toolMsg, hstep, hrole, hres, hloop, -⟩ := hnext hne
  have hsnd := loopBody_snd_of_consumed _ _ _ _ _ _ _ _ _ _ hs hc hcons
  rw [hb] at hsnd
  simp only [Prod.mk.injEq] at hsnd
  have hasst : asst = { a1 with Finished := true } := by
    have := hsnd.1
    rw [ha] at this
    exact Option.some.inj this
  obtain ⟨hsid0, hrole0, hcont0, hth0, -, -, -, -⟩ := Messages_Create_ok _ _ _ _ _ _ hc
  obtain ⟨hcont1, hth1, -, hsid1, hrole1, -⟩ := consumeEvents_fields _ _ _ _ _ _ _ hcons
  have hev : env.stream w.calls messages = .ok events := by
    have := congrArg Prod.fst hs
    exact this
  refine ⟨events, asst, toolMsg, hev, ha, ?_, ?_, ?_, ?_, ?_, hne, ?_, hrole, hres, ?_⟩
  · have := Step.next.inj hstep
    rw [this]; simp
  · rw [hasst]; exact hsid1.trans hsid0
  · rw [hasst]; exact hrole1.trans hrole0
  · rw [hasst]
    show a1.Content = _
    rw [hcont1, hcont0]
    simp
  · rw [hasst]
    show a1.Thinking = _
    rw [hth1, hth0]
    simp
  · rw [hasst]
  · intro fuel
    rw [hloop fuel, Step.next.inj hstep]

/-- C22: the loop of `generate` starts with the stored messages of the session followed by the
new User message; every pass asks the provider exactly once, with the history it was given;
and whenever the loop goes round again, the next history is the history of the pass followed by
the Assistant message of the pass, finished, with its accumulated content and its tool calls,
and then by the Tool message with the results of those calls, two messages more, and this is
the history the provider is asked with next. -/
theorem generate_history_extends (env : Env) (sessionID : String) :
    (∀ fuel w content msgs w1 user w3, Messages.List env w sessionID = (.ok msgs, w1) →
      Messages.Create env
          (if msgs.length = 0 then w1.record (.TitleGeneration sessionID content) else w1)
          sessionID { Role := .User, Content := content } = (.ok user, w3) →
      generate env fuel w sessionID content
        = generateLoop env sessionID fuel w3 (msgs ++ [user]) ∧
      msgs = w.messages.filter (fun m => m.SessionID = sessionID) ∧
      user.Role = .User ∧ user.Content = content ∧ user.SessionID = sessionID) ∧
    (∀ w messages, ∃ ext, (loopBody env w sessionID messages).2.2.log
        = w.log ++ .StreamResponse messages :: ext ∧
      ∀ a ∈ ext, a.isStreamResponse = false) ∧
    (∀ w messages next, (loopBody env w sessionID messages).1 = .next next →
      ∃ events asst toolMsg,
        env.stream w.calls messages = .ok events ∧
        (loopBody env w sessionID messages).2.1 = some asst ∧
        next = messages ++ [asst, toolMsg] ∧
        next.length = messages.length + 2 ∧
        asst.SessionID = sessionID ∧ asst.Role = .Assistant ∧
        asst.Content = contentOf events ∧ asst.Thinking = thinkingOf events ∧
        asst.ToolCalls ≠ [] ∧ asst.Finished = true ∧
        toolMsg.Role = .Tool ∧
        toolMsg.ToolResults = (ExecuteTools asst.ToolCalls env.tools).1 ∧
        (∀ fuel, generateLoop env sessionID (fuel + 1) w messages
          = generateLoop env sessionID fuel (loopBody env w sessionID messages).2.2 next) ∧
        ∃ ext, (loopBody env (loopBody env w sessionID messages).2.2 sessionID next).2.2.log
          = (loopBody env w sessionID messages).2.2.log
            ++ .StreamResponse (messages ++ [asst, toolMsg]) :: ext ∧
          ∀ a ∈ ext, a.isStreamResponse = false) := by
  refine ⟨?_, fun w messages => loopBody_asks_once env w sessionID messages, ?_⟩
  · intro fuel w content msgs w1 user w3 hl hc
    obtain ⟨hsid, hrole, hcont, -⟩ := Messages_Create_ok _ _ _ _ _ _ hc
    refine ⟨?_, ?_, hrole, hcont, hsid⟩
    · unfold generate
      rw [hl]
      simp only []
      rw [hc]
    · unfold Messages.List at hl
      simp only [] at hl
      split at hl
      · simp at hl
      · simp only [Prod.mk.injEq, Except.ok.injEq] at hl
        rw [← hl.1]
        rfl
  · intro w messages next h
    obtain ⟨events, asst, toolMsg, h1, h2, h3, h4, h5, h6, h7, h8, h9, h10, h11, h12⟩ :=
      loopBody_next env w sessionID messages next h
    refine ⟨events, asst, toolMsg, h1, h2, h3, by rw [h3]; simp, h4, h5, h6, h7, h8, h9, h10,
      h11, h12, ?_⟩
    have := loopBody_asks_once env (loopBody env w sessionID messages).2.2 sessionID next
    rw [h3] at this
    rw [h3]
    exact this

/-- Witness of C22: the scenario starts its loop with the new User message alone, and after
the first pass, which ends with a tool call, the history has three messages: the User message,
the Assistant message and the Tool message. -/
theorem generate_history_extends_witness :
    (∃ user w3, generate scenarioEnv 2 scenarioWorld "s1" "list files"
        = generateLoop scenarioEnv "s1" 2 w3 ([] ++ [user]) ∧
      user.Role = .User ∧ user.Content = "list files") ∧
    (∃ asst toolMsg,
      scenarioPassed = [scenarioUser] ++ [asst, toolMsg] ∧
      scenarioPassed.length = 1 + 2 ∧ asst.Role = .Assistant ∧ toolMsg.Role = .Tool) :=
  ⟨match (generate_history_extends scenarioEnv "s1").1 2 scenarioWorld "list files" [] _ _ _
      rfl rfl with
    | ⟨h1, _, h3, h4, _⟩ => ⟨_, _, h1, h3, h4⟩,
   match (generate_history_extends scenarioEnv "s1").2.2 scenarioWorld [scenarioUser]
      scenarioPassed (by decide) with
    | ⟨_, asst, toolMsg, _, _, h3, h4, _, h5, _, _, _, _, h6, _⟩ =>
      ⟨asst, toolMsg, h3, h4, h5, h6⟩⟩

/-! ### Conversion of the history: claim C25 -/

theorem convertFrom_length {J : Type} (Unmarshal : String → Except Err J) (cachedBlocks : Nat)
    (messages : List Message) :
    (convertFrom Unmarshal cachedBlocks messages).length = messages.length := by
  induction messages generalizing cachedBlocks with
  | nil => rfl
  | cons msg rest ih => simp [convertFrom, ih]

theorem convertFrom_getElem? {J : Type} (Unmarshal : String → Except Err J)
    (cachedBlocks : Nat) (messages : List Message) (i : Nat) (msg : Message)
    (h : messages[i]? = some msg) :
    ∃ c, (convertFrom Unmarshal cachedBlocks messages)[i]?
      = some (convertMessage Unmarshal c msg).1 := by
  induction messages generalizing cachedBlocks i with
  | nil => simp at h
  | cons m rest ih =>
    cases i with
    | zero =>
      simp only [List.getElem?_cons_zero, Option.some.injEq] at h
      subst h
      exact ⟨cachedBlocks, by simp [convertFrom]⟩
    | succ j =>
      simp only [List.getElem?_cons_succ] at h
      obtain ⟨c, hc⟩ := ih (convertMessage Unmarshal cachedBlocks m).2 j h
      exact ⟨c, by simpa [convertFrom] using hc⟩

theorem toolUseBlocks_eq {J : Type} (Unmarshal : String → Except Err J)
    (toolCalls : List ToolCall) :
    toolUseBlocks Unmarshal toolCalls =
      (toolCalls.filter (parses Unmarshal)).filterMap (fun toolCall =>
        (Unmarshal toolCall.Input).toOption.map
          (anthropic.ContentBlockParamUnion.ToolUseBlockParam toolCall.ID toolCall.Name)) ∧
    (toolUseBlocks Unmarshal toolCalls).length
      = (toolCalls.filter (parses Unmarshal)).length ∧
    ∀ b ∈ toolUseBlocks Unmarshal toolCalls, b.isToolUse = true := by
  induction toolCalls with
  | nil => exact ⟨rfl, rfl, by simp [toolUseBlocks]⟩
  | cons toolCall rest ih =>
    obtain ⟨i1, i2, i3⟩ := ih
    cases hu : Unmarshal toolCall.Input with
    | error e =>
      have hp : parses Unmarshal toolCall = false := by simp [parses, hu]
      simp only [toolUseBlocks, hu, List.filter_cons, hp]
      exact ⟨i1, i2, i3⟩
    | ok j =>
      have hp : parses Unmarshal toolCall = true := by simp [parses, hu]
      simp only [toolUseBlocks, hu, List.filter_cons, hp, if_true]
      refine ⟨?_, by simp [i2], ?_⟩
      · simp [List.filterMap_cons, hu, Except.toOption, i1]
      · intro b hb
        rcases List.mem_cons.1 hb with rfl | hb
        · rfl
        · exact i3 b hb

theorem convertMessage_assistant {J : Type} (Unmarshal : String → Except Err J)
    (cachedBlocks : Nat) (msg : Message) (h : msg.Role = .Assistant) :
    (convertMessage Unmarshal cachedBlocks msg).1.Role = anthropic.MessageParamRoleAssistant ∧
    (convertMessage Unmarshal cachedBlocks msg).1.Content.filter
        anthropic.ContentBlockParamUnion.isToolUse
      = toolUseBlocks Unmarshal msg.ToolCalls := by
  have hall : (toolUseBlocks Unmarshal msg.ToolCalls).filter
      anthropic.ContentBlockParamUnion.isToolUse = toolUseBlocks Unmarshal msg.ToolCalls :=
    List.filter_eq_self.2 (toolUseBlocks_eq Unmarshal msg.ToolCalls).2.2
  unfold convertMessage
  rw [h]
  simp only []
  split
  · unfold cachedTextBlock
    split
    · exact ⟨rfl, by simp [anthropic.ContentBlockParamUnion.isToolUse, hall]⟩
    · exact ⟨rfl, by simp [anthropic.ContentBlockParamUnion.isToolUse, hall]⟩
  · exact ⟨rfl, hall⟩

/-- C25: `convertToAnthropicMessages` returns as many vendor messages as the history has
messages, the one at each index converted from the message at that index; the tool-use blocks
of a converted Assistant message are those of its tool calls whose input `json.Unmarshal`
accepts, in order, so their number is the number of those calls, it is strictly smaller than
the number of tool calls when some input is rejected and equal to it when none is; and a Tool
message is converted into one tool-result block for each of its results, in order, whatever
the conversion of the tool calls did. -/
theorem convertToAnthropicMessages_drops {J : Type} (Unmarshal : String → Except Err J)
    (messages : List Message) :
    (anthropicProvider.convertToAnthropicMessages Unmarshal messages).length
      = messages.length ∧
    (∀ (i : Nat) msg, messages[i]? = some msg →
      ∃ c, (anthropicProvider.convertToAnthropicMessages Unmarshal messages)[i]?
        = some (convertMessage Unmarshal c msg).1) ∧
    (∀ c msg, msg.Role = .Assistant →
      (convertMessage Unmarshal c msg).1.Role = anthropic.MessageParamRoleAssistant ∧
      (convertMessage Unmarshal c msg).1.Content.filter
          anthropic.ContentBlockParamUnion.isToolUse
        = (msg.ToolCalls.filter (parses Unmarshal)).filterMap (fun toolCall =>
            (Unmarshal toolCall.Input).toOption.map
              (anthropic.ContentBlockParamUnion.ToolUseBlockParam toolCall.ID toolCall.Name)) ∧
      ((convertMessage Unmarshal c msg).1.Content.filter
          anthropic.ContentBlockParamUnion.isToolUse).length
        = (msg.ToolCalls.filter (parses Unmarshal)).length ∧
      ((∃ toolCall ∈ msg.ToolCalls, parses Unmarshal toolCall = false) →
        ((convertMessage Unmarshal c msg).1.Content.filter
          anthropic.ContentBlockParamUnion.isToolUse).length < msg.ToolCalls.length) ∧
      ((∀ toolCall ∈ msg.ToolCalls, parses Unmarshal toolCall = true) →
        ((convertMessage Unmarshal c msg).1.Content.filter
          anthropic.ContentBlockParamUnion.isToolUse).length = msg.ToolCalls.length)) ∧
    (∀ c msg, msg.Role = .Tool →
      (convertMessage Unmarshal c msg).1.Role = anthropic.MessageParamRoleUser ∧
      (convertMessage Unmarshal c msg).1.Content = msg.ToolResults.map toolResultBlock ∧
      (convertMessage Unmarshal c msg).1.Content.length = msg.ToolResults.length) := by
  refine ⟨convertFrom_length Unmarshal 0 messages,
    fun i msg h => convertFrom_getElem? Unmarshal 0 messages i msg h, ?_, ?_⟩
  · intro c msg hrole
    obtain ⟨h1, h2⟩ := convertMessage_assistant Unmarshal c msg hrole
    obtain ⟨t1, t2, -⟩ := toolUseBlocks_eq Unmarshal msg.ToolCalls
    refine ⟨h1, h2.trans t1, by rw [h2, t2], ?_, ?_⟩
    · rintro ⟨toolCall, hm, hp⟩
      rw [h2, t2]
      exact List.length_filter_lt_length_iff_exists.2 ⟨toolCall, hm, by simp [hp]⟩
    · intro hall
      rw [h2, t2, List.filter_eq_self.2 hall]
  · intro c msg hrole
    unfold convertMessage
    rw [hrole]
    exact ⟨rfl, rfl, by simp⟩

/-- Witness of C25: the history with the truncated input is converted into three vendor
messages, and the Assistant message, which has two tool calls, is converted into a message with
fewer than two tool-use blocks, while its Tool message keeps both results. -/
theorem convertToAnthropicMessages_drops_witness :
    (anthropicProvider.convertToAnthropicMessages strictUnmarshal malformedHistory).length = 3 ∧
    ((convertMessage strictUnmarshal 1 malformedAssistant).1.Content.filter
      anthropic.ContentBlockParamUnion.isToolUse).length < 2 :=
  ⟨(convertToAnthropicMessages_drops strictUnmarshal malformedHistory).1,
   ((convertToAnthropicMessages_drops strictUnmarshal malformedHistory).2.2.1 1
      malformedAssistant rfl).2.2.2.1
      ⟨{ ID := "tc2", Name := "ls", Input := "\x7b", Type_ := "tool_use" }, by decide,
        by decide⟩⟩

/-! ### The history is never empty: claim C24 -/

theorem anthropic_StreamResponse_panic {J : Type} (v : anthropic.Vendor J) (a : ProviderOptions)
    (messages : List Message) (tls : List tools.BaseTool) :
    anthropicProvider.StreamResponse v a messages tls = .panic ↔ messages = [] := by
  unfold anthropicProvider.StreamResponse anthropicProvider.temperature
  constructor
  · intro h
    cases hlast : messages.getLast? with
    | none => exact List.getLast?_eq_none_iff.1 hlast
    | some lastMessage =>
      rw [hlast] at h
      simp only [] at h
      by_cases hc : lastMessage.Role = MessageRole.User ∧
          strings.Contains (v.ToLower lastMessage.Content) "think" = true
      · rw [if_pos hc] at h
        simp at h
      · rw [if_neg hc] at h
        simp at h
  · rintro rfl
    rfl

theorem anthropic_StreamResponse_ok {J : Type} (v : anthropic.Vendor J) (a : ProviderOptions)
    (messages : List Message) (tls : List tools.BaseTool) (hne : messages ≠ []) :
    ∃ temperature, anthropicProvider.temperature v.ToLower messages = .ok temperature ∧
      anthropicProvider.StreamResponse v a messages tls =
        .ok (anthropicProvider.produce v.Accumulate {}
          (v.NewStreaming
            { Model := a.model.APIModel, MaxTokens := a.maxTokens, Temperature := temperature,
              Messages := anthropicProvider.convertToAnthropicMessages v.Unmarshal messages,
              Tools := anthropicProvider.convertToAnthropicTools v tls,
              System := [.TextBlockParam a.systemMessage true] }).1
          (v.NewStreaming
            { Model := a.model.APIModel, MaxTokens := a.maxTokens, Temperature := temperature,
              Messages := anthropicProvider.convertToAnthropicMessages v.Unmarshal messages,
              Tools := anthropicProvider.convertToAnthropicTools v tls,
              System := [.TextBlockParam a.systemMessage true] }).2) := by
  have ht : ∃ temperature, anthropicProvider.temperature v.ToLower messages = .ok temperature := by
    unfold anthropicProvider.temperature
    cases hlast : messages.getLast? with
    | none => exact absurd (List.getLast?_eq_none_iff.1 hlast) hne
    | some lastMessage =>
      simp only []
      split
      · exact ⟨1, rfl⟩
      · exact ⟨0, rfl⟩
  obtain ⟨temperature, ht⟩ := ht
  refine ⟨temperature, ht, ?_⟩
  unfold anthropicProvider.StreamResponse
  simp only [ht]

/-- C24: the Anthropic `StreamResponse` panics exactly on the empty history, and on every other
history it returns its event channel; `generate` starts its loop with a history that ends with
the User message just created; a pass started with a history that contains that message asks
the provider with that history only, and the history it hands to the next pass contains the
message too; so every history with which a run of `generate` that returns has asked the
provider contains the User message, is not empty, and does not make the Anthropic
`StreamResponse` panic. -/
theorem StreamResponse_history_nonempty {J : Type} (v : anthropic.Vendor J)
    (a : ProviderOptions) (tls : List tools.BaseTool) (env : Env)
    (sessionID content : String) :
    (∀ messages, anthropicProvider.StreamResponse v a messages tls = .panic ↔ messages = []) ∧
    (∀ messages, messages ≠ [] →
      ∃ events, anthropicProvider.StreamResponse v a messages tls = .ok events) ∧
    (∀ fuel w msgs w1 user w3, Messages.List env w sessionID = (.ok msgs, w1) →
      Messages.Create env
          (if msgs.length = 0 then w1.record (.TitleGeneration sessionID content) else w1)
          sessionID { Role := .User, Content := content } = (.ok user, w3) →
      generate env fuel w sessionID content
        = generateLoop env sessionID fuel w3 (msgs ++ [user]) ∧
      user.Role = .User ∧ user.Content = content ∧ user.SessionID = sessionID) ∧
    (∀ w messages (user : Message), user ∈ messages →
      (∀ h, Action.StreamResponse h ∈ (loopBody env w sessionID messages).2.2.log.drop
          w.log.length → h = messages) ∧
      (∀ next, (loopBody env w sessionID messages).1 = .next next → user ∈ next)) ∧
    (∀ fuel w r w1, generate env fuel w sessionID content = some (r, w1) →
      ∀ h, Action.StreamResponse h ∈ w1.log.drop w.log.length →
        (∃ user ∈ h, user.Role = .User ∧ user.Content = content ∧
          user.SessionID = sessionID) ∧
        h ≠ [] ∧ anthropicProvider.StreamResponse v a h tls ≠ .panic) := by
  have hpass : ∀ w messages (user : Message), user ∈ messages →
      (∀ h, Action.StreamResponse h ∈ (loopBody env w sessionID messages).2.2.log.drop
          w.log.length → h = messages) ∧
      (∀ next, (loopBody env w sessionID messages).1 = .next next → user ∈ next) := by
    intro w messages user hu
    obtain ⟨ext, hl, hno⟩ := loopBody_asks_once env w sessionID messages
    constructor
    · intro h hm
      rw [hl, drop_log] at hm
      rcases List.mem_cons.1 hm with heq | hm
      · cases heq; rfl
      · have := hno _ hm
        simp [Action.isStreamResponse] at this
    · intro next hn
      obtain ⟨events, asst, toolMsg, -, -, h3, -⟩ := loopBody_next env w sessionID messages next hn
      rw [h3]
      exact List.mem_append_left _ hu
  refine ⟨fun messages => anthropic_StreamResponse_panic v a messages tls, ?_, ?_, hpass, ?_⟩
  · intro messages hne
    obtain ⟨t, -, h⟩ := anthropic_StreamResponse_ok v a messages tls hne
    exact ⟨_, h⟩
  · intro fuel w msgs w1 user w3 hl hc
    obtain ⟨hsid, hrole, hcont, -⟩ := Messages_Create_ok _ _ _ _ _ _ hc
    refine ⟨?_, hrole, hcont, hsid⟩
    unfold generate
    rw [hl]
    simp only []
    rw [hc]
  · intro fuel w r w1 hgen
    obtain ⟨ext, hl, hp⟩ := generate_log_induct env sessionID content
      (fun l => ∀ h, Action.StreamResponse h ∈ l →
        ∃ user ∈ h, user.Role = .User ∧ user.Content = content ∧ user.SessionID = sessionID)
      (fun h => ∃ user ∈ h, user.Role = .User ∧ user.Content = content ∧
        user.SessionID = sessionID)
      (by
        intro l1 l2 h1 h2 h hm
        rcases List.mem_append.1 hm with hm | hm
        · exact h1 h hm
        · exact h2 h hm)
      (by
        intro pre ho h hm
        have := ho _ hm
        simp [Action.opens] at this)
      (by
        intro msgs user h1 h2 h3
        exact ⟨user, by simp, h1, h2, h3⟩)
      (by
        intro w0 messages hI
        obtain ⟨user, hu, hprops⟩ := hI
        obtain ⟨ext, hl, hno⟩ := loopBody_asks_once env w0 sessionID messages
        obtain ⟨hsame, hnext⟩ := hpass w0 messages user hu
        refine ⟨_, hl, ?_, ?_⟩
        · intro h hm
          have : h = messages := hsame h (by rw [hl, drop_log]; exact hm)
          rw [this]
          exact ⟨user, hu, hprops⟩
        · intro ms hms
          exact ⟨user, hnext ms hms, hprops⟩)
      fuel w r w1 hgen
    intro h hm
    rw [hl, drop_log] at hm
    obtain ⟨user, hu, hprops⟩ := hp h hm
    have hne : h ≠ [] := List.ne_nil_of_mem hu
    refine ⟨⟨user, hu, hprops⟩, hne, ?_⟩
    intro hpanic
    exact hne ((anthropic_StreamResponse_panic v a h tls).1 hpanic)

/-- Witness of C24: the run of the scenario returns, it has asked the provider with the history
that holds the User message alone, and the Anthropic `StreamResponse` does not panic on that
history. -/
theorem StreamResponse_history_nonempty_witness :
    ∃ w1, generate scenarioEnv 2 scenarioWorld "s1" "list files" = some (.ok (), w1) ∧
      Action.StreamResponse [scenarioUser] ∈ w1.log.drop scenarioWorld.log.length ∧
      [scenarioUser] ≠ [] ∧
      anthropicProvider.StreamResponse sampleVendor
        { systemMessage := "be brief", model := scenarioEnv.model } [scenarioUser] [lsTool]
        ≠ .panic :=
  ⟨_, rfl, by decide,
    ((StreamResponse_history_nonempty sampleVendor
        { systemMessage := "be brief", model := scenarioEnv.model } [lsTool] scenarioEnv "s1"
        "list files").2.2.2.2 2 scenarioWorld (.ok ()) _ rfl [scenarioUser] (by decide)).2⟩

end Opencode
